import Mathlib

/-!
# Trading engine: order normalisation, strategy, gateway results, candle aggregation

A shallow embedding of the C++ sources (`src/cpp`, `src/qt`) and theorems about it.

Numeric conventions of the embedding:

* a C++ `double` is an exact rational (`ℚ`): every arithmetic operation is the exact one, so
  the theorems speak about the algorithms with their explicit `1e-9` tolerances, not about
  IEEE-754 rounding;
* where the rounding decides the outcome, in normalising a volume twice, `normalize_volume`
  is embedded a second time in the namespace `Ieee`, with the rounding to the nearest
  binary64 number after every operation;
* `std::floor`, `std::ceil` and `std::round` are `cfloor`, `cceil` and `cround`;
* `long long` / `qint64` timestamps are integers (`ℤ`), far from overflow;
* `std::string` is `String`, `std::vector` is `List` (oldest first, as in the sources).
-/

set_option autoImplicit false

/-! ## Arithmetic primitives -/

/-- The C library `floor` on the rational model of `double`. -/
def cfloor (x : ℚ) : ℚ := ((⌊x⌋ : ℤ) : ℚ)

/-- The C library `ceil` on the rational model of `double`. -/
def cceil (x : ℚ) : ℚ := ((⌈x⌉ : ℤ) : ℚ)

/-- The C library `round`: nearest integer, halfway cases away from zero. -/
def cround (x : ℚ) : ℚ :=
  if 0 ≤ x then ((⌊x + 1 / 2⌋ : ℤ) : ℚ) else ((⌈x - 1 / 2⌉ : ℤ) : ℚ)

/-! ## `types.hpp` -/

/-- Record `Candle` of `types.hpp`; the field `open` is spelled `open_`. -/
structure Candle where
  ts_ms : ℤ
  open_ : ℚ
  high : ℚ
  low : ℚ
  close : ℚ
  volume : ℚ
deriving DecidableEq

/-- Record `OrderRequest` of `types.hpp`. -/
structure OrderRequest where
  market : String
  side : String
  ord_type : String
  price : ℚ
  volume : ℚ
deriving DecidableEq

/-- Record `OrderResult` of `types.hpp`, with its default member initialisers. -/
structure OrderResult where
  accepted : Bool := false
  uuid : String := ""
  http_status : ℤ := 0
  error_message : String := ""
  raw_response : String := ""
deriving DecidableEq

/-- Record `CancelRequest` of `types.hpp`. -/
structure CancelRequest where
  uuid : String
deriving DecidableEq

/-! ## `upbit_rest.cpp`: price and volume normalisation -/

namespace UpbitRestClient

/-- Constant `kMinNotionalKRW`. -/
def kMinNotionalKRW : ℚ := 5000

/-- Constant `kFeeRateTaker`. -/
def kFeeRateTaker : ℚ := 5 / 10000

/-- Static member `taker_fee_rate`. -/
def taker_fee_rate : ℚ := kFeeRateTaker

/-- The literal `1e-9` used as tolerance in both normalisers. -/
def epsilon : ℚ := 1 / 1000000000

/-- The local variable `tick` of `normalize_price` after its `if`/`else if` chain
(initial value `0.0001`). -/
def price_tick (price : ℚ) : ℚ :=
  if price ≥ 2000000 then 1000
  else if price ≥ 1000000 then 500
  else if price ≥ 500000 then 100
  else if price ≥ 100000 then 50
  else if price ≥ 50000 then 10
  else if price ≥ 10000 then 5
  else if price ≥ 1000 then 1
  else if price ≥ 100 then 1 / 10
  else if price ≥ 10 then 1 / 100
  else if price ≥ 1 then 1 / 1000
  else 1 / 10000

/-- Static member `UpbitRestClient::normalize_price`. -/
def normalize_price (price : ℚ) : ℚ :=
  if price ≤ 0 then 0
  else
    let tick := price_tick price
    let scaled := cfloor (price / tick + epsilon) * tick
    let rounded := cround (scaled * 100000000) / 100000000
    rounded

/-- Static member `UpbitRestClient::normalize_volume`. -/
def normalize_volume (price volume : ℚ) (is_buy : Bool) (min_notional : ℚ) : ℚ :=
  if price ≤ 0 then 0
  else
    let fee_rate := taker_fee_rate
    let target := volume
    let min_volume := min_notional / price
    let min_volume :=
      if is_buy && decide (fee_rate > 0) then
        max min_volume ((min_notional / price) / (1 - fee_rate))
      else min_volume
    let target := max target min_volume
    let quantized := cfloor (target * 100000000 + epsilon) / 100000000
    let quantized :=
      if quantized < min_volume - epsilon then
        cceil (min_volume * 100000000 - epsilon) / 100000000
      else quantized
    let notional := price * quantized
    let quantized :=
      if notional < min_notional - epsilon then
        cceil ((min_notional / price) * 100000000 - epsilon) / 100000000
      else quantized
    quantized

end UpbitRestClient

/-! ## `upbit_rest.cpp`: helpers of the anonymous namespace -/

/-- The double-quote character. -/
def dquote : Char := Char.ofNat 34

/-- Removes every trailing occurrence of `c`: the loop
`while (!s.empty() && s.back() == c) s.pop_back();`. -/
def strip_trailing (c : Char) (s : List Char) : List Char :=
  (s.reverse.dropWhile (fun x => x == c)).reverse

/-- Scan used by `find_sub`: first index, counted from `i`, at which `pat` starts in `s`. -/
def find_from (pat : List Char) : List Char → Nat → Option Nat
  | [], i => if pat.isEmpty then some i else none
  | c :: cs, i => if pat.isPrefixOf (c :: cs) then some i else find_from pat cs (i + 1)

/-- Library call `std::string::find(const char*, pos)`; `none` is `npos`. -/
def find_sub (s pat : List Char) (pos : Nat) : Option Nat :=
  if pos > s.length then none else find_from pat (s.drop pos) pos

/-- Library call `std::string::find(char, pos)`; `none` is `npos`. -/
def find_char (s : List Char) (c : Char) (pos : Nat) : Option Nat :=
  let rest := s.drop pos
  let i := rest.indexOf c
  if i < rest.length then some (pos + i) else none

/-- Function `extract_uuid`. -/
def extract_uuid (body : String) : String :=
  let b := body.toList
  match find_sub b [dquote, 'u', 'u', 'i', 'd', dquote] 0 with
  | none => ""
  | some key_pos =>
    match find_char b ':' key_pos with
    | none => ""
    | some colon =>
      match find_char b dquote (colon + 1) with
      | none => ""
      | some quote =>
        match find_char b dquote (quote + 1) with
        | none => ""
        | some end_ => String.mk ((b.drop (quote + 1)).take (end_ - quote - 1))

/-- Rounding of the stream library when it prints a value with a fixed number of decimals:
to nearest, exact ties to even. -/
def round_half_even (x : ℚ) : ℤ :=
  let f := ⌊x⌋
  let r := x - f
  if r < 1 / 2 then f else if 1 / 2 < r then f + 1 else if f % 2 = 0 then f else f + 1

/-- Library behaviour of `oss << std::fixed << std::setprecision(decimals) << value`:
optional sign, integer digits and, when `decimals > 0`, a point and exactly `decimals`
digits. -/
def fixed_repr (value : ℚ) (decimals : Nat) : List Char :=
  let n := (round_half_even (|value| * (10 : ℚ) ^ decimals)).toNat
  let ip := (Nat.repr (n / 10 ^ decimals)).toList
  let fp := (Nat.repr (n % 10 ^ decimals)).toList
  let sign := if value < 0 then ['-'] else []
  if decimals = 0 then sign ++ ip
  else sign ++ ip ++ ['.'] ++ List.replicate (decimals - fp.length) '0' ++ fp

/-- Function `format_decimal`. -/
def format_decimal (value : ℚ) (max_decimals : Nat) : String :=
  let str := fixed_repr value max_decimals
  let str :=
    if str.contains '.' then
      let str := strip_trailing '0' str
      if str.getLast? = some '.' then str.dropLast else str
    else str
  if str.isEmpty then "0" else String.mk str

/-- The C library `tolower` applied to every character, as done with `std::transform`. -/
def to_lower (s : String) : String := String.mk (s.toList.map Char.toLower)

/-! ## `upbit_rest.cpp`: signing and the order endpoints -/

/-- The external library calls the client makes while signing: `curl_easy_escape` (through
`url_encode`), `SHA512` rendered by `bytes_to_hex`, `HMAC` with `EVP_sha256`,
`EVP_EncodeBlock`, and the random string returned by `generate_nonce`. -/
structure Lib where
  url_encode : String → String
  sha512_hex : String → String
  hmac_sha256 : String → String → String
  evp_encode_block : String → String
  nonce : String

/-- What the libraries guarantee and the client relies on to obtain a token: the base64 text
of a non-empty input starts with a character of the base64 alphabet (never the padding
`=`), and a MAC is never empty. -/
def Lib.WellBehaved (lib : Lib) : Prop :=
  (∀ s : String, s ≠ "" →
      ∃ c rest, (lib.evp_encode_block s).toList = c :: rest ∧ c ≠ '=') ∧
    (∀ key msg : String, lib.hmac_sha256 key msg ≠ "")

/-- An HTTP request as handed to libcurl. -/
structure HttpRequest where
  method : String
  url : String
  headers : List String
  body : String
deriving DecidableEq

/-- What `curl_easy_perform` and `curl_easy_getinfo` report for the request performed:
whether the return code is `CURLE_OK`, the text `curl_easy_strerror` gives for it, the
response code and the response body collected by `write_callback`. -/
structure CurlReply where
  rc_ok : Bool
  strerror : String
  http_code : ℤ
  response : String
deriving DecidableEq

/-- The network side of one call: whether `curl_easy_init` yields a handle, and what libcurl
reports once the request has been performed. -/
structure Net where
  curl_init_ok : Bool
  reply : CurlReply

/-- The members of class `UpbitRestClient`. -/
structure UpbitRestClient where
  base_url : String := "https://api.upbit.com"
  access_key : String := ""
  secret_key : String := ""
deriving DecidableEq

namespace UpbitRestClient

/-- Function `base64_url_encode`. -/
def base64_url_encode (lib : Lib) (input : String) : String :=
  if input = "" then ""
  else
    let buffer := (lib.evp_encode_block input).toList
    if buffer.length ≤ 0 then ""
    else
      let buffer := buffer.map (fun c => if c = '+' then '-' else if c = '/' then '_' else c)
      String.mk (strip_trailing '=' buffer)

/-- Comparator of the `std::sort` call in `build_authorization_token`, as a total preorder
on the keys (`a` may stay before `b` unless `b.first < a.first`). -/
def param_le (a b : String × String) : Prop := ¬ (b.1 < a.1)

instance param_le_decidable : DecidableRel param_le := fun a b =>
  inferInstanceAs (Decidable (¬ (b.1 < a.1)))

/-- Member `UpbitRestClient::build_authorization_token`. -/
def build_authorization_token (lib : Lib) (self : UpbitRestClient)
    (params : List (String × String)) : String :=
  if self.access_key = "" ∨ self.secret_key = "" then ""
  else
    let sorted := params.insertionSort param_le
    let query := "&".intercalate
      (sorted.map (fun p => lib.url_encode p.1 ++ "=" ++ lib.url_encode p.2))
    let query_hash_hex := if query ≠ "" then lib.sha512_hex query else ""
    let nonce := lib.nonce
    let payload := "\x7b\"access_key\":\"" ++ self.access_key ++ "\",\"nonce\":\"" ++ nonce ++ "\""
      ++ (if query ≠ "" then
            ",\"query_hash\":\"" ++ query_hash_hex ++ "\",\"query_hash_alg\":\"SHA512\""
          else "")
      ++ "\x7d"
    let header := "\x7b\"alg\":\"HS256\",\"typ\":\"JWT\"\x7d"
    let header_b64 := base64_url_encode lib header
    let payload_b64 := base64_url_encode lib payload
    if header_b64 = "" ∨ payload_b64 = "" then ""
    else
      let signing_input := header_b64 ++ "." ++ payload_b64
      let signature := lib.hmac_sha256 self.secret_key signing_input
      let signature_b64 := base64_url_encode lib signature
      if signature_b64 = "" then "" else "Bearer " ++ signing_input ++ "." ++ signature_b64

/-- Member `UpbitRestClient::post_order`: the result, and the request given to libcurl if
one was performed. -/
def post_order (lib : Lib) (net : Net) (self : UpbitRestClient) (req : OrderRequest) :
    OrderResult × Option HttpRequest :=
  let result : OrderResult := {}
  if req.market = "" then (result, none)
  else
    let is_buy : Bool := decide (req.side = "buy") || decide (req.side = "bid")
    let side := if is_buy then "bid" else "ask"
    let ord_type := to_lower (if req.ord_type = "" then "limit" else req.ord_type)
    let price := if ord_type = "limit" then normalize_price req.price else req.price
    let volume :=
      if ord_type = "limit" then normalize_volume price req.volume is_buy kMinNotionalKRW
      else req.volume
    let params : List (String × String) :=
      [("market", req.market), ("side", side), ("ord_type", ord_type)]
        ++ (if ord_type = "limit" then
              [("price", format_decimal price 8), ("volume", format_decimal volume 8)]
            else if ord_type = "price" then [("price", format_decimal req.price 8)]
            else if ord_type = "market" then [("volume", format_decimal req.volume 8)]
            else [])
    let auth := build_authorization_token lib self params
    if auth = "" then (result, none)
    else if net.curl_init_ok = false then (result, none)
    else
      let body_str := "\x7b"
        ++ ",".intercalate (params.map (fun p => "\"" ++ p.1 ++ "\":\"" ++ p.2 ++ "\""))
        ++ "\x7d"
      let request : HttpRequest :=
        { method := "POST"
          url := self.base_url ++ "/v1/orders"
          headers := ["Content-Type: application/json", "Accept: application/json",
                      "Authorization: " ++ auth]
          body := body_str }
      let reply := net.reply
      let result := { result with http_status := reply.http_code, raw_response := reply.response }
      if reply.rc_ok = false then
        ({ result with error_message := reply.strerror }, some request)
      else if reply.http_code ≥ 400 then
        if reply.http_code = 429 then
          ({ result with error_message := "HTTP 429 rate limited" }, some request)
        else
          ({ result with error_message := "HTTP error " ++ toString result.http_status },
            some request)
      else
        let uuid := extract_uuid reply.response
        ({ result with uuid := uuid, accepted := decide (uuid ≠ "") }, some request)

/-- Member `UpbitRestClient::cancel_order`: the result, and the request given to libcurl if
one was performed. -/
def cancel_order (lib : Lib) (net : Net) (self : UpbitRestClient) (req : CancelRequest) :
    OrderResult × Option HttpRequest :=
  let result : OrderResult := {}
  if req.uuid = "" then (result, none)
  else
    let params : List (String × String) := [("uuid", req.uuid)]
    let auth := build_authorization_token lib self params
    if auth = "" then (result, none)
    else if net.curl_init_ok = false then (result, none)
    else
      let request : HttpRequest :=
        { method := "DELETE"
          url := self.base_url ++ "/v1/order?uuid=" ++ lib.url_encode req.uuid
          headers := ["Accept: application/json", "Authorization: " ++ auth]
          body := "" }
      let reply := net.reply
      let result := { result with http_status := reply.http_code, raw_response := reply.response }
      if reply.rc_ok = false then
        ({ result with error_message := reply.strerror }, some request)
      else if reply.http_code ≥ 400 then
        if reply.http_code = 429 then
          ({ result with error_message := "HTTP 429 rate limited" }, some request)
        else
          ({ result with error_message := "HTTP error " ++ toString result.http_status },
            some request)
      else
        let uuid := extract_uuid reply.response
        ({ result with uuid := uuid, accepted := decide (uuid ≠ "") }, some request)

end UpbitRestClient

/-- Member `UpbitRestClient::get_candles_minutes`, the placeholder series of the sources
(`unit` is not used by it). -/
def UpbitRestClient.get_candles_minutes (market : String) (_unit count : ℕ) : List Candle :=
  let px : ℚ := if market = "KRW-BTC" then 100 else 50
  (List.range count).map (fun (i : ℕ) =>
    { ts_ms := 1000 * (i : ℤ)
      open_ := px
      high := px * (101 / 100)
      low := px * (99 / 100)
      close := px * (1 + (1 / 1000) * (i : ℚ))
      volume := 1 })

/-! ## `order_manager.cpp` -/

/-- The members of class `OrderManager`. -/
structure OrderManager where
  rest : UpbitRestClient
  fee_rate : ℚ
  min_notional : ℚ

namespace OrderManager

/-- The local variable `normalized` of `OrderManager::place_order` at the point where it is
passed to `rest_.post_order`. -/
def place_order_normalized (self : OrderManager) (req : OrderRequest) : OrderRequest :=
  let normalized := req
  let is_buy : Bool := decide (req.side = "buy") || decide (req.side = "bid")
  let normalized :=
    if normalized.ord_type = "" then { normalized with ord_type := "limit" } else normalized
  let normalized := { normalized with ord_type := to_lower normalized.ord_type }
  if normalized.ord_type = "limit" then
    let normalized := { normalized with price := UpbitRestClient.normalize_price req.price }
    { normalized with
      volume := UpbitRestClient.normalize_volume normalized.price req.volume is_buy
        self.min_notional }
  else if normalized.ord_type = "price" then
    let normalized := { normalized with price := max req.price self.min_notional }
    let normalized := { normalized with price := cfloor normalized.price }
    { normalized with volume := 0 }
  else if normalized.ord_type = "market" then
    let ref_price := if req.price > 0 then req.price else normalized.price
    let ref_price := if ref_price ≤ 0 then 1 else ref_price
    { normalized with
      volume := UpbitRestClient.normalize_volume ref_price req.volume is_buy self.min_notional }
  else normalized

/-- Member `OrderManager::place_order` (the log lines written to `std::clog` are not part
of the model). -/
def place_order (lib : Lib) (net : Net) (self : OrderManager) (req : OrderRequest) :
    OrderResult × Option HttpRequest :=
  self.rest.post_order lib net (place_order_normalized self req)

/-- Member `OrderManager::cancel_order`. -/
def cancel_order (lib : Lib) (net : Net) (self : OrderManager) (req : CancelRequest) :
    OrderResult × Option HttpRequest :=
  self.rest.cancel_order lib net req

end OrderManager

/-! ## `strategy_5m_scalper.cpp` -/

/-- Record `TradeDecision` of `strategy_5m_scalper.hpp`, with its default initialisers. -/
structure TradeDecision where
  enter_long : Bool := false
  exit_position : Bool := false
  limit_price : ℚ := 0
deriving DecidableEq

/-- A value-initialised `Candle{}`. -/
instance : Inhabited Candle := ⟨⟨0, 0, 0, 0, 0, 0⟩⟩

/-- The element `c[i]` of a candle vector (indices are in range wherever the sources use
them). -/
def candle_at (c : List Candle) (i : Nat) : Candle := c.getD i default

/-- The value `tr` computed in the loop body of `atr5` for index `i`. -/
def true_range (c : List Candle) (i : Nat) : ℚ :=
  max (max ((candle_at c i).high - (candle_at c i).low)
    |(candle_at c i).high - (candle_at c (i - 1)).close|)
    |(candle_at c i).low - (candle_at c (i - 1)).close|

/-- Function `atr5`: the loop runs over `i = c.size() - n, ..., c.size() - 1` and
accumulates the sum `s` and the count `k`. -/
def atr5 (c : List Candle) (n : Nat) : ℚ :=
  if c.length < n + 1 then 0
  else
    let sk := (List.range' (c.length - n) n).foldl
      (fun (acc : ℚ × Nat) i => (acc.1 + true_range c i, acc.2 + 1)) (0, 0)
    if sk.2 ≠ 0 then sk.1 / sk.2 else 0

namespace Strategy5mScalper

/-- The value of `hh` after the loop of `evaluate`: seeded with `last.high`, then raised by
the highs at the indices `c.size() - 6, ..., c.size() - 2`. -/
def rolling_high (c : List Candle) : ℚ :=
  (List.range' (c.length - 6) 5).foldl (fun hh i => max hh (candle_at c i).high)
    (c.getLastD default).high

/-- Member `Strategy5mScalper::evaluate`. -/
def evaluate (c : List Candle) : TradeDecision :=
  let d : TradeDecision := {}
  if c.length < 8 then d
  else
    let last := c.getLastD default
    let atr := atr5 c 14
    let hh := rolling_high c
    let breakout : Bool := decide (last.close > hh)
    if breakout && decide (atr > 0) then
      { d with enter_long := true, limit_price := last.close }
    else d

end Strategy5mScalper

/-! ## `EngineBridge.cpp`: the candle aggregator -/

/-- The fields `processTradeMessage` reads from a trade message: `code` as a string,
`trade_price` and `trade_volume` through `jsonToDouble`, `trade_timestamp` through
`jsonToTimestampMs`. -/
structure TradeMessage where
  code : String
  trade_price : ℚ
  trade_volume : ℚ
  trade_timestamp : ℤ
deriving DecidableEq

namespace EngineBridge

/-- Constant `kCandlesLookback5m`. -/
def kCandlesLookback5m : Nat := 120

/-- Member `EngineBridge::processTradeMessage` as a function of the members it uses: the
subscribed market `market_` and the series `c5_`; the result is the new `c5_`. The call of
`scheduleRealtimeEmit` at the end does not touch the series. -/
def processTradeMessage (market : String) (c5 : List Candle) (obj : TradeMessage) :
    List Candle :=
  if c5.isEmpty then c5
  else if obj.code ≠ "" ∧ market ≠ "" ∧ obj.code ≠ market then c5
  else
    let price := obj.trade_price
    let volume := obj.trade_volume
    let ts := obj.trade_timestamp
    if price ≤ 0 ∨ ts ≤ 0 then c5
    else
      let last := c5.getLastD default
      if ts < last.ts_ms then c5
      else
        let windowMs : ℤ := 5 * 60 * 1000
        if ts - last.ts_ms ≥ windowMs then
          let next : Candle :=
            { ts_ms := ts
              open_ := last.close
              close := price
              high := max last.close price
              low := min last.close price
              volume := volume }
          let c5 := c5 ++ [next]
          if c5.length > kCandlesLookback5m then c5.tail else c5
        else
          c5.dropLast ++
            [{ last with
                close := price
                high := max last.high price
                low := min last.low price
                volume := last.volume + volume }]

end EngineBridge

/-! ## The tick table as the specification words it -/

/-- The candles the specification calls "the 5 candles preceding the last": the last five of
the series without its last candle. -/
def specPrior5 (c : List Candle) : List Candle :=
  c.dropLast.drop (c.dropLast.length - 5)

/-- A well-formed 5-minute candle of a steadily rising market: it opens at its low
`100 + i` and closes at its high `101 + i`. -/
def rising_candle (i : ℕ) : Candle :=
  { ts_ms := 300000 * ((i : ℤ) + 1)
    open_ := 100 + (i : ℚ)
    high := 101 + (i : ℚ)
    low := 100 + (i : ℚ)
    close := 101 + (i : ℚ)
    volume := 1 }

/-- Ten rising candles, oldest first. -/
def rising10 : List Candle :=
  [rising_candle 0, rising_candle 1, rising_candle 2, rising_candle 3, rising_candle 4,
   rising_candle 5, rising_candle 6, rising_candle 7, rising_candle 8, rising_candle 9]

/-- Fifteen rising candles, oldest first. -/
def rising15 : List Candle :=
  rising10 ++ [rising_candle 10, rising_candle 11, rising_candle 12, rising_candle 13,
    rising_candle 14]

/-! ## Auxiliary definition used in the proofs on the order endpoints -/

/-- The result that `post_order` and `cancel_order` build from libcurl's reply once the
request has been performed (the two functions end with the same statements). -/
def reply_result (reply : CurlReply) : OrderResult :=
  if reply.rc_ok = false then
    { http_status := reply.http_code, raw_response := reply.response,
      error_message := reply.strerror }
  else if reply.http_code ≥ 400 then
    if reply.http_code = 429 then
      { http_status := reply.http_code, raw_response := reply.response,
        error_message := "HTTP 429 rate limited" }
    else
      { http_status := reply.http_code, raw_response := reply.response,
        error_message := "HTTP error " ++ toString reply.http_code }
  else
    { http_status := reply.http_code, raw_response := reply.response,
      uuid := extract_uuid reply.response,
      accepted := decide (extract_uuid reply.response ≠ "") }

/-! ## Sample values used to instantiate the theorems on the order endpoints -/

/-- A stand-in for the external libraries that meets `Lib.WellBehaved`: every base64 text is
`QQ==` and every MAC is `m`. -/
def sample_lib : Lib :=
  { url_encode := fun s => s
    sha512_hex := fun _ => "00"
    hmac_sha256 := fun _ _ => "m"
    evp_encode_block := fun _ => "QQ=="
    nonce := "n" }

/-- A client holding a pair of keys. -/
def sample_client : UpbitRestClient :=
  { base_url := "https://api.upbit.com", access_key := "ak", secret_key := "sk" }

/-- A limit buy of 0.001 at 1000 on `KRW-BTC`. -/
def sample_request : OrderRequest :=
  { market := "KRW-BTC", side := "buy", ord_type := "limit", price := 1000, volume := 1 / 1000 }

/-- A reply with status 201 whose body carries an order id. -/
def sample_net_created : Net :=
  { curl_init_ok := true
    reply := { rc_ok := true, strerror := "", http_code := 201,
               response := "\x7b\"uuid\":\"abc\"\x7d" } }

/-- A reply with status 429 whose body nevertheless carries a `uuid` field. -/
def sample_net_rate_limited : Net :=
  { curl_init_ok := true
    reply := { rc_ok := true, strerror := "", http_code := 429,
               response := "\x7b\"uuid\":\"abc\"\x7d" } }

/-! ## The order type and side of a request, as `place_order` and `post_order` read them -/

/-- The order type after the defaulting of an empty type to `limit` and the lower-casing. -/
def effective_ord_type (req : OrderRequest) : String :=
  to_lower (if req.ord_type = "" then "limit" else req.ord_type)

/-- The test `req.side == "buy" || req.side == "bid"`. -/
def side_is_buy (req : OrderRequest) : Bool :=
  decide (req.side = "buy") || decide (req.side = "bid")

/-- A quote-notional market buy of 100, written with an upper-case type. -/
def sample_price_request : OrderRequest :=
  { market := "KRW-BTC", side := "buy", ord_type := "PRICE", price := 100, volume := 3 }

/-- An order manager with the default fee rate and the default floor 5000. -/
def sample_manager : OrderManager :=
  { rest := sample_client, fee_rate := 5 / 10000, min_notional := 5000 }

/-- An order manager whose floor 5000.5 is not a whole number. -/
def sample_manager_fractional_floor : OrderManager :=
  { rest := sample_client, fee_rate := 5 / 10000, min_notional := 10001 / 2 }

/-! ## Sample trades for the candle aggregator -/

/-- First trade of the window that starts at timestamp 1000. -/
def sample_trade_1 : TradeMessage :=
  { code := "KRW-BTC", trade_price := 100, trade_volume := 1, trade_timestamp := 1000 }

/-- Second trade of that window, at a higher price. -/
def sample_trade_2 : TradeMessage :=
  { code := "KRW-BTC", trade_price := 105, trade_volume := 1, trade_timestamp := 2000 }

/-- Third trade of that window, at a lower price. -/
def sample_trade_3 : TradeMessage :=
  { code := "KRW-BTC", trade_price := 95, trade_volume := 1, trade_timestamp := 3000 }

/-- A trade five minutes after the start of that window. -/
def sample_trade_4 : TradeMessage :=
  { code := "KRW-BTC", trade_price := 101, trade_volume := 1, trade_timestamp := 301000 }

/-- A trade stamped before the window that starts at timestamp 1000. -/
def sample_trade_old : TradeMessage :=
  { code := "KRW-BTC", trade_price := 101, trade_volume := 1, trade_timestamp := 500 }

/-- A baseline candle whose interval starts at timestamp 1000. -/
def sample_baseline : Candle :=
  { ts_ms := 1000, open_ := 99, high := 102, low := 98, close := 100, volume := 5 }

/-! ## Auxiliary definitions used in the proofs on the candle aggregator -/

/-- The tail candle as `processTradeMessage` rewrites it for a trade of the same interval. -/
def updated_tail (last : Candle) (obj : TradeMessage) : Candle :=
  { ts_ms := last.ts_ms
    open_ := last.open_
    high := max last.high obj.trade_price
    low := min last.low obj.trade_price
    close := obj.trade_price
    volume := last.volume + obj.trade_volume }

/-- The candle `next` that `processTradeMessage` appends for a trade starting a new
interval. -/
def next_candle (last : Candle) (obj : TradeMessage) : Candle :=
  { ts_ms := obj.trade_timestamp
    open_ := last.close
    high := max last.close obj.trade_price
    low := min last.close obj.trade_price
    close := obj.trade_price
    volume := obj.trade_volume }

/-! ## `risk_manager.cpp` -/

namespace RiskManager

/-- Member `RiskManager::calc_position_size`. -/
def calc_position_size (equity_krw atr risk_per_trade : ℚ) : ℚ :=
  if atr ≤ 0 then 0
  else
    let risk_amt := equity_krw * risk_per_trade
    max 0 (risk_amt / atr)

/-- Member `RiskManager::daily_stop_triggered`. -/
def daily_stop_triggered (daily_pnl_ratio daily_stop_ratio : ℚ) : Bool :=
  decide (daily_pnl_ratio ≤ -|daily_stop_ratio|)

end RiskManager

/-! ## `market_selector.cpp` -/

/-- The calls into the C math library, `std::log` and `std::sqrt`, as functions on the
rational model of `double`. -/
structure MathLib where
  log : ℚ → ℚ
  sqrt : ℚ → ℚ

/-- What is used of the math library: the logarithm vanishes at 1 and increases strictly on
the positive numbers, the square root vanishes at 0 and increases strictly on the
non-negative numbers. -/
def MathLib.WellBehaved (m : MathLib) : Prop :=
  m.log 1 = 0 ∧ (∀ x y : ℚ, 0 < x → x < y → m.log x < m.log y) ∧
    m.sqrt 0 = 0 ∧ (∀ x y : ℚ, 0 ≤ x → x < y → m.sqrt x < m.sqrt y)

/-- Record `Ticker24h` of `types.hpp`. -/
structure Ticker24h where
  market : String
  acc_trade_price_24h : ℚ
deriving DecidableEq

/-- The pairs `(c[i-1], c[i])` for `i = 1, ..., c.size() - 1`, in this order: what a loop
`for (size_t i = 1; i < c.size(); ++i)` over consecutive candles visits. -/
def consecutive_pairs (c : List Candle) : List (Candle × Candle) :=
  c.zip c.tail

/-- The comparison `score > best` where `best` starts at minus infinity (`none`). -/
def exceeds_best (score : ℚ) (best : Option ℚ) : Bool :=
  match best with
  | none => true
  | some b => decide (score > b)

/-- Function `realized_vol_1m` of `market_selector.cpp`: the loop accumulates the sum `s2`
of the squared log-returns and their count `n`. -/
def realized_vol_1m (m : MathLib) (c : List Candle) : ℚ :=
  if c.length < 2 then 0
  else
    let acc := (consecutive_pairs c).foldl
      (fun (acc : ℚ × ℕ) (p : Candle × Candle) =>
        let r := m.log (p.2.close / p.1.close)
        (acc.1 + r * r, acc.2 + 1)) (0, 0)
    m.sqrt (acc.1 / ((max 1 acc.2 : ℕ) : ℚ))

namespace MarketSelector

/-- Member `MarketSelector::select_top_market`: the loop state is the pair of `best` and
`best_mkt`. -/
def select_top_market (m : MathLib) (tickers : List Ticker24h)
    (candles_1m : List (String × List Candle)) : String :=
  (tickers.foldl
    (fun (st : Option ℚ × String) (t : Ticker24h) =>
      match candles_1m.find? (fun p => p.1 == t.market) with
      | none => st
      | some it =>
        let rv := realized_vol_1m m it.2
        let score := m.log (max (1 / 1000000000) t.acc_trade_price_24h) * rv
        if exceeds_best score st.1 then (some score, t.market) else st)
    (none, "")).2

end MarketSelector

/-! ## `engine.cpp` -/

/-- Member `UpbitRestClient::get_markets_krw`, the placeholder of the sources. -/
def UpbitRestClient.get_markets_krw : List String := ["KRW-BTC", "KRW-ETH"]

/-- Member `UpbitRestClient::get_tickers`, the placeholder of the sources. -/
def UpbitRestClient.get_tickers (markets : List String) : List Ticker24h :=
  markets.map (fun mk =>
    { market := mk, acc_trade_price_24h := if mk = "KRW-BTC" then 1 else 8 / 10 })

/-- The members of class `Engine` that hold data: the REST client, whose credentials the
constructor takes from the environment. -/
structure Engine where
  rest : UpbitRestClient

namespace Engine

/-- Member `Engine::run_once`; the order manager is the one built by the constructor, with
the default fee rate and floor. -/
def run_once (lib : Lib) (net : Net) (m : MathLib) (self : Engine) : ℤ :=
  let markets := UpbitRestClient.get_markets_krw
  let tickers := UpbitRestClient.get_tickers markets
  let m1 := markets.map (fun mk => (mk, UpbitRestClient.get_candles_minutes mk 1 60))
  let market := MarketSelector.select_top_market m tickers m1
  if market = "" then 1
  else
    let c5 := UpbitRestClient.get_candles_minutes market 5 50
    let decision := Strategy5mScalper.evaluate c5
    if decision.enter_long then
      let req : OrderRequest :=
        { market := market, side := "buy", ord_type := "limit",
          price := decision.limit_price, volume := 1 / 1000 }
      let res := (OrderManager.place_order lib net
        { rest := self.rest, fee_rate := UpbitRestClient.taker_fee_rate, min_notional := 5000 }
        req).1
      if res.accepted then 0 else 2
    else 0

end Engine

/-! ## `EngineBridge.cpp`: market selection, orders and position -/

/-- Enumeration `EngineBridge::RequestKind`. -/
inductive RequestKind where
  | None
  | Markets
  | Tickers
  | Candles5m
  | Candles1m
deriving DecidableEq

/-- A request handed to `QNetworkAccessManager::get`: the URL and its query items. -/
structure GetRequest where
  url : String
  query : List (String × String)
deriving DecidableEq

/-- The fields the reply handlers read from one element of the JSON array of a reply, with
the values Qt gives for a missing field (empty string, 0). -/
structure ReplyItem where
  market : String := ""
  acc_trade_price_24h : ℚ := 0
  timestamp : ℤ := 0
  opening_price : ℚ := 0
  high_price : ℚ := 0
  low_price : ℚ := 0
  trade_price : ℚ := 0
  candle_acc_trade_volume : ℚ := 0
deriving DecidableEq

/-- A finished network reply: an error, or a body whose JSON document is an array of objects
(`some`) or is not an array (`none`). -/
inductive NetworkReply where
  | error
  | body (doc : Option (List ReplyItem))
deriving DecidableEq

/-- Record `EngineBridge::PendingOrder`. -/
structure PendingOrder where
  isBuy : Bool := false
  price : ℚ := 0
  volume : ℚ := 0
  submittedMs : ℤ := 0
  filledVolume : ℚ := 0
  weightedFillPrice : ℚ := 0
  bestBidAtSubmit : ℚ := 0
  bestAskAtSubmit : ℚ := 0
deriving DecidableEq

/-- One element of the `trades` array of a private order message. -/
structure TradeFill where
  trade_price : ℚ
  trade_volume : ℚ
  trade_timestamp : ℤ
deriving DecidableEq

/-- The fields `processMyOrderMessage` reads from a private order message; `trades` is
`none` when the message has no such key. -/
structure MyOrderMessage where
  uuid : String
  side : String
  trade_price : ℚ
  trade_volume : ℚ
  trade_timestamp : ℤ
  trades : Option (List TradeFill)
  remaining_volume : ℚ
  state : String
deriving DecidableEq

/-- The data members of `EngineBridge` that the selection pipeline, the order tracking and
the position use. `pending` is the request in flight (`pending_`), `bestScore = none` is
minus infinity, `volume24h` lists the entries of the hash `volume24h_` in insertion order,
`pendingOrders` is the hash `pendingOrders_` as a lookup function, and `retries` collects
the kinds for which a retry timer was started. Emitted signals, log lines and socket
messages are not part of the state. -/
structure Bridge where
  market : String := ""
  c5 : List Candle := []
  pending : Option GetRequest := none
  pendingKind : RequestKind := RequestKind.None
  pendingMarket : String := ""
  pendingUnit : ℤ := 0
  marketsKRW : List String := []
  nextTickerIndex : ℕ := 0
  volume24h : List (String × ℚ) := []
  candidateQueue : List String := []
  candidateIndex : ℕ := 0
  bestMarket : String := ""
  bestScore : Option ℚ := none
  selectionReady : Bool := false
  subscribedMarket : String := ""
  pendingOrders : String → Option PendingOrder := fun _ => none
  positionQty : ℚ := 0
  positionAvg : ℚ := 0
  bestBid : ℚ := 0
  bestAsk : ℚ := 0
  retries : List RequestKind := []

namespace EngineBridge

/-- Constant `kTickerBatchSize`. -/
def kTickerBatchSize : ℕ := 15

/-- Constant `kTopCandidates`. -/
def kTopCandidates : ℕ := 10

/-- Constant `kCandlesLookback1m`. -/
def kCandlesLookback1m : ℕ := 60

/-- Library call `QHash::insert`: the value of an existing key is replaced. -/
def hash_insert (h : List (String × ℚ)) (key : String) (value : ℚ) : List (String × ℚ) :=
  h.filter (fun e => e.1 ≠ key) ++ [(key, value)]

/-- Library call `QHash::value(key, defaultValue)`. -/
def hash_value (h : List (String × ℚ)) (key : String) (defaultValue : ℚ) : ℚ :=
  match h.find? (fun e => e.1 == key) with
  | some e => e.2
  | none => defaultValue

/-- Comparator of the `std::sort` call in `fetchNextTickerChunk` as a total preorder: `a` may
stay before `b` unless `b` has the larger 24h value. -/
def volume_ge (h : List (String × ℚ)) (a b : String) : Prop :=
  ¬ (hash_value h b 0 > hash_value h a 0)

instance volume_ge_decidable (h : List (String × ℚ)) : DecidableRel (volume_ge h) :=
  fun a b => inferInstanceAs (Decidable (¬ (hash_value h b 0 > hash_value h a 0)))

/-- Member `EngineBridge::fetchCandles`. -/
def fetchCandles (unit count : ℕ) (kind : RequestKind) (market : String) (s : Bridge) :
    Bridge :=
  if s.pending.isSome then s
  else
    { s with
      pendingKind := kind
      pendingMarket := market
      pendingUnit := unit
      pending := some
        { url := "https://api.upbit.com/v1/candles/minutes/" ++ toString unit
          query := [("market", market), ("count", toString count)] } }

/-- Member `EngineBridge::fetchCandles5m`. -/
def fetchCandles5m (s : Bridge) : Bridge :=
  if s.market = "" then s
  else fetchCandles 5 kCandlesLookback5m RequestKind.Candles5m s.market s

/-- Member `EngineBridge::fetchMarkets`. -/
def fetchMarkets (s : Bridge) : Bridge :=
  if s.pending.isSome then s
  else
    { s with
      pendingKind := RequestKind.Markets
      pendingMarket := ""
      pendingUnit := 0
      pending := some
        { url := "https://api.upbit.com/v1/market/all", query := [("isDetails", "false")] } }

/-- The statements shared by the two places that publish the selected market: set
`selectionReady_`, remember the subscription and fetch the 5-minute candles. -/
def publish_market (s : Bridge) : Bridge :=
  let s := { s with selectionReady := true }
  let s := if s.subscribedMarket ≠ s.market then { s with subscribedMarket := s.market } else s
  fetchCandles5m s

/-- Member `EngineBridge::evaluateNextCandidate`. -/
def evaluateNextCandidate (s : Bridge) : Bridge :=
  if s.pending.isSome then s
  else if s.candidateIndex ≥ s.candidateQueue.length ∨ s.candidateQueue.isEmpty then
    let s :=
      if s.bestMarket = "" then
        if ¬ s.candidateQueue.isEmpty then { s with bestMarket := s.candidateQueue.headD "" }
        else if ¬ s.marketsKRW.isEmpty then { s with bestMarket := s.marketsKRW.headD "" }
        else { s with bestMarket := "KRW-BTC" }
      else s
    let s := { s with market := s.bestMarket }
    publish_market s
  else
    let market := s.candidateQueue.getD s.candidateIndex ""
    let s := { s with candidateIndex := s.candidateIndex + 1 }
    fetchCandles 1 kCandlesLookback1m RequestKind.Candles1m market s

/-- Member `EngineBridge::fetchNextTickerChunk`. -/
def fetchNextTickerChunk (s : Bridge) : Bridge :=
  if s.pending.isSome then s
  else if s.marketsKRW.isEmpty then
    let s := { s with market := "KRW-BTC" }
    publish_market s
  else if s.nextTickerIndex ≥ s.marketsKRW.length then
    let ordered := ((s.volume24h.map (fun e => e.1)).insertionSort (volume_ge s.volume24h))
    let limit := min kTopCandidates ordered.length
    let s :=
      { s with
        candidateQueue := ordered.take limit
        candidateIndex := 0
        bestMarket := ""
        bestScore := none }
    evaluateNextCandidate s
  else
    let chunk := (s.marketsKRW.drop s.nextTickerIndex).take kTickerBatchSize
    let s := { s with nextTickerIndex := s.nextTickerIndex + chunk.length }
    if chunk.isEmpty then evaluateNextCandidate s
    else
      { s with
        pendingKind := RequestKind.Tickers
        pendingMarket := ""
        pendingUnit := 0
        pending := some
          { url := "https://api.upbit.com/v1/ticker"
            query := [("markets", ",".intercalate chunk)] } }

/-- The candle a reply handler builds from one element of the reply array. -/
def reply_candle (obj : ReplyItem) : Candle :=
  { ts_ms := obj.timestamp
    open_ := obj.opening_price
    high := obj.high_price
    low := obj.low_price
    close := obj.trade_price
    volume := obj.candle_acc_trade_volume }

/-- The vector a reply handler fills from the document: empty unless it is an array. -/
def reply_candles (doc : Option (List ReplyItem)) : List Candle :=
  match doc with
  | some arr => arr.map reply_candle
  | none => []

/-- The value `rv` of the `Candles1m` handler for the (already reversed) vector `minutes`:
the loop skips the pairs with a non-positive close and accumulates `sumSq` and `n`. -/
def candles1m_rv (m : MathLib) (minutes : List Candle) : ℚ :=
  let acc := (consecutive_pairs minutes).foldl
    (fun (acc : ℚ × ℕ) (p : Candle × Candle) =>
      if p.1.close ≤ 0 ∨ p.2.close ≤ 0 then acc
      else
        let r := m.log (p.2.close / p.1.close)
        (acc.1 + r * r, acc.2 + 1)) (0, 0)
  if acc.2 > 0 then m.sqrt (acc.1 / (acc.2 : ℚ)) else 0

/-- The scoring block of the `Candles1m` handler, `if (minutes.size() > 1) { ... }`, for the
vector `minutes` as filled from the reply (newest first). -/
def score_candles1m (m : MathLib) (s : Bridge) (minutes : List Candle) : Bridge :=
  if minutes.length > 1 then
    let minutes := minutes.reverse
    let rv := candles1m_rv m minutes
    let vol24 := hash_value s.volume24h s.pendingMarket 0
    if rv > 0 ∧ vol24 > 0 then
      let score := m.log vol24 * rv
      if exceeds_best score s.bestScore then
        { s with bestScore := some score, bestMarket := s.pendingMarket }
      else s
    else s
  else s

/-- Member `EngineBridge::onNetworkReply`. -/
def onNetworkReply (m : MathLib) (s : Bridge) (reply : NetworkReply) : Bridge :=
  if s.pending.isNone then s
  else
    let s := { s with pending := none }
    match reply with
    | NetworkReply.error =>
      let failedKind := s.pendingKind
      { s with pendingKind := RequestKind.None, retries := s.retries ++ [failedKind] }
    | NetworkReply.body doc =>
      let s :=
        match s.pendingKind with
        | RequestKind.Markets =>
          let s := { s with marketsKRW := [] }
          let s :=
            match doc with
            | some arr =>
              { s with
                marketsKRW := (arr.map (fun (obj : ReplyItem) => obj.market)).filter
                  (fun (market : String) => "KRW-".toList.isPrefixOf market.toList) }
            | none => s
          let s := { s with nextTickerIndex := 0, volume24h := [] }
          fetchNextTickerChunk s
        | RequestKind.Tickers =>
          let s :=
            match doc with
            | some arr =>
              arr.foldl
                (fun (s : Bridge) (obj : ReplyItem) =>
                  if obj.market ≠ "" ∧ obj.acc_trade_price_24h > 0 then
                    { s with
                      volume24h := hash_insert s.volume24h obj.market obj.acc_trade_price_24h }
                  else s) s
            | none => s
          fetchNextTickerChunk s
        | RequestKind.Candles1m =>
          let s := score_candles1m m s (reply_candles doc)
          evaluateNextCandidate s
        | RequestKind.Candles5m =>
          let updated := reply_candles doc
          if ¬ updated.isEmpty then { s with c5 := updated.reverse } else s
        | RequestKind.None => s
      { s with pendingKind := RequestKind.None }

/-- The body of the timer started by `onNetworkReply` after a failed request. -/
def onRetryTimer (s : Bridge) (failedKind : RequestKind) : Bridge :=
  match failedKind with
  | RequestKind.Markets => fetchMarkets s
  | RequestKind.Tickers => fetchNextTickerChunk s
  | RequestKind.Candles1m => evaluateNextCandidate s
  | RequestKind.Candles5m => fetchCandles5m s
  | RequestKind.None => s

/-- Member `EngineBridge::onFiveMinuteTick`. -/
def onFiveMinuteTick (s : Bridge) : Bridge :=
  if s.selectionReady = false ∨ s.market = "" then s else fetchCandles5m s

/-- Member `EngineBridge::start`, as far as the state above is concerned: the market list is
requested (the timers and sockets it starts are outside the state). -/
def start (s : Bridge) : Bridge := fetchMarkets s

/-- Member `EngineBridge::updatePosition`. -/
def updatePosition (s : Bridge) (isBuy : Bool) (price volume : ℚ) (_ts_ms : ℤ) : Bridge :=
  if volume ≤ 0 then s
  else if isBuy then
    let totalCost := s.positionAvg * s.positionQty + price * volume
    let s := { s with positionQty := s.positionQty + volume }
    { s with positionAvg := if s.positionQty > 0 then totalCost / s.positionQty else 0 }
  else if volume ≥ s.positionQty - 1 / 100000000 then
    { s with positionQty := 0, positionAvg := 0 }
  else { s with positionQty := s.positionQty - volume }

/-- The lambda `handleFill` of `processMyOrderMessage`, with the captured `uuid` and `isBuy`
as arguments (the timestamp only goes into the emitted signal). -/
def handleFill (s : Bridge) (uuid : String) (isBuy : Bool) (price volume : ℚ) (ts : ℤ) :
    Bridge :=
  if price ≤ 0 ∨ volume ≤ 0 then s
  else
    let s := updatePosition s isBuy price volume ts
    match s.pendingOrders uuid with
    | none => s
    | some ctx =>
      let prevFilled := ctx.filledVolume
      let ctx := { ctx with filledVolume := ctx.filledVolume + volume }
      let ctx :=
        if ctx.filledVolume > 0 then
          { ctx with
            weightedFillPrice :=
              ((ctx.weightedFillPrice * prevFilled) + price * volume) / ctx.filledVolume }
        else ctx
      { s with pendingOrders := Function.update s.pendingOrders uuid (some ctx) }

/-- The first part of `processMyOrderMessage`: the fills the message carries are applied. -/
def apply_fills (s : Bridge) (obj : MyOrderMessage) : Bridge :=
  let isBuy : Bool := decide (to_lower obj.side = "bid")
  if obj.trade_volume > 0 ∧ obj.trade_price > 0 then
    handleFill s obj.uuid isBuy obj.trade_price obj.trade_volume obj.trade_timestamp
  else
    match obj.trades with
    | some trades =>
      trades.foldl
        (fun (s : Bridge) (t : TradeFill) =>
          handleFill s obj.uuid isBuy t.trade_price t.trade_volume t.trade_timestamp) s
    | none => s

/-- Member `EngineBridge::processMyOrderMessage`: the fills are applied, then an order
reported with no remaining volume or in state `done` is removed from the table. -/
def processMyOrderMessage (s : Bridge) (obj : MyOrderMessage) : Bridge :=
  let s := apply_fills s obj
  if obj.remaining_volume ≤ 0 ∨ obj.state = "done" then
    { s with pendingOrders := Function.update s.pendingOrders obj.uuid none }
  else s

end EngineBridge

/-! ## Auxiliary definitions for the theorems on the position and the order table -/

/-- A sequence of `updatePosition` calls, each given by its arguments
`(isBuy, price, volume, ts_ms)`, applied in order. -/
def apply_position_calls (s : Bridge) (calls : List (Bool × ℚ × ℚ × ℤ)) : Bridge :=
  calls.foldl (fun s c => EngineBridge.updatePosition s c.1 c.2.1 c.2.2.1 c.2.2.2) s

/-- A freshly constructed `EngineBridge`, before `start`. -/
def initial_bridge : Bridge := {}

/-- The volume `handleFill` adds to a tracked order for a fill: the fill's volume when its
price and volume are positive, 0 otherwise. -/
def counted_volume (price volume : ℚ) : ℚ :=
  if price ≤ 0 ∨ volume ≤ 0 then 0 else volume

/-- The total volume of the fills a private order message carries: the top-level fill when
its volume and price are positive, else the counted fills of its `trades` array. -/
def message_fill_volume (obj : MyOrderMessage) : ℚ :=
  if obj.trade_volume > 0 ∧ obj.trade_price > 0 then obj.trade_volume
  else
    match obj.trades with
    | some trades => (trades.map (fun t => counted_volume t.trade_price t.trade_volume)).sum
    | none => 0

/-- An order as the table holds it right after its acceptance: requested volume 1 at price
100, nothing filled. -/
def sample_order : PendingOrder :=
  { isBuy := true, price := 100, volume := 1, submittedMs := 1, filledVolume := 0,
    weightedFillPrice := 0, bestBidAtSubmit := 99, bestAskAtSubmit := 100 }

/-- A bridge state that tracks `sample_order` under the id `abc`. -/
def sample_tracking : Bridge :=
  { pendingOrders := fun id => if id = "abc" then some sample_order else none }

/-- A fill of 2 at 100 for order `abc` (twice its requested volume), reported with 1
remaining. -/
def sample_overfill : MyOrderMessage :=
  { uuid := "abc", side := "bid", trade_price := 100, trade_volume := 2,
    trade_timestamp := 10, trades := none, remaining_volume := 1, state := "trade" }

/-- The body of the loop of `select_top_market`, as written there. -/
def select_step (m : MathLib) (candles_1m : List (String × List Candle))
    (st : Option ℚ × String) (t : Ticker24h) : Option ℚ × String :=
  match candles_1m.find? (fun p => p.1 == t.market) with
  | none => st
  | some it =>
    let rv := realized_vol_1m m it.2
    let score := m.log (max (1 / 1000000000) t.acc_trade_price_24h) * rv
    if exceeds_best score st.1 then (some score, t.market) else st

/-- An engine whose REST client holds the sample credentials. -/
def sample_engine : Engine := { rest := sample_client }

/-! ## The realized volatility as the specification words it, and sample series -/

/-- The consecutive log-returns `ln(close_i / close_{i-1})` of a series, over the pairs in
which both closes are positive. -/
def spec_log_returns (m : MathLib) (c : List Candle) : List ℚ :=
  ((consecutive_pairs c).filter
    (fun p => decide (0 < p.1.close) && decide (0 < p.2.close))).map
    (fun p => m.log (p.2.close / p.1.close))

/-- The sample variance of a list of numbers: the sum of the squared deviations from the
mean, divided by the length minus one. -/
def spec_sample_variance (rs : List ℚ) : ℚ :=
  (rs.map (fun r => (r - rs.sum / (rs.length : ℚ)) ^ 2)).sum / ((rs.length : ℚ) - 1)

/-- The sample standard deviation of a list of numbers. -/
def spec_sample_std (m : MathLib) (rs : List ℚ) : ℚ :=
  m.sqrt (spec_sample_variance rs)

/-- The root mean square of a list of numbers (0 for the empty list): no mean is
subtracted and the divisor is the length. -/
def root_mean_square (m : MathLib) (rs : List ℚ) : ℚ :=
  if rs.length > 0 then m.sqrt ((rs.map (fun r => r * r)).sum / (rs.length : ℚ)) else 0

/-- A stand-in for the math library that meets `MathLib.WellBehaved`: `log x = x - 1` and
`sqrt x = x`. -/
def sample_math : MathLib :=
  { log := fun x => x - 1, sqrt := fun x => x }

/-- A 1-minute candle, number `i` of its series, that trades at one price only. -/
def minute_candle (i : ℕ) (close : ℚ) : Candle :=
  { ts_ms := 60000 * (i : ℤ), open_ := close, high := close, low := close, close := close,
    volume := 1 }

/-- A series that doubles every minute: its log-returns are all equal. -/
def steady_series : List Candle := [minute_candle 0 1, minute_candle 1 2, minute_candle 2 4]

/-- A series that doubles once and then stands still. -/
def moving_series : List Candle := [minute_candle 0 1, minute_candle 1 2, minute_candle 2 2]

/-- A series whose close never moves. -/
def flat_series : List Candle := [minute_candle 0 5, minute_candle 1 5, minute_candle 2 5]

/-- The tickers `A` with 24h notional 1,000,000 and `B` with 500,000. -/
def tickers_AB : List Ticker24h :=
  [{ market := "A", acc_trade_price_24h := 1000000 },
   { market := "B", acc_trade_price_24h := 500000 }]

/-- The state of the bridge when the scoring of the candidates `A` and `B` starts: their 24h
notionals are recorded, nothing is scored yet and no request is in flight. -/
def scan_start_AB : Bridge :=
  { volume24h := [("A", 1000000), ("B", 500000)]
    marketsKRW := ["A", "B"]
    candidateQueue := ["A", "B"]
    candidateIndex := 2 }

/-- The scoring block of the `Candles1m` handler for the reply to candidate `mk`, whose
candles are `series` oldest first (the reply lists them newest first). -/
def score_candidate (m : MathLib) (s : Bridge) (mk : String) (series : List Candle) : Bridge :=
  EngineBridge.score_candles1m m { s with pendingMarket := mk } series.reverse

/-- The state of the bridge when the scoring of the candidates `Y` (24h notional 2) and `X`
(24h notional 1) starts: the queue lists them by notional, nothing is scored yet and no
request is in flight. -/
def scan_start_YX : Bridge :=
  { volume24h := [("Y", 2), ("X", 1)]
    marketsKRW := ["Y", "X"]
    candidateQueue := ["Y", "X"]
    candidateIndex := 2 }

/-- The market that `evaluateNextCandidate` publishes when the scan has finished, as the
statements of its first branch assign it. -/
def finished_market (s : Bridge) : String :=
  if s.bestMarket ≠ "" then s.bestMarket
  else if s.candidateQueue ≠ [] then s.candidateQueue.headD ""
  else if s.marketsKRW ≠ [] then s.marketsKRW.headD ""
  else "KRW-BTC"

/-- A successful reply to the market-list request that lists two KRW markets and one other. -/
def sample_markets_reply : NetworkReply :=
  NetworkReply.body (some
    [{ market := "KRW-BTC" }, { market := "BTC-ETH" }, { market := "KRW-ETH" }])

/-- A successful reply to the ticker request for `KRW-BTC,KRW-ETH`, with positive 24h
notionals. -/
def sample_tickers_reply : NetworkReply :=
  NetworkReply.body (some
    [{ market := "KRW-BTC", acc_trade_price_24h := 5000000000 },
     { market := "KRW-ETH", acc_trade_price_24h := 3000000000 }])

/-- The ticker request that `fetchNextTickerChunk` issues for a chunk of markets. -/
def ticker_request (chunk : List String) : GetRequest :=
  { url := "https://api.upbit.com/v1/ticker", query := [("markets", ",".intercalate chunk)] }

/-- The KRW markets the `Markets` handler keeps from a reply array. -/
def krw_markets (arr : List ReplyItem) : List String :=
  (arr.map (fun (obj : ReplyItem) => obj.market)).filter
    (fun (market : String) => "KRW-".toList.isPrefixOf market.toList)

/-- What reaches the bridge after `start`: the reply to the request in flight has finished,
or the 30-second timer has fired. -/
inductive BridgeEvent where
  | reply (r : NetworkReply)
  | tick
deriving DecidableEq

/-- The slot that an event runs: `onNetworkReply` or `onFiveMinuteTick`. -/
def on_event (m : MathLib) (s : Bridge) (e : BridgeEvent) : Bridge :=
  match e with
  | BridgeEvent.reply r => EngineBridge.onNetworkReply m s r
  | BridgeEvent.tick => EngineBridge.onFiveMinuteTick s

/-! ## Sample series for the theorems on the strategy -/

/-- Sixteen 5-minute candles without range that alternate between the prices 5 and 6, so
that every true range is 1. -/
def gapped_flat16 : List Candle :=
  (List.range 16).map (fun (i : ℕ) =>
    { ts_ms := 300000 * ((i : ℤ) + 1)
      open_ := 5 + ((i % 2 : ℕ) : ℚ)
      high := 5 + ((i % 2 : ℕ) : ℚ)
      low := 5 + ((i % 2 : ℕ) : ℚ)
      close := 5 + ((i % 2 : ℕ) : ℚ)
      volume := 1 })

/-! ## What `post_order` sends -/

namespace UpbitRestClient

end UpbitRestClient

namespace UpbitRestClient

/-- The value of `min_volume` in `normalize_volume` once the fee is taken into account. -/
def min_volume_of (price : ℚ) (is_buy : Bool) (min_notional : ℚ) : ℚ :=
  if is_buy && decide (taker_fee_rate > 0) then
    max (min_notional / price) ((min_notional / price) / (1 - taker_fee_rate))
  else min_notional / price

/-- The statements of `normalize_volume` from `target = std::max(target, min_volume)` to the
end, with the value of `min_volume` as an argument. -/
def quantize_volume (price min_notional min_volume volume : ℚ) : ℚ :=
  let target := max volume min_volume
  let quantized := cfloor (target * 100000000 + epsilon) / 100000000
  let quantized :=
    if quantized < min_volume - epsilon then
      cceil (min_volume * 100000000 - epsilon) / 100000000
    else quantized
  let notional := price * quantized
  let quantized :=
    if notional < min_notional - epsilon then
      cceil ((min_notional / price) * 100000000 - epsilon) / 100000000
    else quantized
  quantized

end UpbitRestClient

/-! ## The key that `extract_uuid` looks for, and a reply without an order id -/

/-- The text `"uuid"`, quotes included. -/
def uuid_key : List Char := [dquote, 'u', 'u', 'i', 'd', dquote]

/-- A response body whose `uuid` field is `null`. -/
def null_uuid_body : String := "\x7b\"uuid\":null,\"market\":\"KRW-BTC\"\x7d"

/-- A reply with status 200 whose body has a `null` order id. -/
def sample_net_null_uuid : Net :=
  { curl_init_ok := true
    reply := { rc_ok := true, strerror := "", http_code := 200, response := null_uuid_body } }

/-! ## The number that a plain decimal string denotes -/

/-- The number that a string of decimal digits denotes (0 for the empty string). -/
def digits_value (l : List Char) : ℕ :=
  l.foldl (fun acc c => 10 * acc + (c.toNat - 48)) 0

/-- The number that a plain decimal string denotes: the integer digits before the first
point, plus the digits after it as a fraction. -/
def decimal_value (s : String) : ℚ :=
  let ip := s.toList.takeWhile (fun c => c != '.')
  let fp := (s.toList.dropWhile (fun c => c != '.')).drop 1
  (digits_value ip : ℚ) + (digits_value fp : ℚ) / (10 : ℚ) ^ fp.length

/-! ## `normalize_volume` in IEEE binary64 arithmetic

The definitions above compute with exact rationals. For the question whether normalising a
volume twice gives the same volume the rounding of every arithmetic operation matters, so
`normalize_volume` is embedded a second time, with every operation on `double` followed by
the rounding to the nearest binary64 number. -/

namespace Ieee

/-- The binary64 number nearest to `x`, ties to the even significand: the significand has 53
bits, the unit in the last place is `2 ^ (floor(log2 |x|) - 52)`. Overflow and subnormal
numbers are not modelled (no value in `normalize_volume` comes near them for prices and
volumes of an order). -/
def round_double (x : ℚ) : ℚ :=
  if x = 0 then 0
  else
    let e := Int.log 2 |x| - 52
    (round_half_even (x / (2 : ℚ) ^ e) : ℚ) * (2 : ℚ) ^ e

/-- Constant `kFeeRateTaker`: the `double` that the literal `0.0005` denotes. -/
def kFeeRateTaker : ℚ := round_double (5 / 10000)

/-- Static member `taker_fee_rate`. -/
def taker_fee_rate : ℚ := kFeeRateTaker

/-- The local constant `epsilon` of `normalize_volume`: the `double` that the literal `1e-9`
denotes. -/
def epsilon : ℚ := round_double (1 / 1000000000)

/-- The value of `min_volume` in `normalize_volume` once the fee is taken into account, in
binary64 arithmetic. -/
def min_volume (price : ℚ) (is_buy : Bool) (min_notional : ℚ) : ℚ :=
  let fee_rate := taker_fee_rate
  let min_volume := round_double (min_notional / price)
  if is_buy && decide (fee_rate > 0) then
    max min_volume
      (round_double (round_double (min_notional / price) / round_double (1 - fee_rate)))
  else min_volume

/-- Static member `UpbitRestClient::normalize_volume` in binary64 arithmetic: every product,
quotient, sum and difference of the source is rounded; `std::floor`, `std::ceil` and
`std::max` are exact, and `1e8`, `1.0` and `0.0` are binary64 numbers. -/
def normalize_volume (price volume : ℚ) (is_buy : Bool) (min_notional : ℚ) : ℚ :=
  if price ≤ 0 then 0
  else
    let target := volume
    let min_volume := min_volume price is_buy min_notional
    let target := max target min_volume
    let quantized :=
      round_double (cfloor (round_double (round_double (target * 100000000) + epsilon))
        / 100000000)
    let quantized :=
      if quantized < round_double (min_volume - epsilon) then
        round_double (cceil (round_double (round_double (min_volume * 100000000) - epsilon))
          / 100000000)
      else quantized
    let notional := round_double (price * quantized)
    let quantized :=
      if notional < round_double (min_notional - epsilon) then
        round_double
          (cceil (round_double
            (round_double (round_double (min_notional / price) * 100000000) - epsilon))
            / 100000000)
      else quantized
    quantized

end Ieee

theorem cfloor_eq_of (x : ℚ) (n : ℤ) (h1 : (n : ℚ) ≤ x) (h2 : x < n + 1) : cfloor x = n := by
  unfold cfloor
  exact_mod_cast congrArg (Int.cast : ℤ → ℚ) (Int.floor_eq_iff.mpr ⟨h1, h2⟩)

theorem cceil_eq_of (x : ℚ) (n : ℤ) (h1 : (n : ℚ) - 1 < x) (h2 : x ≤ n) : cceil x = n := by
  unfold cceil
  exact_mod_cast congrArg (Int.cast : ℤ → ℚ) (Int.ceil_eq_iff.mpr ⟨h1, h2⟩)

theorem cceil_ge (x : ℚ) : x ≤ cceil x := by
  unfold cceil
  exact Int.le_ceil x

theorem cfloor_le (x : ℚ) : cfloor x ≤ x := by
  unfold cfloor
  exact Int.floor_le x

namespace UpbitRestClient

theorem epsilon_pos : 0 < epsilon := by unfold epsilon; norm_num

theorem cfloor_int_add_eps (m : ℤ) : cfloor ((m : ℚ) + epsilon) = m := by
  apply cfloor_eq_of
  · have := epsilon_pos; linarith
  · unfold epsilon; norm_num

end UpbitRestClient

/-! ## C1: the notional produced by `normalize_volume` -/

namespace UpbitRestClient

end UpbitRestClient

/-! ## C2, C3: `normalize_price` -/

namespace UpbitRestClient

end UpbitRestClient

namespace UpbitRestClient

end UpbitRestClient

namespace UpbitRestClient

end UpbitRestClient

namespace UpbitRestClient

end UpbitRestClient

namespace UpbitRestClient

end UpbitRestClient

/-! ## C4, C5: the strategy evaluator -/

namespace Strategy5mScalper

theorem foldl_max_lt (l : List ℕ) (f : ℕ → ℚ) (init x : ℚ) :
    l.foldl (fun hh i => max hh (f i)) init < x ↔ init < x ∧ ∀ i ∈ l, f i < x := by
  induction l generalizing init with
  | nil => simp
  | cons a l ih =>
    simp only [List.foldl_cons, ih, max_lt_iff, List.mem_cons, forall_eq_or_imp]
    tauto

/-- The entry condition of `evaluate` in closed form. -/
theorem evaluate_enter_long_iff (c : List Candle) :
    (evaluate c).enter_long = true ↔
      8 ≤ c.length ∧ rolling_high c < (c.getLastD default).close ∧ 0 < atr5 c 14 := by
  unfold evaluate
  by_cases h8 : c.length < 8
  · rw [if_pos h8]
    constructor
    · intro h; exact absurd h (by decide)
    · intro h; omega
  · have h8' : 8 ≤ c.length := by omega
    rw [if_neg h8]
    simp only []
    split_ifs with h
    · simp only [Bool.and_eq_true, decide_eq_true_eq, gt_iff_lt] at h
      exact ⟨fun _ => ⟨h8', h.1, h.2⟩, fun _ => rfl⟩
    · simp only [Bool.and_eq_true, decide_eq_true_eq, gt_iff_lt] at h
      constructor
      · intro h'; exact absurd h' (by decide)
      · intro h'; exact absurd ⟨h'.2.1, h'.2.2⟩ h

theorem atr5_short (c : List Candle) (h : c.length < 15) : atr5 c 14 = 0 := by
  unfold atr5
  rw [if_pos (by omega)]

theorem candle_at_mem_specPrior5 (c : List Candle) (i : ℕ) (h1 : c.length - 6 ≤ i)
    (h2 : i < c.length - 1) : candle_at c i ∈ specPrior5 c := by
  unfold specPrior5 candle_at
  have hi : i < c.length := by omega
  have hl : c.dropLast.length = c.length - 1 := List.length_dropLast c
  rw [List.getD_eq_getElem _ _ hi, List.mem_iff_getElem?]
  refine ⟨i - (c.dropLast.length - 5), ?_⟩
  rw [List.getElem?_drop, show c.dropLast.length - 5 + (i - (c.dropLast.length - 5)) = i by omega,
    List.dropLast_eq_take, List.getElem?_take_of_lt (by omega), List.getElem?_eq_getElem hi]

end Strategy5mScalper
namespace Strategy5mScalper

/-- C4: a series the claim decides differently from the code. On fifteen well-formed rising
candles the last close (115) is above the highest high of the five preceding candles (114)
and the 14-interval ATR is 1, so the claim asks for an entry; `evaluate` returns
`enter_long = false`, because its rolling high starts from the last candle's own high
(115). -/
theorem evaluate_rising15_no_entry :
    8 ≤ rising15.length ∧
      (∀ x ∈ rising15, x.low ≤ x.open_ ∧ x.open_ ≤ x.high ∧ x.low ≤ x.close ∧ x.close ≤ x.high) ∧
      (∀ x ∈ specPrior5 rising15, x.high < (rising15.getLastD default).close) ∧
      atr5 rising15 14 = 1 ∧
      rolling_high rising15 = 115 ∧
      (evaluate rising15).enter_long = false := by
  have hr : rolling_high rising15 = 115 := by
    norm_num [rolling_high, rising15, rising10, rising_candle, candle_at, List.range']
  have ha : atr5 rising15 14 = 1 := by
    norm_num [atr5, true_range, rising15, rising10, rising_candle, candle_at, List.range']
  refine ⟨by decide, ?_, ?_, ha, hr, ?_⟩
  · norm_num [rising15, rising10, rising_candle]
  · norm_num [specPrior5, rising15, rising10, rising_candle]
  · have h := evaluate_enter_long_iff rising15
    rw [hr] at h
    have hc : (rising15.getLastD default).close = 115 := by
      norm_num [rising15, rising10, rising_candle]
    rw [hc] at h
    cases he : (evaluate rising15).enter_long
    · rfl
    · exact absurd (h.mp he).2.1 (lt_irrefl _)

end Strategy5mScalper
namespace Strategy5mScalper

/-- C5, as stated, fails: ten well-formed candles that rise monotonically, with the last
close (110) above the highest high of the five preceding candles (109) and every true range
positive, get `enter_long = false`: with fewer than 15 candles `atr5(c, 14)` is 0. -/
theorem evaluate_rising10_no_entry :
    rising10.length = 10 ∧
      List.Chain' (fun a b : Candle => a.low < b.low ∧ a.high < b.high ∧ a.close < b.close)
        rising10 ∧
      (∀ x ∈ specPrior5 rising10, x.high < (rising10.getLastD default).close) ∧
      (∀ i ∈ List.range' 1 9, 0 < true_range rising10 i) ∧
      atr5 rising10 14 = 0 ∧
      (evaluate rising10).enter_long = false := by
  have ha : atr5 rising10 14 = 0 := atr5_short rising10 (by decide)
  refine ⟨by decide, ?_, ?_, ?_, ha, ?_⟩
  · norm_num [rising10, rising_candle]
  · norm_num [specPrior5, rising10, rising_candle]
  · norm_num [true_range, rising10, rising_candle, candle_at, List.range']
  · cases he : (evaluate rising10).enter_long
    · rfl
    · have h := ((evaluate_enter_long_iff rising10).mp he).2.2
      rw [ha] at h
      exact absurd h (lt_irrefl _)

/-- C5, amended: every series of exactly 10 candles gets the no-op decision (`enter_long`
false, `limit_price` 0), since the 14-interval ATR needs 15 candles; and every series of at
least 15 candles whose last close is above the last candle's own high and above the highs
of the 5 preceding candles, with ATR > 0, gets `enter_long = true` with `limit_price` equal
to the last close. -/
theorem evaluate_ten_noop_fifteen_entry (c : List Candle) :
    (c.length = 10 → evaluate c = { enter_long := false, exit_position := false, limit_price := 0 }) ∧
    (15 ≤ c.length →
      (c.getLastD default).high < (c.getLastD default).close →
      (∀ x ∈ specPrior5 c, x.high < (c.getLastD default).close) →
      0 < atr5 c 14 →
      evaluate c = { enter_long := true, exit_position := false,
                     limit_price := (c.getLastD default).close }) := by
  constructor
  · intro h10
    have ha : atr5 c 14 = 0 := atr5_short c (by omega)
    unfold evaluate
    rw [ha]
    simp
  · intro h15 hown hprior hatr
    have hb : rolling_high c < (c.getLastD default).close := by
      unfold rolling_high
      rw [foldl_max_lt]
      refine ⟨hown, ?_⟩
      intro i hi
      rw [List.mem_range'_1] at hi
      exact hprior _ (candle_at_mem_specPrior5 c i hi.1 (by omega))
    unfold evaluate
    rw [if_neg (by omega)]
    simp only []
    rw [if_pos (by simp only [Bool.and_eq_true, decide_eq_true_eq, gt_iff_lt]; exact ⟨hb, hatr⟩)]

end Strategy5mScalper
namespace Strategy5mScalper

theorem stub_series_15 :
    UpbitRestClient.get_candles_minutes "KRW-BTC" 5 15 =
      [⟨0, 100, 101, 99, 100, 1⟩, ⟨1000, 100, 101, 99, 1001 / 10, 1⟩,
       ⟨2000, 100, 101, 99, 1002 / 10, 1⟩, ⟨3000, 100, 101, 99, 1003 / 10, 1⟩,
       ⟨4000, 100, 101, 99, 1004 / 10, 1⟩, ⟨5000, 100, 101, 99, 1005 / 10, 1⟩,
       ⟨6000, 100, 101, 99, 1006 / 10, 1⟩, ⟨7000, 100, 101, 99, 1007 / 10, 1⟩,
       ⟨8000, 100, 101, 99, 1008 / 10, 1⟩, ⟨9000, 100, 101, 99, 1009 / 10, 1⟩,
       ⟨10000, 100, 101, 99, 1010 / 10, 1⟩, ⟨11000, 100, 101, 99, 1011 / 10, 1⟩,
       ⟨12000, 100, 101, 99, 1012 / 10, 1⟩, ⟨13000, 100, 101, 99, 1013 / 10, 1⟩,
       ⟨14000, 100, 101, 99, 1014 / 10, 1⟩] := by
  norm_num [UpbitRestClient.get_candles_minutes, List.range, List.range.loop]

/-- Witness of the amended C5: the ten rising candles, and the first fifteen candles of the
placeholder series of `get_candles_minutes` (whose closes climb above their highs). -/
theorem evaluate_ten_noop_fifteen_entry_witness :
    evaluate rising10 = { enter_long := false, exit_position := false, limit_price := 0 } ∧
      evaluate (UpbitRestClient.get_candles_minutes "KRW-BTC" 5 15) =
        { enter_long := true, exit_position := false,
          limit_price :=
            ((UpbitRestClient.get_candles_minutes "KRW-BTC" 5 15).getLastD default).close } :=
  ⟨(evaluate_ten_noop_fifteen_entry rising10).1 (by decide),
    (evaluate_ten_noop_fifteen_entry (UpbitRestClient.get_candles_minutes "KRW-BTC" 5 15)).2
      (by rw [stub_series_15]; decide)
      (by rw [stub_series_15]; norm_num)
      (by rw [stub_series_15]; norm_num [specPrior5])
      (by rw [stub_series_15]; norm_num [atr5, true_range, candle_at, List.range']; positivity)⟩

end Strategy5mScalper

/-! ## C6, C7: the order endpoints and signing -/

theorem string_mk_ne_empty (l : List Char) (h : l ≠ []) : String.mk l ≠ "" := by
  intro hc
  apply h
  have := congrArg String.data hc
  simpa using this

theorem string_append_ne_empty_left (a b : String) (h : a ≠ "") : a ++ b ≠ "" := by
  intro hc
  apply h
  have h1 := congrArg String.data hc
  rw [String.data_append] at h1
  have h2 : a.data = [] := (List.append_eq_nil.mp h1).1
  exact String.ext h2

theorem strip_trailing_cons_ne_nil (c x : Char) (rest : List Char) (h : x ≠ c) :
    strip_trailing c (x :: rest) ≠ [] := by
  unfold strip_trailing
  intro hc
  rw [List.reverse_eq_nil_iff, List.dropWhile_eq_nil_iff] at hc
  have hx := hc x (by simp)
  simp at hx
  exact h hx

namespace UpbitRestClient

theorem base64_url_encode_ne_empty (lib : Lib) (hw : lib.WellBehaved) (s : String)
    (hs : s ≠ "") : base64_url_encode lib s ≠ "" := by
  obtain ⟨c, rest, hc, hne⟩ := hw.1 s hs
  unfold base64_url_encode
  rw [if_neg hs]
  simp only [hc, List.length_cons, List.map_cons]
  rw [if_neg (by omega)]
  apply string_mk_ne_empty
  apply strip_trailing_cons_ne_nil
  split_ifs <;> first | decide | exact hne

theorem token_empty_of_no_credentials (lib : Lib) (self : UpbitRestClient)
    (params : List (String × String)) (h : self.access_key = "" ∨ self.secret_key = "") :
    build_authorization_token lib self params = "" := by
  unfold build_authorization_token
  rw [if_pos h]

theorem ite_chain_ne_empty (A B : Prop) [Decidable A] [Decidable B] (x : String)
    (hA : ¬ A) (hB : ¬ B) (hx : x ≠ "") :
    (if A then "" else if B then "" else x) ≠ "" := by
  rw [if_neg hA, if_neg hB]
  exact hx

theorem token_ne_empty (lib : Lib) (hw : lib.WellBehaved) (self : UpbitRestClient)
    (params : List (String × String)) (ha : self.access_key ≠ "") (hs : self.secret_key ≠ "") :
    build_authorization_token lib self params ≠ "" := by
  unfold build_authorization_token
  rw [if_neg (by tauto)]
  simp only []
  apply ite_chain_ne_empty
  · intro h
    rcases h with h | h
    · exact base64_url_encode_ne_empty lib hw _ (by decide) h
    · refine base64_url_encode_ne_empty lib hw _ ?_ h
      repeat apply string_append_ne_empty_left
      decide
  · exact base64_url_encode_ne_empty lib hw _ (hw.2 _ _)
  · repeat apply string_append_ne_empty_left
    decide

end UpbitRestClient

namespace UpbitRestClient

theorem ite_guard {α : Type} (A B : Prop) [Decidable A] [Decidable B] (x y : α) (hB : B) :
    (if A then x else if B then x else y) = x := by
  by_cases hA : A
  · rw [if_pos hA]
  · rw [if_neg hA, if_pos hB]

theorem post_order_guarded (lib : Lib) (net : Net) (self : UpbitRestClient) (req : OrderRequest)
    (h : req.market = "" ∨ self.access_key = "" ∨ self.secret_key = "" ∨
      net.curl_init_ok = false) :
    post_order lib net self req = ({}, none) := by
  unfold post_order
  by_cases hm : req.market = ""
  · rw [if_pos hm]
  rw [if_neg hm]
  simp only []
  by_cases hc : self.access_key = "" ∨ self.secret_key = ""
  · rw [if_pos (token_empty_of_no_credentials lib self _ hc)]
  have hi : net.curl_init_ok = false := by tauto
  exact ite_guard _ _ _ _ hi

theorem post_order_performed (lib : Lib) (hw : lib.WellBehaved) (net : Net)
    (self : UpbitRestClient) (req : OrderRequest)
    (hm : req.market ≠ "") (ha : self.access_key ≠ "") (hs : self.secret_key ≠ "")
    (hi : net.curl_init_ok = true) :
    (post_order lib net self req).1 = reply_result net.reply ∧
      (post_order lib net self req).2 ≠ none := by
  unfold post_order reply_result
  rw [if_neg hm]
  simp only []
  rw [if_neg (token_ne_empty lib hw self _ ha hs), if_neg (by simp [hi])]
  by_cases h1 : net.reply.rc_ok = false
  · rw [if_pos h1, if_pos h1]
    exact ⟨rfl, by simp⟩
  rw [if_neg h1, if_neg h1]
  by_cases h2 : net.reply.http_code ≥ 400
  · rw [if_pos h2, if_pos h2]
    by_cases h3 : net.reply.http_code = 429
    · rw [if_pos h3, if_pos h3]
      exact ⟨rfl, by simp⟩
    · rw [if_neg h3, if_neg h3]
      exact ⟨rfl, by simp⟩
  · rw [if_neg h2, if_neg h2]
    exact ⟨rfl, by simp⟩

theorem cancel_order_guarded (lib : Lib) (net : Net) (self : UpbitRestClient)
    (req : CancelRequest)
    (h : req.uuid = "" ∨ self.access_key = "" ∨ self.secret_key = "" ∨
      net.curl_init_ok = false) :
    cancel_order lib net self req = ({}, none) := by
  unfold cancel_order
  by_cases hm : req.uuid = ""
  · rw [if_pos hm]
  rw [if_neg hm]
  simp only []
  by_cases hc : self.access_key = "" ∨ self.secret_key = ""
  · rw [if_pos (token_empty_of_no_credentials lib self _ hc)]
  have hi : net.curl_init_ok = false := by tauto
  exact ite_guard _ _ _ _ hi

theorem cancel_order_performed (lib : Lib) (hw : lib.WellBehaved) (net : Net)
    (self : UpbitRestClient) (req : CancelRequest)
    (hm : req.uuid ≠ "") (ha : self.access_key ≠ "") (hs : self.secret_key ≠ "")
    (hi : net.curl_init_ok = true) :
    (cancel_order lib net self req).1 = reply_result net.reply ∧
      (cancel_order lib net self req).2 ≠ none := by
  unfold cancel_order reply_result
  rw [if_neg hm]
  simp only []
  rw [if_neg (token_ne_empty lib hw self _ ha hs), if_neg (by simp [hi])]
  by_cases h1 : net.reply.rc_ok = false
  · rw [if_pos h1, if_pos h1]
    exact ⟨rfl, by simp⟩
  rw [if_neg h1, if_neg h1]
  by_cases h2 : net.reply.http_code ≥ 400
  · rw [if_pos h2, if_pos h2]
    by_cases h3 : net.reply.http_code = 429
    · rw [if_pos h3, if_pos h3]
      exact ⟨rfl, by simp⟩
    · rw [if_neg h3, if_neg h3]
      exact ⟨rfl, by simp⟩
  · rw [if_neg h2, if_neg h2]
    exact ⟨rfl, by simp⟩

end UpbitRestClient

theorem reply_result_accepted_iff_uuid (r : CurlReply) :
    (reply_result r).accepted = true ↔ (reply_result r).uuid ≠ "" := by
  unfold reply_result
  by_cases h1 : r.rc_ok = false
  · rw [if_pos h1]; simp
  rw [if_neg h1]
  by_cases h2 : r.http_code ≥ 400
  · rw [if_pos h2]
    by_cases h3 : r.http_code = 429
    · rw [if_pos h3]; simp
    · rw [if_neg h3]; simp
  · rw [if_neg h2]; simp

theorem reply_result_accepted_iff (r : CurlReply) :
    (reply_result r).accepted = true ↔
      r.rc_ok = true ∧ r.http_code < 400 ∧ extract_uuid r.response ≠ "" := by
  unfold reply_result
  by_cases h1 : r.rc_ok = false
  · rw [if_pos h1]; simp [h1]
  rw [if_neg h1]
  have h1' : r.rc_ok = true := by simpa using h1
  by_cases h2 : r.http_code ≥ 400
  · rw [if_pos h2]
    have : ¬ r.http_code < 400 := not_lt.mpr h2
    by_cases h3 : r.http_code = 429
    · rw [if_pos h3]; simp [this]
    · rw [if_neg h3]; simp [this]
  · rw [if_neg h2]
    have : r.http_code < 400 := not_le.mp h2
    simp [h1', this]

theorem reply_result_http_error (r : CurlReply) (hok : r.rc_ok = true)
    (h : 400 ≤ r.http_code) :
    (reply_result r).accepted = false ∧ (reply_result r).uuid = "" ∧
      (reply_result r).error_message =
        if r.http_code = 429 then "HTTP 429 rate limited"
        else "HTTP error " ++ toString r.http_code := by
  unfold reply_result
  rw [if_neg (by simp [hok]), if_pos h]
  by_cases h3 : r.http_code = 429
  · rw [if_pos h3, if_pos h3]; exact ⟨rfl, rfl, rfl⟩
  · rw [if_neg h3, if_neg h3]; exact ⟨rfl, rfl, rfl⟩

theorem sample_lib_wellBehaved : sample_lib.WellBehaved :=
  ⟨fun _ _ => ⟨'Q', ['Q', '=', '='], rfl, by decide⟩,
    fun _ _ => show ("m" : String) ≠ "" by decide⟩

namespace UpbitRestClient

theorem post_order_accepted_iff (lib : Lib) (hw : lib.WellBehaved) (net : Net)
    (self : UpbitRestClient) (req : OrderRequest) :
    ((post_order lib net self req).1.accepted = true ↔
        (post_order lib net self req).1.uuid ≠ "") ∧
    ((post_order lib net self req).1.accepted = true ↔
        req.market ≠ "" ∧ self.access_key ≠ "" ∧ self.secret_key ≠ "" ∧
        net.curl_init_ok = true ∧ net.reply.rc_ok = true ∧ net.reply.http_code < 400 ∧
        extract_uuid net.reply.response ≠ "") := by
  by_cases hg : req.market = "" ∨ self.access_key = "" ∨ self.secret_key = "" ∨
      net.curl_init_ok = false
  · rw [post_order_guarded lib net self req hg]
    refine ⟨by simp, ?_⟩
    constructor
    · intro h; exact absurd h (by decide)
    · rintro ⟨h1, h2, h3, h4, -⟩
      rcases hg with h | h | h | h
      · exact absurd h h1
      · exact absurd h h2
      · exact absurd h h3
      · rw [h4] at h; exact absurd h (by decide)
  · push_neg at hg
    obtain ⟨hm, ha, hs, hi⟩ := hg
    have hi' : net.curl_init_ok = true := by simpa using hi
    rw [(post_order_performed lib hw net self req hm ha hs hi').1]
    refine ⟨reply_result_accepted_iff_uuid _, ?_⟩
    rw [reply_result_accepted_iff]
    tauto

theorem cancel_order_accepted_iff (lib : Lib) (hw : lib.WellBehaved) (net : Net)
    (self : UpbitRestClient) (req : CancelRequest) :
    ((cancel_order lib net self req).1.accepted = true ↔
        (cancel_order lib net self req).1.uuid ≠ "") ∧
    ((cancel_order lib net self req).1.accepted = true ↔
        req.uuid ≠ "" ∧ self.access_key ≠ "" ∧ self.secret_key ≠ "" ∧
        net.curl_init_ok = true ∧ net.reply.rc_ok = true ∧ net.reply.http_code < 400 ∧
        extract_uuid net.reply.response ≠ "") := by
  by_cases hg : req.uuid = "" ∨ self.access_key = "" ∨ self.secret_key = "" ∨
      net.curl_init_ok = false
  · rw [cancel_order_guarded lib net self req hg]
    refine ⟨by simp, ?_⟩
    constructor
    · intro h; exact absurd h (by decide)
    · rintro ⟨h1, h2, h3, h4, -⟩
      rcases hg with h | h | h | h
      · exact absurd h h1
      · exact absurd h h2
      · exact absurd h h3
      · rw [h4] at h; exact absurd h (by decide)
  · push_neg at hg
    obtain ⟨hm, ha, hs, hi⟩ := hg
    have hi' : net.curl_init_ok = true := by simpa using hi
    rw [(cancel_order_performed lib hw net self req hm ha hs hi').1]
    refine ⟨reply_result_accepted_iff_uuid _, ?_⟩
    rw [reply_result_accepted_iff]
    tauto

/-- C6: for `post_order` and for `cancel_order`, with libraries that behave
(`Lib.WellBehaved`): `accepted` is true exactly when the returned uuid is non-empty, and
exactly when the market (resp. the uuid to cancel) and both keys are non-empty, the transport
succeeded (a curl handle was obtained and the transfer returned `CURLE_OK`), the HTTP status
is below 400 and `extract_uuid` of the body is non-empty; and when the request was performed
and answered with a status of 400 or more, the result is not accepted, has no uuid, and its
message is `HTTP 429 rate limited` for 429 and `HTTP error <status>` otherwise, whatever the
body contains. -/
theorem order_result_accepted_iff (lib : Lib) (hw : lib.WellBehaved) (net : Net)
    (self : UpbitRestClient) (req : OrderRequest) (creq : CancelRequest) :
    (((post_order lib net self req).1.accepted = true ↔
        (post_order lib net self req).1.uuid ≠ "") ∧
      ((post_order lib net self req).1.accepted = true ↔
        req.market ≠ "" ∧ self.access_key ≠ "" ∧ self.secret_key ≠ "" ∧
        net.curl_init_ok = true ∧ net.reply.rc_ok = true ∧ net.reply.http_code < 400 ∧
        extract_uuid net.reply.response ≠ "") ∧
      (req.market ≠ "" → self.access_key ≠ "" → self.secret_key ≠ "" →
        net.curl_init_ok = true → net.reply.rc_ok = true → 400 ≤ net.reply.http_code →
        (post_order lib net self req).1.accepted = false ∧
        (post_order lib net self req).1.uuid = "" ∧
        (post_order lib net self req).1.error_message =
          if net.reply.http_code = 429 then "HTTP 429 rate limited"
          else "HTTP error " ++ toString net.reply.http_code)) ∧
    (((cancel_order lib net self creq).1.accepted = true ↔
        (cancel_order lib net self creq).1.uuid ≠ "") ∧
      ((cancel_order lib net self creq).1.accepted = true ↔
        creq.uuid ≠ "" ∧ self.access_key ≠ "" ∧ self.secret_key ≠ "" ∧
        net.curl_init_ok = true ∧ net.reply.rc_ok = true ∧ net.reply.http_code < 400 ∧
        extract_uuid net.reply.response ≠ "") ∧
      (creq.uuid ≠ "" → self.access_key ≠ "" → self.secret_key ≠ "" →
        net.curl_init_ok = true → net.reply.rc_ok = true → 400 ≤ net.reply.http_code →
        (cancel_order lib net self creq).1.accepted = false ∧
        (cancel_order lib net self creq).1.uuid = "" ∧
        (cancel_order lib net self creq).1.error_message =
          if net.reply.http_code = 429 then "HTTP 429 rate limited"
          else "HTTP error " ++ toString net.reply.http_code)) := by
  refine ⟨⟨(post_order_accepted_iff lib hw net self req).1,
      (post_order_accepted_iff lib hw net self req).2, ?_⟩,
    ⟨(cancel_order_accepted_iff lib hw net self creq).1,
      (cancel_order_accepted_iff lib hw net self creq).2, ?_⟩⟩
  · intro hm ha hs hi hok h400
    rw [(post_order_performed lib hw net self req hm ha hs hi).1]
    exact reply_result_http_error _ hok h400
  · intro hm ha hs hi hok h400
    rw [(cancel_order_performed lib hw net self creq hm ha hs hi).1]
    exact reply_result_http_error _ hok h400

theorem extract_uuid_sample : extract_uuid "\x7b\"uuid\":\"abc\"\x7d" = "abc" := by
  decide

/-- Witness of C6: with the sample library, an order answered `201` with an order id is
accepted, and an order answered `429` is not, with the rate-limit message, although its
body has a `uuid` field. -/
theorem order_result_accepted_iff_witness :
    sample_lib.WellBehaved ∧
      (post_order sample_lib sample_net_created sample_client sample_request).1.accepted
        = true ∧
      (post_order sample_lib sample_net_rate_limited sample_client sample_request).1.accepted
        = false ∧
      (post_order sample_lib sample_net_rate_limited sample_client
        sample_request).1.error_message = "HTTP 429 rate limited" ∧
      (cancel_order sample_lib sample_net_created sample_client ⟨"abc"⟩).1.accepted = true :=
  ⟨sample_lib_wellBehaved,
    (order_result_accepted_iff sample_lib sample_lib_wellBehaved sample_net_created
      sample_client sample_request ⟨"abc"⟩).1.2.1.mpr
      ⟨by decide, by decide, by decide, rfl, rfl, by decide,
        by rw [show sample_net_created.reply.response = "\x7b\"uuid\":\"abc\"\x7d" from rfl,
          extract_uuid_sample]; decide⟩,
    ((order_result_accepted_iff sample_lib sample_lib_wellBehaved sample_net_rate_limited
      sample_client sample_request ⟨"abc"⟩).1.2.2
      (by decide) (by decide) (by decide) rfl rfl (by decide)).1,
    ((order_result_accepted_iff sample_lib sample_lib_wellBehaved sample_net_rate_limited
      sample_client sample_request ⟨"abc"⟩).1.2.2
      (by decide) (by decide) (by decide) rfl rfl (by decide)).2.2,
    (order_result_accepted_iff sample_lib sample_lib_wellBehaved sample_net_created
      sample_client sample_request ⟨"abc"⟩).2.2.1.mpr
      ⟨by decide, by decide, by decide, rfl, rfl, by decide,
        by rw [show sample_net_created.reply.response = "\x7b\"uuid\":\"abc\"\x7d" from rfl,
          extract_uuid_sample]; decide⟩⟩

/-- C7: signing fails closed. Whenever the access key or the secret key is empty,
`build_authorization_token` returns the empty string for every parameter list, and
`post_order` and `cancel_order` return the untouched default result (`accepted = false`,
empty uuid, `http_status = 0`, empty message and raw response) without performing any
request. -/
theorem signing_fails_closed (lib : Lib) (net : Net) (self : UpbitRestClient)
    (params : List (String × String)) (req : OrderRequest) (creq : CancelRequest)
    (h : self.access_key = "" ∨ self.secret_key = "") :
    build_authorization_token lib self params = "" ∧
      post_order lib net self req =
        ({ accepted := false, uuid := "", http_status := 0, error_message := "",
           raw_response := "" }, none) ∧
      cancel_order lib net self creq =
        ({ accepted := false, uuid := "", http_status := 0, error_message := "",
           raw_response := "" }, none) :=
  ⟨token_empty_of_no_credentials lib self params h,
    post_order_guarded lib net self req (by tauto),
    cancel_order_guarded lib net self creq (by tauto)⟩

/-- Witness of C7: a client with an access key but no secret key. -/
theorem signing_fails_closed_witness :
    (("ak" : String) = "" ∨ ("" : String) = "") ∧
      build_authorization_token sample_lib { access_key := "ak", secret_key := "" }
        [("market", "KRW-BTC")] = "" ∧
      post_order sample_lib sample_net_created { access_key := "ak", secret_key := "" }
        sample_request = ({}, none) ∧
      cancel_order sample_lib sample_net_created { access_key := "ak", secret_key := "" }
        ⟨"abc"⟩ = ({}, none) :=
  ⟨Or.inr rfl,
    signing_fails_closed sample_lib sample_net_created { access_key := "ak", secret_key := "" }
      [("market", "KRW-BTC")] sample_request ⟨"abc"⟩ (Or.inr rfl)⟩

end UpbitRestClient

/-! ## C8: the order manager -/

namespace OrderManager

theorem to_lower_limit : to_lower "limit" = "limit" := by decide

theorem place_order_normalized_eq (self : OrderManager) (req : OrderRequest) :
    place_order_normalized self req =
      if effective_ord_type req = "limit" then
        { market := req.market, side := req.side, ord_type := effective_ord_type req,
          price := UpbitRestClient.normalize_price req.price,
          volume := UpbitRestClient.normalize_volume
            (UpbitRestClient.normalize_price req.price) req.volume (side_is_buy req)
            self.min_notional }
      else if effective_ord_type req = "price" then
        { market := req.market, side := req.side, ord_type := effective_ord_type req,
          price := cfloor (max req.price self.min_notional), volume := 0 }
      else if effective_ord_type req = "market" then
        { market := req.market, side := req.side, ord_type := effective_ord_type req,
          price := req.price,
          volume := UpbitRestClient.normalize_volume
            (if req.price > 0 then req.price else 1) req.volume (side_is_buy req)
            self.min_notional }
      else
        { market := req.market, side := req.side, ord_type := effective_ord_type req,
          price := req.price, volume := req.volume } := by
  unfold place_order_normalized effective_ord_type side_is_buy
  by_cases h : req.ord_type = ""
  · simp only [h, if_true, to_lower_limit]
  · simp only [h, if_false]
    by_cases h1 : to_lower req.ord_type = "limit"
    · rw [if_pos h1, if_pos h1]
    rw [if_neg h1, if_neg h1]
    by_cases h2 : to_lower req.ord_type = "price"
    · rw [if_pos h2, if_pos h2]
    rw [if_neg h2, if_neg h2]
    by_cases h3 : to_lower req.ord_type = "market"
    · rw [if_pos h3, if_pos h3]
      by_cases hp : req.price > 0
      · simp only [hp, if_true]
        rw [if_neg (not_le.mpr hp)]
      · simp only [hp, if_false]
        rw [if_pos (not_lt.mp hp)]
    rw [if_neg h3, if_neg h3]

theorem cfloor_mono {x y : ℚ} (h : x ≤ y) : cfloor x ≤ cfloor y := by
  unfold cfloor
  exact_mod_cast Int.floor_mono h

theorem sample_price_request_type : effective_ord_type sample_price_request = "price" := by
  decide

/-- C8, as stated, fails: with the floor 5000.5 a quote-notional market buy (`price` type) of
100 is handed over with price `floor(max(100, 5000.5)) = 5000`, which is below the floor. -/
theorem place_order_price_below_floor :
    effective_ord_type sample_price_request = "price" ∧
      (place_order_normalized sample_manager_fractional_floor sample_price_request).price
        = 5000 ∧
      ¬ (sample_manager_fractional_floor.min_notional ≤
        (place_order_normalized sample_manager_fractional_floor sample_price_request).price) := by
  have hv : (place_order_normalized sample_manager_fractional_floor
      sample_price_request).price = 5000 := by
    rw [place_order_normalized_eq, sample_price_request_type, if_neg (by decide), if_pos rfl]
    show cfloor (max (100 : ℚ) (10001 / 2)) = 5000
    rw [max_eq_right (by norm_num)]
    exact cfloor_eq_of _ 5000 (by norm_num) (by norm_num)
  refine ⟨sample_price_request_type, hv, ?_⟩
  rw [hv]
  show ¬ ((10001 / 2 : ℚ) ≤ 5000)
  norm_num

/-- C8, amended: `place_order` hands to the gateway the request with its market and side
unchanged, its type defaulted and lower-cased, and: for `limit`, price
`normalize_price(price)` and volume `normalize_volume(price', volume, is_buy, min_notional)`;
for `price`, price `floor(max(price, min_notional))`, an integer that is at least
`floor(min_notional)` (hence at least `min_notional` when `min_notional` is a whole number,
as the default 5000 is), and volume 0; for `market`, the price unchanged and volume
`normalize_volume(ref, volume, is_buy, min_notional)` with `ref` the request price if
positive and 1 otherwise; for any other type, price and volume unchanged. -/
theorem place_order_hands_normalized (lib : Lib) (net : Net) (self : OrderManager)
    (req : OrderRequest) :
    place_order lib net self req =
        self.rest.post_order lib net (place_order_normalized self req) ∧
    (place_order_normalized self req).market = req.market ∧
    (place_order_normalized self req).side = req.side ∧
    (place_order_normalized self req).ord_type = effective_ord_type req ∧
    (effective_ord_type req = "limit" →
      (place_order_normalized self req).price = UpbitRestClient.normalize_price req.price ∧
      (place_order_normalized self req).volume =
        UpbitRestClient.normalize_volume (UpbitRestClient.normalize_price req.price)
          req.volume (side_is_buy req) self.min_notional) ∧
    (effective_ord_type req = "price" →
      (place_order_normalized self req).price = cfloor (max req.price self.min_notional) ∧
      (∃ k : ℤ, (place_order_normalized self req).price = (k : ℚ)) ∧
      cfloor self.min_notional ≤ (place_order_normalized self req).price ∧
      ((∃ m : ℤ, self.min_notional = (m : ℚ)) →
        self.min_notional ≤ (place_order_normalized self req).price) ∧
      (place_order_normalized self req).volume = 0) ∧
    (effective_ord_type req = "market" →
      (place_order_normalized self req).price = req.price ∧
      (place_order_normalized self req).volume =
        UpbitRestClient.normalize_volume (if req.price > 0 then req.price else 1)
          req.volume (side_is_buy req) self.min_notional) ∧
    (effective_ord_type req ≠ "limit" → effective_ord_type req ≠ "price" →
      effective_ord_type req ≠ "market" →
      (place_order_normalized self req).price = req.price ∧
      (place_order_normalized self req).volume = req.volume) := by
  rw [place_order_normalized_eq]
  refine ⟨?_, ?_, ?_, ?_, ?_, ?_, ?_, ?_⟩
  · unfold place_order
    rw [place_order_normalized_eq]
  · split_ifs <;> rfl
  · split_ifs <;> rfl
  · split_ifs <;> rfl
  · intro h
    rw [if_pos h]
    exact ⟨rfl, rfl⟩
  · intro h
    have h1 : effective_ord_type req ≠ "limit" := by rw [h]; decide
    rw [if_neg h1, if_pos h]
    refine ⟨rfl, ⟨⌊max req.price self.min_notional⌋, rfl⟩, ?_, ?_, rfl⟩
    · exact cfloor_mono (le_max_right _ _)
    · rintro ⟨m, hm⟩
      have h2 : cfloor self.min_notional = self.min_notional := by
        rw [hm]
        exact cfloor_eq_of _ m (le_refl _) (by linarith)
      calc self.min_notional = cfloor self.min_notional := h2.symm
        _ ≤ cfloor (max req.price self.min_notional) := cfloor_mono (le_max_right _ _)
  · intro h
    have h1 : effective_ord_type req ≠ "limit" := by rw [h]; decide
    have h2 : effective_ord_type req ≠ "price" := by rw [h]; decide
    rw [if_neg h1, if_neg h2, if_pos h]
    exact ⟨rfl, rfl⟩
  · intro h1 h2 h3
    rw [if_neg h1, if_neg h2, if_neg h3]
    exact ⟨rfl, rfl⟩

/-- Witness of the amended C8: with the default floor 5000, a `PRICE` order of 100 is handed
over as a `price` order of at least 5000 with volume 0. -/
theorem place_order_hands_normalized_witness :
    effective_ord_type sample_price_request = "price" ∧
      sample_manager.min_notional ≤
        (place_order_normalized sample_manager sample_price_request).price ∧
      (place_order_normalized sample_manager sample_price_request).volume = 0 :=
  ⟨sample_price_request_type,
    ((place_order_hands_normalized sample_lib sample_net_created sample_manager
      sample_price_request).2.2.2.2.2.1 sample_price_request_type).2.2.2.1
        ⟨5000, by show (5000 : ℚ) = ((5000 : ℤ) : ℚ); norm_num⟩,
    ((place_order_hands_normalized sample_lib sample_net_created sample_manager
      sample_price_request).2.2.2.2.2.1 sample_price_request_type).2.2.2.2⟩

end OrderManager

/-! ## C9, C10: the candle aggregator -/

namespace EngineBridge

/-- The series after a trade of the same interval: only the tail candle is rewritten. -/
theorem processTradeMessage_update (market : String) (c5 : List Candle) (obj : TradeMessage)
    (hne : c5 ≠ []) (hcode : obj.code = "" ∨ market = "" ∨ obj.code = market)
    (hp : 0 < obj.trade_price) (ht : 0 < obj.trade_timestamp)
    (h1 : (c5.getLastD default).ts_ms ≤ obj.trade_timestamp)
    (h2 : obj.trade_timestamp - (c5.getLastD default).ts_ms < 300000) :
    processTradeMessage market c5 obj =
      c5.dropLast ++ [updated_tail (c5.getLastD default) obj] := by
  unfold processTradeMessage updated_tail
  rw [if_neg (by simpa using hne), if_neg (by tauto)]
  simp only []
  rw [if_neg (by push_neg; exact ⟨hp, ht⟩), if_neg (not_lt.mpr h1), if_neg (by omega)]

/-- The series after a trade that starts a new interval: a candle is appended and, beyond
the maximum length, the oldest one is erased. -/
theorem processTradeMessage_append (market : String) (c5 : List Candle) (obj : TradeMessage)
    (hne : c5 ≠ []) (hcode : obj.code = "" ∨ market = "" ∨ obj.code = market)
    (hp : 0 < obj.trade_price) (ht : 0 < obj.trade_timestamp)
    (h2 : 300000 ≤ obj.trade_timestamp - (c5.getLastD default).ts_ms) :
    processTradeMessage market c5 obj =
      if (c5 ++ [next_candle (c5.getLastD default) obj]).length > kCandlesLookback5m then
        (c5 ++ [next_candle (c5.getLastD default) obj]).tail
      else c5 ++ [next_candle (c5.getLastD default) obj] := by
  unfold processTradeMessage next_candle
  rw [if_neg (by simpa using hne), if_neg (by tauto)]
  simp only []
  rw [if_neg (by push_neg; exact ⟨hp, ht⟩), if_neg (by omega), if_pos (by omega)]

theorem processTradeMessage_nil (market : String) (obj : TradeMessage) :
    processTradeMessage market [] obj = [] := by
  simp [processTradeMessage]

theorem foldl_processTradeMessage_nil (market : String) (trades : List TradeMessage) :
    trades.foldl (processTradeMessage market) [] = [] := by
  induction trades with
  | nil => rfl
  | cons t ts ih => rw [List.foldl_cons, processTradeMessage_nil, ih]

/-- A trade stamped before the tail candle is discarded. -/
theorem processTradeMessage_older (market : String) (c5 : List Candle) (obj : TradeMessage)
    (h : obj.trade_timestamp < (c5.getLastD default).ts_ms) :
    processTradeMessage market c5 obj = c5 := by
  unfold processTradeMessage
  by_cases he : c5.isEmpty = true
  · rw [if_pos he]
  rw [if_neg he]
  by_cases hc : obj.code ≠ "" ∧ market ≠ "" ∧ obj.code ≠ market
  · rw [if_pos hc]
  rw [if_neg hc]
  simp only []
  by_cases hv : obj.trade_price ≤ 0 ∨ obj.trade_timestamp ≤ 0
  · rw [if_pos hv]
  rw [if_neg hv, if_pos h]

/-- C10: a trade whose timestamp is older than the tail candle's timestamp, or whose price or
timestamp is not positive, leaves the whole series as it is. -/
theorem processTradeMessage_discards (market : String) (c5 : List Candle) (obj : TradeMessage)
    (h : (∃ last, c5.getLast? = some last ∧ obj.trade_timestamp < last.ts_ms) ∨
      obj.trade_price ≤ 0 ∨ obj.trade_timestamp ≤ 0) :
    processTradeMessage market c5 obj = c5 := by
  rcases h with ⟨last, hl, hlt⟩ | h
  · apply processTradeMessage_older
    have : c5.getLastD default = last := by
      rw [List.getLastD_eq_getLast?, hl]
      rfl
    rw [this]
    exact hlt
  · unfold processTradeMessage
    by_cases he : c5.isEmpty = true
    · rw [if_pos he]
    rw [if_neg he]
    by_cases hc : obj.code ≠ "" ∧ market ≠ "" ∧ obj.code ≠ market
    · rw [if_pos hc]
    rw [if_neg hc]
    simp only []
    rw [if_pos h]

end EngineBridge

namespace EngineBridge

/-- Witness of C10: a trade stamped 500 against a series whose tail starts at 1000. -/
theorem processTradeMessage_discards_witness :
    (∃ last, [sample_baseline].getLast? = some last ∧
        sample_trade_old.trade_timestamp < last.ts_ms) ∧
      processTradeMessage "KRW-BTC" [sample_baseline] sample_trade_old = [sample_baseline] :=
  ⟨⟨sample_baseline, rfl, by decide⟩,
    processTradeMessage_discards "KRW-BTC" [sample_baseline] sample_trade_old
      (Or.inl ⟨sample_baseline, rfl, by decide⟩)⟩

/-- C9, as stated, fails. Applied to an aggregator whose series is still empty, three trades
of one 5-minute window followed by a trade after it yield no candle at all, since
`processTradeMessage` returns at once on an empty series; and applied to a series that holds
the candle of that window, three trades of the window followed by a trade stamped before the
window (so outside it) leave a single candle, since the older trade is discarded. -/
theorem aggregator_four_trades_not_two_candles :
    (∀ t ∈ [sample_trade_1, sample_trade_2, sample_trade_3],
        (1000 : ℤ) ≤ t.trade_timestamp ∧ t.trade_timestamp < 1000 + 300000) ∧
      (1000 : ℤ) + 300000 ≤ sample_trade_4.trade_timestamp ∧
      sample_trade_old.trade_timestamp < 1000 ∧
      ([sample_trade_1, sample_trade_2, sample_trade_3, sample_trade_4].foldl
        (processTradeMessage "KRW-BTC") []).length = 0 ∧
      ([sample_trade_1, sample_trade_2, sample_trade_3, sample_trade_old].foldl
        (processTradeMessage "KRW-BTC") [sample_baseline]).length = 1 := by
  refine ⟨by decide, by decide, by decide, ?_, ?_⟩
  · rw [foldl_processTradeMessage_nil]
    rfl
  · have e1 : processTradeMessage "KRW-BTC" [sample_baseline] sample_trade_1 =
        [updated_tail sample_baseline sample_trade_1] :=
      processTradeMessage_update "KRW-BTC" [sample_baseline] sample_trade_1 (by simp)
        (by decide) (by norm_num [sample_trade_1]) (by decide) (by decide) (by decide)
    have e2 : processTradeMessage "KRW-BTC" [updated_tail sample_baseline sample_trade_1]
        sample_trade_2 =
        [updated_tail (updated_tail sample_baseline sample_trade_1) sample_trade_2] :=
      processTradeMessage_update "KRW-BTC" [updated_tail sample_baseline sample_trade_1]
        sample_trade_2 (by simp) (by decide) (by norm_num [sample_trade_2]) (by decide)
        (by decide) (by decide)
    have e3 : processTradeMessage "KRW-BTC"
        [updated_tail (updated_tail sample_baseline sample_trade_1) sample_trade_2]
        sample_trade_3 =
        [updated_tail (updated_tail (updated_tail sample_baseline sample_trade_1)
          sample_trade_2) sample_trade_3] :=
      processTradeMessage_update "KRW-BTC"
        [updated_tail (updated_tail sample_baseline sample_trade_1) sample_trade_2]
        sample_trade_3 (by simp) (by decide) (by norm_num [sample_trade_3]) (by decide)
        (by decide) (by decide)
    have e4 : processTradeMessage "KRW-BTC"
        [updated_tail (updated_tail (updated_tail sample_baseline sample_trade_1)
          sample_trade_2) sample_trade_3] sample_trade_old =
        [updated_tail (updated_tail (updated_tail sample_baseline sample_trade_1)
          sample_trade_2) sample_trade_3] :=
      processTradeMessage_older "KRW-BTC" _ sample_trade_old (by decide)
    simp only [List.foldl_cons, List.foldl_nil, e1, e2, e3, e4, List.length_singleton]

/-- C9, amended: starting from a series that holds one candle `c0`, three trades the
aggregator accepts (positive price and timestamp, market code matching) with timestamps in
the 5-minute window that starts at `c0`'s timestamp, followed by one accepted trade at or
after the end of that window, leave exactly 2 candles; the first one's high is at least and
its low at most each of the three prices, its close is the third price, and the second
candle's open equals the first candle's close. -/
theorem three_trades_then_next_window (market : String) (c0 : Candle)
    (t1 t2 t3 t4 : TradeMessage)
    (hcode : ∀ t ∈ [t1, t2, t3, t4], t.code = "" ∨ market = "" ∨ t.code = market)
    (hpos : ∀ t ∈ [t1, t2, t3, t4], 0 < t.trade_price ∧ 0 < t.trade_timestamp)
    (hin : ∀ t ∈ [t1, t2, t3],
      c0.ts_ms ≤ t.trade_timestamp ∧ t.trade_timestamp - c0.ts_ms < 300000)
    (hout : 300000 ≤ t4.trade_timestamp - c0.ts_ms) :
    ∃ a b : Candle,
      [t1, t2, t3, t4].foldl (processTradeMessage market) [c0] = [a, b] ∧
      (∀ t ∈ [t1, t2, t3], t.trade_price ≤ a.high ∧ a.low ≤ t.trade_price) ∧
      a.close = t3.trade_price ∧ b.open_ = a.close := by
  simp only [List.mem_cons, List.mem_singleton, List.not_mem_nil, or_false,
    forall_eq_or_imp, forall_eq] at hcode hpos hin
  obtain ⟨hc1, hc2, hc3, hc4⟩ := hcode
  obtain ⟨⟨hp1, hs1⟩, ⟨hp2, hs2⟩, ⟨hp3, hs3⟩, ⟨hp4, hs4⟩⟩ := hpos
  obtain ⟨⟨hl1, hu1⟩, ⟨hl2, hu2⟩, ⟨hl3, hu3⟩⟩ := hin
  have e1 : processTradeMessage market [c0] t1 = [updated_tail c0 t1] :=
    processTradeMessage_update market [c0] t1 (by simp) hc1 hp1 hs1 hl1 hu1
  have e2 : processTradeMessage market [updated_tail c0 t1] t2 =
      [updated_tail (updated_tail c0 t1) t2] :=
    processTradeMessage_update market [updated_tail c0 t1] t2 (by simp) hc2 hp2 hs2 hl2 hu2
  have e3 : processTradeMessage market [updated_tail (updated_tail c0 t1) t2] t3 =
      [updated_tail (updated_tail (updated_tail c0 t1) t2) t3] :=
    processTradeMessage_update market [updated_tail (updated_tail c0 t1) t2] t3 (by simp)
      hc3 hp3 hs3 hl3 hu3
  have e4 : processTradeMessage market
      [updated_tail (updated_tail (updated_tail c0 t1) t2) t3] t4 =
      [updated_tail (updated_tail (updated_tail c0 t1) t2) t3,
        next_candle (updated_tail (updated_tail (updated_tail c0 t1) t2) t3) t4] := by
    rw [processTradeMessage_append market
      [updated_tail (updated_tail (updated_tail c0 t1) t2) t3] t4 (by simp) hc4 hp4 hs4 hout]
    rw [if_neg (by simp [kCandlesLookback5m])]
    rfl
  refine ⟨updated_tail (updated_tail (updated_tail c0 t1) t2) t3,
    next_candle (updated_tail (updated_tail (updated_tail c0 t1) t2) t3) t4, ?_, ?_, rfl, rfl⟩
  · simp only [List.foldl_cons, List.foldl_nil, e1, e2, e3, e4]
  · simp only [List.mem_cons, List.mem_singleton, List.not_mem_nil, or_false,
      forall_eq_or_imp, forall_eq, updated_tail]
    refine ⟨⟨?_, ?_⟩, ⟨?_, ?_⟩, ⟨?_, ?_⟩⟩
    · exact le_max_of_le_left (le_max_of_le_left (le_max_right _ _))
    · exact min_le_of_left_le (min_le_of_left_le (min_le_right _ _))
    · exact le_max_of_le_left (le_max_right _ _)
    · exact min_le_of_left_le (min_le_right _ _)
    · exact le_max_right _ _
    · exact min_le_right _ _

/-- Witness of the amended C9: the sample trades applied to the sample baseline candle. -/
theorem three_trades_then_next_window_witness :
    ∃ a b : Candle,
      [sample_trade_1, sample_trade_2, sample_trade_3, sample_trade_4].foldl
        (processTradeMessage "KRW-BTC") [sample_baseline] = [a, b] ∧
      (∀ t ∈ [sample_trade_1, sample_trade_2, sample_trade_3],
        t.trade_price ≤ a.high ∧ a.low ≤ t.trade_price) ∧
      a.close = sample_trade_3.trade_price ∧ b.open_ = a.close :=
  three_trades_then_next_window "KRW-BTC" sample_baseline sample_trade_1 sample_trade_2
    sample_trade_3 sample_trade_4 (by decide)
    (by simp [sample_trade_1, sample_trade_2, sample_trade_3, sample_trade_4])
    (by simp [sample_trade_1, sample_trade_2, sample_trade_3, sample_baseline])
    (by simp [sample_trade_4, sample_baseline])

end EngineBridge

/-! ## C20: position sizing -/
namespace RiskManager

/-- C20: for all equity, ATR and risk fraction, `calc_position_size` returns 0 when
`ATR ≤ 0` and `max(0, equity * risk_fraction / ATR)` otherwise, so it is never negative; and
`calc_position_size(1000000, 0, 0.01) = 0`. -/
theorem calc_position_size_spec (equity_krw atr risk_per_trade : ℚ) :
    (atr ≤ 0 → calc_position_size equity_krw atr risk_per_trade = 0) ∧
    (0 < atr → calc_position_size equity_krw atr risk_per_trade
        = max 0 (equity_krw * risk_per_trade / atr)) ∧
    0 ≤ calc_position_size equity_krw atr risk_per_trade ∧
    calc_position_size 1000000 0 (1 / 100) = 0 := by
  unfold calc_position_size
  refine ⟨?_, ?_, ?_, ?_⟩
  · intro h
    rw [if_pos h]
  · intro h
    rw [if_neg (not_le.mpr h)]
  · by_cases h : atr ≤ 0
    · rw [if_pos h]
    · rw [if_neg h]
      exact le_max_left _ _
  · rw [if_pos (le_refl _)]

/-- Witness of C20: an ATR of 0, and an ATR of 50 with equity 1000000 and risk 1 %. -/
theorem calc_position_size_spec_witness :
    calc_position_size 1000000 0 (1 / 100) = 0 ∧
      calc_position_size 1000000 50 (1 / 100) = max 0 (1000000 * (1 / 100) / 50) :=
  ⟨(calc_position_size_spec 1000000 0 (1 / 100)).1 (le_refl _),
    (calc_position_size_spec 1000000 50 (1 / 100)).2.1 (by norm_num)⟩

end RiskManager

/-! ## C11: the sliding window of the candle aggregator -/

namespace EngineBridge

/-- The three outcomes of `processTradeMessage`: the series is left alone, its tail candle is
rewritten, or a candle is appended (and the oldest one erased beyond the maximum length). -/
theorem processTradeMessage_cases (market : String) (c5 : List Candle) (obj : TradeMessage) :
    processTradeMessage market c5 obj = c5 ∨
    (c5 ≠ [] ∧ (c5.getLastD default).ts_ms ≤ obj.trade_timestamp ∧
      obj.trade_timestamp - (c5.getLastD default).ts_ms < 300000 ∧
      processTradeMessage market c5 obj =
        c5.dropLast ++ [updated_tail (c5.getLastD default) obj]) ∨
    (c5 ≠ [] ∧ 300000 ≤ obj.trade_timestamp - (c5.getLastD default).ts_ms ∧
      processTradeMessage market c5 obj =
        if (c5 ++ [next_candle (c5.getLastD default) obj]).length > kCandlesLookback5m then
          (c5 ++ [next_candle (c5.getLastD default) obj]).tail
        else c5 ++ [next_candle (c5.getLastD default) obj]) := by
  by_cases hne : c5 = []
  · left
    rw [hne]
    exact processTradeMessage_nil market obj
  by_cases hcode : obj.code = "" ∨ market = "" ∨ obj.code = market
  swap
  · left
    unfold processTradeMessage
    rw [if_neg (by simpa using hne), if_pos (by tauto)]
  by_cases hp : 0 < obj.trade_price
  swap
  · left
    unfold processTradeMessage
    rw [if_neg (by simpa using hne), if_neg (by tauto)]
    simp only []
    rw [if_pos (Or.inl (not_lt.mp hp))]
  by_cases ht : 0 < obj.trade_timestamp
  swap
  · left
    unfold processTradeMessage
    rw [if_neg (by simpa using hne), if_neg (by tauto)]
    simp only []
    rw [if_pos (Or.inr (not_lt.mp ht))]
  by_cases hold : obj.trade_timestamp < (c5.getLastD default).ts_ms
  · left
    exact processTradeMessage_older market c5 obj hold
  by_cases hw : 300000 ≤ obj.trade_timestamp - (c5.getLastD default).ts_ms
  · right
    right
    exact ⟨hne, hw, processTradeMessage_append market c5 obj hne hcode hp ht hw⟩
  · right
    left
    exact ⟨hne, not_lt.mp hold, not_le.mp hw,
      processTradeMessage_update market c5 obj hne hcode hp ht (not_lt.mp hold) (not_le.mp hw)⟩

/-- C11: a series of at most 120 candles has at most 120 candles after
`processTradeMessage`; and when the trade starts a new interval (an accepted trade at least
five minutes after the tail candle), the new tail candle opens at the previous tail's close,
and the result is the old series with that candle appended, without its first candle if the
append made the length exceed 120. -/
theorem processTradeMessage_sliding_window (market : String) (c5 : List Candle)
    (obj : TradeMessage) (hlen : c5.length ≤ 120) :
    (processTradeMessage market c5 obj).length ≤ 120 ∧
    (c5 ≠ [] → (obj.code = "" ∨ market = "" ∨ obj.code = market) →
      0 < obj.trade_price → 0 < obj.trade_timestamp →
      300000 ≤ obj.trade_timestamp - (c5.getLastD default).ts_ms →
      (processTradeMessage market c5 obj).getLast? =
          some (next_candle (c5.getLastD default) obj) ∧
      (next_candle (c5.getLastD default) obj).open_ = (c5.getLastD default).close ∧
      (120 < c5.length + 1 →
        processTradeMessage market c5 obj =
          c5.tail ++ [next_candle (c5.getLastD default) obj]) ∧
      (c5.length + 1 ≤ 120 →
        processTradeMessage market c5 obj =
          c5 ++ [next_candle (c5.getLastD default) obj])) := by
  constructor
  · rcases processTradeMessage_cases market c5 obj with h | ⟨hne, -, -, h⟩ | ⟨hne, -, h⟩
    · rw [h]; exact hlen
    · rw [h, List.length_append, List.length_dropLast, List.length_singleton]
      have : 0 < c5.length := List.length_pos.mpr hne
      omega
    · rw [h]
      unfold kCandlesLookback5m
      by_cases hc : (c5 ++ [next_candle (c5.getLastD default) obj]).length > 120
      · rw [if_pos hc, List.length_tail, List.length_append, List.length_singleton]
        omega
      · rw [if_neg hc]
        omega
  · intro hne hcode hp ht hw
    have h := processTradeMessage_append market c5 obj hne hcode hp ht hw
    unfold kCandlesLookback5m at h
    have htail : (c5 ++ [next_candle (c5.getLastD default) obj]).tail =
        c5.tail ++ [next_candle (c5.getLastD default) obj] := by
      cases c5 with
      | nil => exact absurd rfl hne
      | cons a l => rfl
    have hlen' : (c5 ++ [next_candle (c5.getLastD default) obj]).length = c5.length + 1 := by
      rw [List.length_append, List.length_singleton]
    refine ⟨?_, rfl, ?_, ?_⟩
    · rw [h]
      by_cases hc : (c5 ++ [next_candle (c5.getLastD default) obj]).length > 120
      · rw [if_pos hc, htail, List.getLast?_append]
        rfl
      · rw [if_neg hc, List.getLast?_append]
        rfl
    · intro hc
      rw [h, if_pos (by rw [hlen']; exact hc), htail]
    · intro hc
      rw [h, if_neg (by rw [hlen']; omega)]

/-- Witness of C11: a trade five minutes after the tail is appended to a one-candle series,
and on a series of 120 candles it also evicts the first candle. -/
theorem processTradeMessage_sliding_window_witness :
    [sample_baseline].length ≤ 120 ∧
      (processTradeMessage "KRW-BTC" [sample_baseline] sample_trade_4).length ≤ 120 ∧
      processTradeMessage "KRW-BTC" [sample_baseline] sample_trade_4 =
        [sample_baseline] ++
          [next_candle ([sample_baseline].getLastD default) sample_trade_4] ∧
      (List.replicate 120 sample_baseline).length ≤ 120 ∧
      processTradeMessage "KRW-BTC" (List.replicate 120 sample_baseline) sample_trade_4 =
        (List.replicate 120 sample_baseline).tail ++
          [next_candle ((List.replicate 120 sample_baseline).getLastD default)
            sample_trade_4] :=
  ⟨by decide,
    (processTradeMessage_sliding_window "KRW-BTC" [sample_baseline] sample_trade_4
      (by decide)).1,
    ((processTradeMessage_sliding_window "KRW-BTC" [sample_baseline] sample_trade_4
      (by decide)).2 (by simp) (by decide) (by norm_num [sample_trade_4]) (by decide)
      (by decide)).2.2.2 (by decide),
    by decide,
    ((processTradeMessage_sliding_window "KRW-BTC" (List.replicate 120 sample_baseline)
      sample_trade_4 (by decide)).2 (by decide) (by decide) (by norm_num [sample_trade_4])
      (by decide) (by decide)).2.2.1 (by decide)⟩

end EngineBridge

/-! ## C19: the position -/

namespace EngineBridge

theorem updatePosition_qty_nonneg (s : Bridge) (isBuy : Bool) (price volume : ℚ) (ts : ℤ)
    (h : 0 ≤ s.positionQty) : 0 ≤ (updatePosition s isBuy price volume ts).positionQty := by
  unfold updatePosition
  by_cases hv : volume ≤ 0
  · rw [if_pos hv]; exact h
  rw [if_neg hv]
  cases isBuy with
  | true =>
    simp only [if_true]
    show 0 ≤ s.positionQty + volume
    linarith [not_le.mp hv]
  | false =>
    simp only [Bool.false_eq_true, if_false]
    by_cases hc : volume ≥ s.positionQty - 1 / 100000000
    · rw [if_pos hc]
    · rw [if_neg hc]
      show 0 ≤ s.positionQty - volume
      linarith [not_le.mp hc]

theorem apply_position_calls_qty_nonneg (calls : List (Bool × ℚ × ℚ × ℤ)) (s : Bridge)
    (h : 0 ≤ s.positionQty) : 0 ≤ (apply_position_calls s calls).positionQty := by
  unfold apply_position_calls
  induction calls generalizing s with
  | nil => exact h
  | cons c cs ih =>
    rw [List.foldl_cons]
    exact ih _ (updatePosition_qty_nonneg s c.1 c.2.1 c.2.2.1 c.2.2.2 h)

/-- C19, as stated, fails for a sell of volume 0: after a buy of 0.000000005 at 100 the
quantity is 0.000000005; a sell of volume 0 is at least `quantity - 1e-8`, yet it returns at
the guard `volume <= 0` and leaves the quantity and the average price (100) as they are. -/
theorem sell_of_zero_volume_keeps_position :
    (updatePosition initial_bridge true 100 (5 / 1000000000) 0).positionQty
        = 5 / 1000000000 ∧
      (0 : ℚ) ≥ (updatePosition initial_bridge true 100 (5 / 1000000000) 0).positionQty
        - 1 / 100000000 ∧
      (updatePosition (updatePosition initial_bridge true 100 (5 / 1000000000) 0)
        false 100 0 0).positionQty = 5 / 1000000000 ∧
      (updatePosition (updatePosition initial_bridge true 100 (5 / 1000000000) 0)
        false 100 0 0).positionAvg = 100 := by
  have h1 : (updatePosition initial_bridge true 100 (5 / 1000000000) 0).positionQty
      = 5 / 1000000000 := by
    norm_num [updatePosition, initial_bridge]
  have h2 : updatePosition (updatePosition initial_bridge true 100 (5 / 1000000000) 0)
      false 100 0 0 = updatePosition initial_bridge true 100 (5 / 1000000000) 0 := by
    generalize updatePosition initial_bridge true 100 (5 / 1000000000) 0 = s
    unfold updatePosition
    rw [if_pos (le_refl _)]
  refine ⟨h1, ?_, ?_, ?_⟩
  · rw [h1]; norm_num
  · rw [h2, h1]
  · rw [h2]
    norm_num [updatePosition, initial_bridge]

/-- C19, amended: starting from quantity 0, after every sequence of `updatePosition` calls
with arbitrary arguments the quantity is at least 0; a sell of positive volume that is at
least `quantity - 1e-8` sets the quantity and the average price to exactly 0; and a sell of
smaller volume leaves the average price unchanged. -/
theorem position_never_negative (calls : List (Bool × ℚ × ℚ × ℤ)) (s0 s : Bridge)
    (price volume : ℚ) (ts : ℤ) :
    (s0.positionQty = 0 → 0 ≤ (apply_position_calls s0 calls).positionQty) ∧
    (0 < volume → volume ≥ s.positionQty - 1 / 100000000 →
      (updatePosition s false price volume ts).positionQty = 0 ∧
      (updatePosition s false price volume ts).positionAvg = 0) ∧
    (volume < s.positionQty - 1 / 100000000 →
      (updatePosition s false price volume ts).positionAvg = s.positionAvg) := by
  refine ⟨?_, ?_, ?_⟩
  · intro h0
    exact apply_position_calls_qty_nonneg calls s0 (by rw [h0])
  · intro hv hge
    unfold updatePosition
    rw [if_neg (not_le.mpr hv)]
    simp only [Bool.false_eq_true, if_false]
    rw [if_pos hge]
    exact ⟨rfl, rfl⟩
  · intro hlt
    unfold updatePosition
    by_cases hv : volume ≤ 0
    · rw [if_pos hv]
    · rw [if_neg hv]
      simp only [Bool.false_eq_true, if_false]
      rw [if_neg (not_le.mpr hlt)]

/-- Witness of the amended C19: from the initial state, a buy of 2 at 100, a sell of 0.5 (the
average stays 100) and a sell of 1.5 (everything is zeroed). -/
theorem position_never_negative_witness :
    initial_bridge.positionQty = 0 ∧
      0 ≤ (apply_position_calls initial_bridge
        [(true, 100, 2, 0), (false, 110, 1 / 2, 0)]).positionQty ∧
      (updatePosition (apply_position_calls initial_bridge
        [(true, 100, 2, 0), (false, 110, 1 / 2, 0)]) false 120 (3 / 2) 0).positionQty = 0 ∧
      (updatePosition (apply_position_calls initial_bridge [(true, 100, 2, 0)])
        false 110 (1 / 2) 0).positionAvg =
        (apply_position_calls initial_bridge [(true, 100, 2, 0)]).positionAvg :=
  ⟨rfl,
    (position_never_negative [(true, 100, 2, 0), (false, 110, 1 / 2, 0)] initial_bridge
      initial_bridge 0 0 0).1 rfl,
    ((position_never_negative [] initial_bridge
      (apply_position_calls initial_bridge [(true, 100, 2, 0), (false, 110, 1 / 2, 0)])
      120 (3 / 2) 0).2.1 (by norm_num)
      (by norm_num [apply_position_calls, updatePosition, initial_bridge])).1,
    (position_never_negative [] initial_bridge
      (apply_position_calls initial_bridge [(true, 100, 2, 0)]) 110 (1 / 2) 0).2.2
      (by norm_num [apply_position_calls, updatePosition, initial_bridge])⟩

end EngineBridge

/-! ## C17, C18: the table of pending orders -/

namespace EngineBridge

theorem updatePosition_pendingOrders (s : Bridge) (isBuy : Bool) (price volume : ℚ) (ts : ℤ) :
    (updatePosition s isBuy price volume ts).pendingOrders = s.pendingOrders := by
  unfold updatePosition
  by_cases hv : volume ≤ 0
  · rw [if_pos hv]
  rw [if_neg hv]
  cases isBuy with
  | true => rfl
  | false =>
    simp only [Bool.false_eq_true, if_false]
    by_cases hc : volume ≥ s.positionQty - 1 / 100000000
    · rw [if_pos hc]
    · rw [if_neg hc]

/-- The entry of order `uuid` after a fill with positive price and volume. -/
theorem handleFill_tracked (s : Bridge) (uuid : String) (isBuy : Bool) (price volume : ℚ)
    (ts : ℤ) (ctx : PendingOrder) (hp : 0 < price) (hv : 0 < volume)
    (hctx : s.pendingOrders uuid = some ctx) (hf : 0 ≤ ctx.filledVolume) :
    (handleFill s uuid isBuy price volume ts).pendingOrders uuid =
      some { ctx with
        filledVolume := ctx.filledVolume + volume
        weightedFillPrice :=
          (ctx.weightedFillPrice * ctx.filledVolume + price * volume)
            / (ctx.filledVolume + volume) } := by
  unfold handleFill
  rw [if_neg (by push_neg; exact ⟨hp, hv⟩)]
  simp only [updatePosition_pendingOrders, hctx]
  rw [if_pos (by linarith)]
  simp

/-- The table entries of the other orders are not touched by a fill. -/
theorem handleFill_other (s : Bridge) (uuid id : String) (isBuy : Bool) (price volume : ℚ)
    (ts : ℤ) (hid : id ≠ uuid) :
    (handleFill s uuid isBuy price volume ts).pendingOrders id = s.pendingOrders id := by
  unfold handleFill
  by_cases hg : price ≤ 0 ∨ volume ≤ 0
  · rw [if_pos hg]
  rw [if_neg hg]
  simp only [updatePosition_pendingOrders]
  cases hc : s.pendingOrders uuid with
  | none => simp [updatePosition_pendingOrders]
  | some ctx => simp [Function.update_noteq hid]

end EngineBridge

namespace EngineBridge

/-- The requested and the filled volume of every table entry after one fill: only the
filled volume of order `uuid` moves, by the counted volume of the fill. -/
theorem handleFill_volumes (s : Bridge) (uuid id : String) (isBuy : Bool) (price volume : ℚ)
    (ts : ℤ) :
    ((handleFill s uuid isBuy price volume ts).pendingOrders id).map
        (fun c => (c.volume, c.filledVolume)) =
      (s.pendingOrders id).map
        (fun c => (c.volume,
          c.filledVolume + (if id = uuid then counted_volume price volume else 0))) := by
  by_cases hid : id = uuid
  swap
  · rw [handleFill_other s uuid id isBuy price volume ts hid, if_neg hid]
    simp
  subst hid
  rw [if_pos rfl]
  unfold handleFill counted_volume
  by_cases hg : price ≤ 0 ∨ volume ≤ 0
  · rw [if_pos hg, if_pos hg]
    simp
  rw [if_neg hg, if_neg hg]
  simp only [updatePosition_pendingOrders]
  cases hc : s.pendingOrders id with
  | none => simp [updatePosition_pendingOrders, hc]
  | some ctx =>
    simp only [Function.update_same, Option.map_some']
    by_cases hpos : ctx.filledVolume + volume > 0
    · rw [if_pos hpos]
    · rw [if_neg hpos]

theorem foldl_handleFill_volumes (trades : List TradeFill) (s : Bridge) (uuid id : String)
    (isBuy : Bool) :
    ((trades.foldl
        (fun (s : Bridge) (t : TradeFill) =>
          handleFill s uuid isBuy t.trade_price t.trade_volume t.trade_timestamp)
        s).pendingOrders id).map (fun c => (c.volume, c.filledVolume)) =
      (s.pendingOrders id).map
        (fun c => (c.volume,
          c.filledVolume + (if id = uuid then
            (trades.map (fun t => counted_volume t.trade_price t.trade_volume)).sum
          else 0))) := by
  induction trades generalizing s with
  | nil =>
    simp
  | cons t ts ih =>
    rw [List.foldl_cons, ih, List.map_cons, List.sum_cons]
    have h := handleFill_volumes s uuid id isBuy t.trade_price t.trade_volume t.trade_timestamp
    cases hn : (handleFill s uuid isBuy t.trade_price t.trade_volume
        t.trade_timestamp).pendingOrders id with
    | none =>
      rw [hn] at h
      cases hs : s.pendingOrders id with
      | none => rfl
      | some c => rw [hs] at h; simp at h
    | some c' =>
      rw [hn] at h
      cases hs : s.pendingOrders id with
      | none => rw [hs] at h; simp at h
      | some c =>
        rw [hs] at h
        simp only [Option.map_some', Option.some.injEq, Prod.mk.injEq] at h ⊢
        refine ⟨h.1, ?_⟩
        rw [h.2]
        by_cases hid : id = uuid
        · simp only [hid, if_true]; ring
        · simp only [hid, if_false]; ring

/-- The requested and filled volumes of every table entry after the fills of a message. -/
theorem apply_fills_volumes (s : Bridge) (obj : MyOrderMessage) (id : String) :
    ((apply_fills s obj).pendingOrders id).map (fun c => (c.volume, c.filledVolume)) =
      (s.pendingOrders id).map
        (fun c => (c.volume,
          c.filledVolume + (if id = obj.uuid then message_fill_volume obj else 0))) := by
  unfold apply_fills message_fill_volume
  simp only []
  by_cases h : obj.trade_volume > 0 ∧ obj.trade_price > 0
  · rw [if_pos h, if_pos h, handleFill_volumes]
    have : counted_volume obj.trade_price obj.trade_volume = obj.trade_volume := by
      unfold counted_volume
      rw [if_neg (by push_neg; exact ⟨h.2, h.1⟩)]
    rw [this]
  · rw [if_neg h, if_neg h]
    cases ht : obj.trades with
    | none => simp
    | some trades => exact foldl_handleFill_volumes trades s obj.uuid id _

end EngineBridge

namespace EngineBridge

theorem to_lower_bid : to_lower "bid" = "bid" := by decide

/-- The table after a message whose order stays tracked is the table after its fills. -/
theorem processMyOrderMessage_keep (s : Bridge) (obj : MyOrderMessage)
    (hr : 0 < obj.remaining_volume) (hs : obj.state ≠ "done") :
    processMyOrderMessage s obj = apply_fills s obj := by
  unfold processMyOrderMessage
  simp only []
  rw [if_neg (by push_neg; exact ⟨hr, hs⟩)]

/-- The table after a message that ends the order: its entry is removed. -/
theorem processMyOrderMessage_done (s : Bridge) (obj : MyOrderMessage)
    (h : obj.remaining_volume ≤ 0 ∨ obj.state = "done") :
    (processMyOrderMessage s obj).pendingOrders obj.uuid = none := by
  unfold processMyOrderMessage
  simp only []
  rw [if_pos h]
  simp

theorem processMyOrderMessage_other (s : Bridge) (obj : MyOrderMessage) (id : String)
    (hid : id ≠ obj.uuid) :
    (processMyOrderMessage s obj).pendingOrders id = (apply_fills s obj).pendingOrders id := by
  unfold processMyOrderMessage
  simp only []
  by_cases h : obj.remaining_volume ≤ 0 ∨ obj.state = "done"
  · rw [if_pos h]
    simp [Function.update_noteq hid]
  · rw [if_neg h]

/-- The entry of the order after the top-level fill of a message. -/
theorem apply_fills_tracked (s : Bridge) (obj : MyOrderMessage) (ctx : PendingOrder)
    (hp : 0 < obj.trade_price) (hv : 0 < obj.trade_volume)
    (hctx : s.pendingOrders obj.uuid = some ctx) (hf : 0 ≤ ctx.filledVolume) :
    (apply_fills s obj).pendingOrders obj.uuid =
      some { ctx with
        filledVolume := ctx.filledVolume + obj.trade_volume
        weightedFillPrice :=
          (ctx.weightedFillPrice * ctx.filledVolume + obj.trade_price * obj.trade_volume)
            / (ctx.filledVolume + obj.trade_volume) } := by
  unfold apply_fills
  simp only []
  rw [if_pos ⟨hv, hp⟩]
  exact handleFill_tracked s obj.uuid _ obj.trade_price obj.trade_volume obj.trade_timestamp
    ctx hp hv hctx hf

end EngineBridge

namespace EngineBridge

theorem sample_overfill_entry :
    (processMyOrderMessage sample_tracking sample_overfill).pendingOrders "abc" =
      some { sample_order with
        filledVolume := sample_order.filledVolume + sample_overfill.trade_volume
        weightedFillPrice :=
          (sample_order.weightedFillPrice * sample_order.filledVolume
            + sample_overfill.trade_price * sample_overfill.trade_volume)
            / (sample_order.filledVolume + sample_overfill.trade_volume) } := by
  rw [processMyOrderMessage_keep sample_tracking sample_overfill
    (by norm_num [sample_overfill]) (by decide)]
  exact apply_fills_tracked sample_tracking sample_overfill sample_order
    (by norm_num [sample_overfill]) (by norm_num [sample_overfill]) rfl
    (by norm_num [sample_order])

/-- C18, as stated, fails: a message that reports a fill of 2 for an order of requested
volume 1, with 1 remaining, leaves the order tracked with filled volume 2, which exceeds the
requested volume by more than `1e-8`. -/
theorem overfill_stays_tracked :
    sample_tracking.pendingOrders "abc" = some sample_order ∧
      sample_order.volume = 1 ∧ sample_order.filledVolume = 0 ∧
      ∃ ctx' : PendingOrder,
        (processMyOrderMessage sample_tracking sample_overfill).pendingOrders "abc"
          = some ctx' ∧
        ctx'.volume = 1 ∧ ctx'.filledVolume = 2 ∧
        ¬ (ctx'.filledVolume ≤ ctx'.volume + 1 / 100000000) := by
  refine ⟨rfl, rfl, rfl, ?_⟩
  refine ⟨_, sample_overfill_entry, rfl, ?_, ?_⟩
  · norm_num [sample_order, sample_overfill]
  · norm_num [sample_order, sample_overfill]

/-- C18, amended: after every private order message, every tracked order was tracked before
the message, keeps its requested volume, and has as cumulative filled volume its filled
volume before the message plus, for the order the message is about, the total volume of the
fills the message carries (nothing bounds it by the requested volume); so it is within
`1e-8` of the requested volume after the message exactly when that sum is. -/
theorem order_table_filled_volume (s : Bridge) (obj : MyOrderMessage) (id : String)
    (ctx' : PendingOrder) (h : (processMyOrderMessage s obj).pendingOrders id = some ctx') :
    ∃ ctx : PendingOrder,
      s.pendingOrders id = some ctx ∧
      ctx'.volume = ctx.volume ∧
      ctx'.filledVolume =
        ctx.filledVolume + (if id = obj.uuid then message_fill_volume obj else 0) ∧
      (ctx'.filledVolume ≤ ctx'.volume + 1 / 100000000 ↔
        ctx.filledVolume + (if id = obj.uuid then message_fill_volume obj else 0)
          ≤ ctx.volume + 1 / 100000000) := by
  have hfill : (apply_fills s obj).pendingOrders id = some ctx' := by
    by_cases hid : id = obj.uuid
    · by_cases hd : obj.remaining_volume ≤ 0 ∨ obj.state = "done"
      · rw [hid, processMyOrderMessage_done s obj hd] at h
        exact absurd h (by simp)
      · push_neg at hd
        rw [processMyOrderMessage_keep s obj hd.1 hd.2] at h
        exact h
    · rw [processMyOrderMessage_other s obj id hid] at h
      exact h
  have hv := apply_fills_volumes s obj id
  rw [hfill] at hv
  cases hs : s.pendingOrders id with
  | none => rw [hs] at hv; simp at hv
  | some ctx =>
    rw [hs] at hv
    simp only [Option.map_some', Option.some.injEq, Prod.mk.injEq] at hv
    refine ⟨ctx, rfl, hv.1, hv.2, ?_⟩
    rw [hv.1, hv.2]

/-- Witness of the amended C18: the overfilled order of the counterexample. -/
theorem order_table_filled_volume_witness :
    ∃ ctx' ctx : PendingOrder,
      (processMyOrderMessage sample_tracking sample_overfill).pendingOrders "abc"
        = some ctx' ∧
      sample_tracking.pendingOrders "abc" = some ctx ∧
      ctx'.volume = ctx.volume ∧
      ctx'.filledVolume = ctx.filledVolume
        + (if "abc" = sample_overfill.uuid then message_fill_volume sample_overfill else 0) := by
  obtain ⟨ctx, h1, h2, h3, -⟩ :=
    order_table_filled_volume sample_tracking sample_overfill "abc" _ sample_overfill_entry
  exact ⟨_, ctx, sample_overfill_entry, h1, h2, h3⟩

end EngineBridge

/-! ## C13: the realized volatility -/

theorem sample_math_wellBehaved : sample_math.WellBehaved := by
  refine ⟨?_, ?_, ?_, ?_⟩
  · show (1 : ℚ) - 1 = 0
    norm_num
  · intro x y _ h
    show x - 1 < y - 1
    linarith
  · rfl
  · intro x y _ h
    exact h

/-- The loop of `realized_vol_1m`: sum of squares and count. -/
theorem foldl_squares (m : MathLib) (ps : List (Candle × Candle)) (a : ℚ) (n : ℕ) :
    ps.foldl
      (fun (acc : ℚ × ℕ) (p : Candle × Candle) =>
        (acc.1 + m.log (p.2.close / p.1.close) * m.log (p.2.close / p.1.close), acc.2 + 1))
      (a, n) =
    (a + ((ps.map (fun p => m.log (p.2.close / p.1.close))).map (fun r => r * r)).sum,
      n + ps.length) := by
  induction ps generalizing a n with
  | nil => simp
  | cons p ps ih =>
    rw [List.foldl_cons, ih]
    simp only [List.map_cons, List.sum_cons, List.length_cons]
    refine Prod.ext ?_ ?_
    · show _ = _
      ring
    · show _ = _
      omega

/-- The loop of the `Candles1m` handler: sum of squares and count over the pairs that are
not skipped. -/
theorem foldl_squares_skipping (m : MathLib) (ps : List (Candle × Candle)) (a : ℚ) (n : ℕ) :
    ps.foldl
      (fun (acc : ℚ × ℕ) (p : Candle × Candle) =>
        if p.1.close ≤ 0 ∨ p.2.close ≤ 0 then acc
        else
          (acc.1 + m.log (p.2.close / p.1.close) * m.log (p.2.close / p.1.close), acc.2 + 1))
      (a, n) =
    (a + (((ps.filter (fun p => decide (0 < p.1.close) && decide (0 < p.2.close))).map
        (fun p => m.log (p.2.close / p.1.close))).map (fun r => r * r)).sum,
      n + (ps.filter (fun p => decide (0 < p.1.close) && decide (0 < p.2.close))).length) := by
  induction ps generalizing a n with
  | nil => simp
  | cons p ps ih =>
    rw [List.foldl_cons]
    by_cases hbad : p.1.close ≤ 0 ∨ p.2.close ≤ 0
    · rw [if_pos hbad, ih]
      have hf : (decide (0 < p.1.close) && decide (0 < p.2.close)) = false := by
        rcases hbad with h | h
        · simp [not_lt.mpr h]
        · simp [not_lt.mpr h]
      simp only [List.filter_cons, hf, Bool.false_eq_true, if_false]
    · rw [if_neg hbad, ih]
      push_neg at hbad
      have hf : (decide (0 < p.1.close) && decide (0 < p.2.close)) = true := by
        simp [hbad.1, hbad.2]
      simp only [List.filter_cons, hf, if_true, List.map_cons, List.sum_cons, List.length_cons]
      refine Prod.ext ?_ ?_
      · show _ = _
        ring
      · show _ = _
        omega

/-- The value `rv` of the `Candles1m` handler is the root mean square of the log-returns
over the pairs with positive closes. -/
theorem candles1m_rv_eq (m : MathLib) (c : List Candle) :
    EngineBridge.candles1m_rv m c = root_mean_square m (spec_log_returns m c) := by
  unfold EngineBridge.candles1m_rv root_mean_square spec_log_returns
  simp only []
  rw [foldl_squares_skipping]
  simp only [zero_add, List.length_map]

/-- With positive closes no pair is skipped. -/
theorem filter_positive_pairs (c : List Candle) (hpos : ∀ x ∈ c, 0 < x.close) :
    (consecutive_pairs c).filter
      (fun p => decide (0 < p.1.close) && decide (0 < p.2.close)) = consecutive_pairs c := by
  rw [List.filter_eq_self]
  intro p hp
  unfold consecutive_pairs at hp
  have h1 := (List.of_mem_zip hp).1
  have h2 := List.mem_of_mem_tail (List.of_mem_zip hp).2
  simp [hpos _ h1, hpos _ h2]

theorem consecutive_pairs_length (c : List Candle) :
    (consecutive_pairs c).length = c.length - 1 := by
  unfold consecutive_pairs
  rw [List.length_zip, List.length_tail]
  omega

/-- On a series with positive closes `realized_vol_1m` is the root mean square of the
log-returns. -/
theorem realized_vol_1m_eq (m : MathLib) (c : List Candle) (hpos : ∀ x ∈ c, 0 < x.close) :
    realized_vol_1m m c = root_mean_square m (spec_log_returns m c) := by
  unfold realized_vol_1m root_mean_square spec_log_returns
  rw [filter_positive_pairs c hpos]
  simp only [List.length_map, consecutive_pairs_length]
  by_cases h : c.length < 2
  · rw [if_pos h, if_neg (by omega)]
  · rw [if_neg h, if_pos (by omega)]
    rw [foldl_squares]
    simp only [zero_add, consecutive_pairs_length]
    rw [max_eq_right (by omega)]

theorem log_two_pos (m : MathLib) (hm : m.WellBehaved) : 0 < m.log 2 := by
  have h := hm.2.1 1 2 (by norm_num) (by norm_num)
  rw [hm.1] at h
  exact h

theorem sqrt_pos_of_pos (m : MathLib) (hm : m.WellBehaved) (x : ℚ) (hx : 0 < x) :
    0 < m.sqrt x := by
  have h := hm.2.2.2 0 x (le_refl 0) hx
  rw [hm.2.2.1] at h
  exact h

theorem steady_series_log_returns (m : MathLib) :
    spec_log_returns m steady_series = [m.log 2, m.log 2] := by
  norm_num [spec_log_returns, consecutive_pairs, steady_series, minute_candle]

theorem moving_series_log_returns (m : MathLib) :
    spec_log_returns m moving_series = [m.log 2, m.log 1] := by
  norm_num [spec_log_returns, consecutive_pairs, moving_series, minute_candle]

theorem flat_series_log_returns (m : MathLib) :
    spec_log_returns m flat_series = [m.log 1, m.log 1] := by
  norm_num [spec_log_returns, consecutive_pairs, flat_series, minute_candle]

theorem steady_series_positive : ∀ x ∈ steady_series, 0 < x.close := by
  intro x hx
  simp only [steady_series, List.mem_cons, List.mem_singleton, List.not_mem_nil, or_false] at hx
  rcases hx with h | h | h <;> rw [h] <;> norm_num [minute_candle]

theorem moving_series_positive : ∀ x ∈ moving_series, 0 < x.close := by
  intro x hx
  simp only [moving_series, List.mem_cons, List.mem_singleton, List.not_mem_nil, or_false] at hx
  rcases hx with h | h | h <;> rw [h] <;> norm_num [minute_candle]

theorem flat_series_positive : ∀ x ∈ flat_series, 0 < x.close := by
  intro x hx
  simp only [flat_series, List.mem_cons, List.mem_singleton, List.not_mem_nil, or_false] at hx
  rcases hx with h | h | h <;> rw [h] <;> norm_num [minute_candle]

theorem steady_series_rms (m : MathLib) :
    root_mean_square m (spec_log_returns m steady_series) = m.sqrt (m.log 2 * m.log 2) := by
  rw [steady_series_log_returns]
  unfold root_mean_square
  rw [if_pos (by simp)]
  congr 1
  simp only [List.map_cons, List.map_nil, List.sum_cons, List.sum_nil, List.length_cons,
    List.length_nil]
  norm_num

theorem steady_series_variance (m : MathLib) :
    spec_sample_variance (spec_log_returns m steady_series) = 0 := by
  rw [steady_series_log_returns]
  unfold spec_sample_variance
  simp only [List.map_cons, List.map_nil, List.sum_cons, List.sum_nil, List.length_cons,
    List.length_nil]
  norm_num

/-- Claim C13, counterexample: on the 1-minute closes 1, 2, 4 the two log-returns are both
`log 2`, so their sample variance is 0 and their sample standard deviation is `sqrt 0`, which
is 0; `realized_vol_1m` and the handler of the bridge both return `sqrt (log 2 * log 2)`, the
root mean square, which is positive for every well-behaved math library (and is 1 where the
sample standard deviation is 0 for the stand-in library). -/
theorem realized_vol_not_sample_std :
    (∀ m : MathLib,
      spec_log_returns m steady_series = [m.log 2, m.log 2] ∧
      spec_sample_variance (spec_log_returns m steady_series) = 0 ∧
      realized_vol_1m m steady_series = m.sqrt (m.log 2 * m.log 2) ∧
      EngineBridge.candles1m_rv m steady_series = m.sqrt (m.log 2 * m.log 2)) ∧
    (∀ m : MathLib, m.WellBehaved →
      spec_sample_std m (spec_log_returns m steady_series) = 0 ∧
      0 < realized_vol_1m m steady_series ∧
      0 < EngineBridge.candles1m_rv m steady_series) ∧
    spec_sample_std sample_math (spec_log_returns sample_math steady_series) = 0 ∧
    realized_vol_1m sample_math steady_series = 1 ∧
    EngineBridge.candles1m_rv sample_math steady_series = 1 := by
  have hrv : ∀ m : MathLib, realized_vol_1m m steady_series = m.sqrt (m.log 2 * m.log 2) :=
    fun m => by rw [realized_vol_1m_eq m _ steady_series_positive, steady_series_rms]
  have hcv : ∀ m : MathLib,
      EngineBridge.candles1m_rv m steady_series = m.sqrt (m.log 2 * m.log 2) :=
    fun m => by rw [candles1m_rv_eq, steady_series_rms]
  have hstd : ∀ m : MathLib, m.WellBehaved →
      spec_sample_std m (spec_log_returns m steady_series) = 0 := by
    intro m hm
    unfold spec_sample_std
    rw [steady_series_variance, hm.2.2.1]
  refine ⟨fun m => ⟨steady_series_log_returns m, steady_series_variance m, hrv m, hcv m⟩,
    ?_, hstd _ sample_math_wellBehaved, ?_, ?_⟩
  · intro m hm
    have hl := log_two_pos m hm
    refine ⟨hstd m hm, ?_, ?_⟩
    · rw [hrv]
      exact sqrt_pos_of_pos m hm _ (mul_pos hl hl)
    · rw [hcv]
      exact sqrt_pos_of_pos m hm _ (mul_pos hl hl)
  · rw [hrv]
    norm_num [sample_math]
  · rw [hcv]
    norm_num [sample_math]

/-- Claim C13, amended: the value `rv` that the `Candles1m` handler of the bridge computes
from a series is the root mean square of its log-returns `ln(close_i / close_{i-1})` over
the consecutive pairs with both closes positive: the square root of the sum of their squares
divided by their number, and 0 when there is none. On a series whose closes are all positive
`realized_vol_1m` returns the same value. -/
theorem realized_vol_root_mean_square (m : MathLib) (c : List Candle) :
    EngineBridge.candles1m_rv m c = root_mean_square m (spec_log_returns m c) ∧
    ((spec_log_returns m c).length > 0 →
      EngineBridge.candles1m_rv m c =
        m.sqrt (((spec_log_returns m c).map (fun r => r * r)).sum /
          ((spec_log_returns m c).length : ℚ))) ∧
    ((spec_log_returns m c).length = 0 → EngineBridge.candles1m_rv m c = 0) ∧
    ((∀ x ∈ c, 0 < x.close) → realized_vol_1m m c = EngineBridge.candles1m_rv m c) := by
  refine ⟨candles1m_rv_eq m c, ?_, ?_, ?_⟩
  · intro h
    rw [candles1m_rv_eq, root_mean_square, if_pos h]
  · intro h
    rw [candles1m_rv_eq, root_mean_square, if_neg (by omega)]
  · intro h
    rw [candles1m_rv_eq, realized_vol_1m_eq m c h]

/-- The amended C13 at the closes 1, 2, 2 with the stand-in math library, where the
log-returns are 1 and 0 and the root mean square is `(1 * 1 + 0 * 0) / 2`. -/
theorem realized_vol_root_mean_square_witness :
    spec_log_returns sample_math moving_series = [1, 0] ∧
    EngineBridge.candles1m_rv sample_math moving_series = 1 / 2 ∧
    realized_vol_1m sample_math moving_series = 1 / 2 := by
  have h := realized_vol_root_mean_square sample_math moving_series
  have hl : spec_log_returns sample_math moving_series = [1, 0] := by
    rw [moving_series_log_returns]
    norm_num [sample_math]
  have hc : EngineBridge.candles1m_rv sample_math moving_series = 1 / 2 := by
    rw [h.1, hl]
    norm_num [root_mean_square, sample_math]
  refine ⟨hl, hc, ?_⟩
  rw [h.2.2.2 moving_series_positive, hc]

/-! ## C12: a market that does not move is not selected -/

theorem root_mean_square_zero (m : MathLib) (hm : m.WellBehaved) (rs : List ℚ)
    (h : ∀ r ∈ rs, r = 0) : root_mean_square m rs = 0 := by
  unfold root_mean_square
  by_cases hl : rs.length > 0
  · rw [if_pos hl]
    have hs : (rs.map (fun r => r * r)).sum = 0 := by
      apply List.sum_eq_zero
      intro x hx
      obtain ⟨r, hr, rfl⟩ := List.mem_map.mp hx
      rw [h r hr]
      norm_num
    rw [hs, zero_div, hm.2.2.1]
  · rw [if_neg hl]

theorem sum_squares_nonneg (rs : List ℚ) : 0 ≤ (rs.map (fun r => r * r)).sum := by
  apply List.sum_nonneg
  intro x hx
  obtain ⟨r, _, rfl⟩ := List.mem_map.mp hx
  exact mul_self_nonneg r

theorem sum_squares_pos (rs : List ℚ) (h : ∃ r ∈ rs, r ≠ 0) :
    0 < (rs.map (fun r => r * r)).sum := by
  induction rs with
  | nil =>
    obtain ⟨r, hr, _⟩ := h
    simp at hr
  | cons a rs ih =>
    rw [List.map_cons, List.sum_cons]
    by_cases ha : a = 0
    · obtain ⟨r, hr, hne⟩ := h
      rcases List.mem_cons.mp hr with h1 | h1
      · exact absurd (h1 ▸ ha) hne
      · have := ih ⟨r, h1, hne⟩
        have h2 := mul_self_nonneg a
        linarith
    · have h1 : 0 < a * a := mul_self_pos.mpr ha
      have h2 := sum_squares_nonneg rs
      linarith

theorem root_mean_square_pos (m : MathLib) (hm : m.WellBehaved) (rs : List ℚ)
    (h : ∃ r ∈ rs, r ≠ 0) : 0 < root_mean_square m rs := by
  unfold root_mean_square
  have hl : rs.length > 0 := by
    obtain ⟨r, hr, _⟩ := h
    exact List.length_pos_of_mem hr
  rw [if_pos hl]
  apply sqrt_pos_of_pos m hm
  apply div_pos (sum_squares_pos rs h)
  exact_mod_cast hl

theorem spec_log_returns_length_le (m : MathLib) (c : List Candle) :
    (spec_log_returns m c).length ≤ c.length - 1 := by
  unfold spec_log_returns
  rw [List.length_map, ← consecutive_pairs_length]
  exact List.length_filter_le _ _

/-- The scoring block of the handler in terms of the root mean square of the log-returns. -/
theorem score_candidate_eq (m : MathLib) (s : Bridge) (mk : String) (series : List Candle) :
    score_candidate m s mk series =
      if series.length > 1 ∧ root_mean_square m (spec_log_returns m series) > 0 ∧
          EngineBridge.hash_value s.volume24h mk 0 > 0 ∧
          exceeds_best (m.log (EngineBridge.hash_value s.volume24h mk 0) *
            root_mean_square m (spec_log_returns m series)) s.bestScore = true then
        { s with
          pendingMarket := mk
          bestScore := some (m.log (EngineBridge.hash_value s.volume24h mk 0) *
            root_mean_square m (spec_log_returns m series))
          bestMarket := mk }
      else { s with pendingMarket := mk } := by
  unfold score_candidate EngineBridge.score_candles1m
  simp only [List.length_reverse, List.reverse_reverse, candles1m_rv_eq]
  by_cases h1 : series.length > 1
  · rw [if_pos h1]
    by_cases h2 : root_mean_square m (spec_log_returns m series) > 0 ∧
        EngineBridge.hash_value s.volume24h mk 0 > 0
    · rw [if_pos h2]
      by_cases h3 : exceeds_best (m.log (EngineBridge.hash_value s.volume24h mk 0) *
            root_mean_square m (spec_log_returns m series)) s.bestScore = true
      · rw [if_pos h3, if_pos ⟨h1, h2.1, h2.2, h3⟩]
      · rw [if_neg h3, if_neg (fun h => h3 h.2.2.2)]
    · rw [if_neg h2, if_neg (fun h => h2 ⟨h.2.1, h.2.2.1⟩)]
  · rw [if_neg h1, if_neg (fun h => h1 h.1)]

/-- A candidate whose root mean square is not positive leaves the best score alone. -/
theorem score_candidate_unscored (m : MathLib) (s : Bridge) (mk : String)
    (series : List Candle) (h : ¬ root_mean_square m (spec_log_returns m series) > 0) :
    score_candidate m s mk series = { s with pendingMarket := mk } := by
  rw [score_candidate_eq, if_neg (fun h1 => h h1.2.1)]

/-- The loop of `select_top_market` over two tickers that both have a series. -/
theorem select_top_market_two (m : MathLib) (a b : Ticker24h) (sa sb : List Candle)
    (candles_1m : List (String × List Candle))
    (ha : candles_1m.find? (fun p => p.1 == a.market) = some (a.market, sa))
    (hb : candles_1m.find? (fun p => p.1 == b.market) = some (b.market, sb)) :
    MarketSelector.select_top_market m [a, b] candles_1m =
      if exceeds_best (m.log (max (1 / 1000000000) b.acc_trade_price_24h) *
          realized_vol_1m m sb)
          (some (m.log (max (1 / 1000000000) a.acc_trade_price_24h) * realized_vol_1m m sa))
          = true
      then b.market else a.market := by
  unfold MarketSelector.select_top_market
  simp only [List.foldl_cons, List.foldl_nil, ha, hb]
  rw [show exceeds_best (m.log (max (1 / 1000000000) a.acc_trade_price_24h) *
      realized_vol_1m m sa) none = true from rfl, if_pos rfl]
  by_cases h : exceeds_best (m.log (max (1 / 1000000000) b.acc_trade_price_24h) *
          realized_vol_1m m sb)
          (some (m.log (max (1 / 1000000000) a.acc_trade_price_24h) * realized_vol_1m m sa))
          = true
  · rw [if_pos h, if_pos h]
  · rw [if_neg h, if_neg h]

theorem log_pos_of_gt_one (m : MathLib) (hm : m.WellBehaved) (x : ℚ) (hx : 1 < x) :
    0 < m.log x := by
  have h := hm.2.1 1 x (by norm_num) hx
  rw [hm.1] at h
  exact h

theorem series_AB_find (sA sB : List Candle) :
    ([("A", sA), ("B", sB)] : List (String × List Candle)).find? (fun p => p.1 == "A")
      = some ("A", sA) ∧
    ([("A", sA), ("B", sB)] : List (String × List Candle)).find? (fun p => p.1 == "B")
      = some ("B", sB) := by
  constructor
  · rfl
  · rfl

theorem scan_start_AB_volume (s : Bridge) (h : s.volume24h = scan_start_AB.volume24h) :
    EngineBridge.hash_value s.volume24h "A" 0 = 1000000 ∧
    EngineBridge.hash_value s.volume24h "B" 0 = 500000 := by
  rw [h]
  constructor
  · rfl
  · rfl

theorem moving_series_rms (m : MathLib) (hm : m.WellBehaved) :
    root_mean_square m (spec_log_returns m moving_series) = m.sqrt (m.log 2 * m.log 2 / 2) := by
  rw [moving_series_log_returns, hm.1]
  unfold root_mean_square
  rw [if_pos (by simp)]
  congr 1
  simp only [List.map_cons, List.map_nil, List.sum_cons, List.sum_nil, List.length_cons,
    List.length_nil]
  norm_num

theorem moving_series_variance (m : MathLib) (hm : m.WellBehaved) :
    spec_sample_variance (spec_log_returns m moving_series) = m.log 2 * m.log 2 / 2 := by
  rw [moving_series_log_returns, hm.1]
  unfold spec_sample_variance
  simp only [List.map_cons, List.map_nil, List.sum_cons, List.sum_nil, List.length_cons,
    List.length_nil]
  norm_num
  ring

/-- The scores of the steady market `A` and of the moving market `B`. -/
theorem steady_outscores_moving (m : MathLib) (hm : m.WellBehaved) :
    0 < m.log 500000 * m.sqrt (m.log 2 * m.log 2 / 2) ∧
    m.log 500000 * m.sqrt (m.log 2 * m.log 2 / 2) <
      m.log 1000000 * m.sqrt (m.log 2 * m.log 2) := by
  have hl := log_two_pos m hm
  have hll : 0 < m.log 2 * m.log 2 := mul_pos hl hl
  have h1 : 0 < m.log 500000 := log_pos_of_gt_one m hm _ (by norm_num)
  have h2 : m.log 500000 < m.log 1000000 := hm.2.1 _ _ (by norm_num) (by norm_num)
  have h3 : 0 < m.sqrt (m.log 2 * m.log 2 / 2) := sqrt_pos_of_pos m hm _ (by linarith)
  have h4 : m.sqrt (m.log 2 * m.log 2 / 2) < m.sqrt (m.log 2 * m.log 2) :=
    hm.2.2.2 _ _ (by linarith) (by linarith)
  exact ⟨mul_pos h1 h3, mul_lt_mul'' h2 h4 (le_of_lt h1) (le_of_lt h3)⟩

theorem steady_selected_by_selector (m : MathLib) (hm : m.WellBehaved) :
    MarketSelector.select_top_market m tickers_AB
      [("A", steady_series), ("B", moving_series)] = "A" := by
  have hf := series_AB_find steady_series moving_series
  have h := select_top_market_two m
    { market := "A", acc_trade_price_24h := 1000000 }
    { market := "B", acc_trade_price_24h := 500000 } steady_series moving_series
    [("A", steady_series), ("B", moving_series)] hf.1 hf.2
  unfold tickers_AB
  rw [h, realized_vol_1m_eq m _ steady_series_positive,
    realized_vol_1m_eq m _ moving_series_positive, steady_series_rms, moving_series_rms m hm]
  rw [if_neg]
  have hs := (steady_outscores_moving m hm).2
  have e1 : max (1 / 1000000000 : ℚ) 500000 = 500000 := by norm_num
  have e2 : max (1 / 1000000000 : ℚ) 1000000 = 1000000 := by norm_num
  simp only [exceeds_best, e1, e2, decide_eq_true_eq, gt_iff_lt, not_lt]
  exact le_of_lt hs

theorem steady_selected_by_bridge (m : MathLib) (hm : m.WellBehaved) :
    (score_candidate m (score_candidate m scan_start_AB "A" steady_series) "B"
      moving_series).bestMarket = "A" := by
  have hs := steady_outscores_moving m hm
  have hl := log_two_pos m hm
  have hv := scan_start_AB_volume scan_start_AB rfl
  have hA : score_candidate m scan_start_AB "A" steady_series =
      { scan_start_AB with
        pendingMarket := "A"
        bestScore := some (m.log 1000000 * m.sqrt (m.log 2 * m.log 2))
        bestMarket := "A" } := by
    rw [score_candidate_eq, steady_series_rms, hv.1, if_pos]
    refine ⟨by decide, sqrt_pos_of_pos m hm _ (mul_pos hl hl), by norm_num, rfl⟩
  rw [hA, score_candidate_eq, moving_series_rms m hm]
  have hv2 := scan_start_AB_volume
    { scan_start_AB with
        pendingMarket := "A"
        bestScore := some (m.log 1000000 * m.sqrt (m.log 2 * m.log 2))
        bestMarket := "A" } rfl
  rw [hv2.2, if_neg]
  intro h
  have h4 := h.2.2.2
  simp only [exceeds_best, decide_eq_true_eq, gt_iff_lt] at h4
  exact absurd h4 (not_lt.mpr (le_of_lt hs.2))

/-- Claim C12, counterexample: ticker `A` has 24h notional 1,000,000 and the 1-minute closes
1, 2, 4, so its log-returns are equal and their variance is 0; ticker `B` has 500,000 and
the closes 1, 2, 2, whose log-returns have a non-zero variance. The claim has `B` selected;
`select_top_market` and the scoring of the bridge both select `A`, for every well-behaved
math library and for the stand-in one. -/
theorem steady_market_is_selected :
    (∀ m : MathLib, spec_sample_variance (spec_log_returns m steady_series) = 0) ∧
    (∀ m : MathLib, m.WellBehaved →
      spec_sample_variance (spec_log_returns m moving_series) ≠ 0 ∧
      MarketSelector.select_top_market m tickers_AB
        [("A", steady_series), ("B", moving_series)] = "A" ∧
      (score_candidate m (score_candidate m scan_start_AB "A" steady_series) "B"
        moving_series).bestMarket = "A") ∧
    spec_sample_variance (spec_log_returns sample_math moving_series) = 1 / 2 ∧
    MarketSelector.select_top_market sample_math tickers_AB
      [("A", steady_series), ("B", moving_series)] = "A" ∧
    (score_candidate sample_math (score_candidate sample_math scan_start_AB "A" steady_series)
      "B" moving_series).bestMarket = "A" := by
  refine ⟨steady_series_variance, ?_, ?_, steady_selected_by_selector _ sample_math_wellBehaved,
    steady_selected_by_bridge _ sample_math_wellBehaved⟩
  · intro m hm
    refine ⟨?_, steady_selected_by_selector m hm, steady_selected_by_bridge m hm⟩
    rw [moving_series_variance m hm]
    have hl := log_two_pos m hm
    have : 0 < m.log 2 * m.log 2 / 2 := by
      have := mul_pos hl hl
      linarith
    exact ne_of_gt this
  · rw [moving_series_variance _ sample_math_wellBehaved]
    norm_num [sample_math]

/-- Claim C12, amended: let ticker `A` have 24h notional 1,000,000 and ticker `B` 500,000,
both with 1-minute series of positive closes. If every log-return of `A` is zero (its close
never moves) and some log-return of `B` is not zero, then `select_top_market` returns `B`,
in either order of the tickers, and the scoring of the bridge ends with `B` as its best
market, in either order of the candidates. -/
theorem flat_market_not_selected (m : MathLib) (hm : m.WellBehaved) (sA sB : List Candle)
    (hA : ∀ x ∈ sA, 0 < x.close) (hB : ∀ x ∈ sB, 0 < x.close)
    (hflat : ∀ r ∈ spec_log_returns m sA, r = 0)
    (hmove : ∃ r ∈ spec_log_returns m sB, r ≠ 0) :
    MarketSelector.select_top_market m tickers_AB [("A", sA), ("B", sB)] = "B" ∧
    MarketSelector.select_top_market m tickers_AB.reverse [("A", sA), ("B", sB)] = "B" ∧
    (score_candidate m (score_candidate m scan_start_AB "A" sA) "B" sB).bestMarket = "B" ∧
    (score_candidate m (score_candidate m scan_start_AB "B" sB) "A" sA).bestMarket = "B" := by
  have hf := series_AB_find sA sB
  have hrA := root_mean_square_zero m hm _ hflat
  have hrB := root_mean_square_pos m hm _ hmove
  have hlB : 0 < m.log 500000 := log_pos_of_gt_one m hm _ (by norm_num)
  have hsB : 0 < m.log 500000 * root_mean_square m (spec_log_returns m sB) := mul_pos hlB hrB
  have hlen : sB.length > 1 := by
    have h1 := spec_log_returns_length_le m sB
    obtain ⟨r, hr, _⟩ := hmove
    have h2 := List.length_pos_of_mem hr
    omega
  have e1 : max (1 / 1000000000 : ℚ) 500000 = 500000 := by norm_num
  have e2 : max (1 / 1000000000 : ℚ) 1000000 = 1000000 := by norm_num
  have hv := scan_start_AB_volume scan_start_AB rfl
  refine ⟨?_, ?_, ?_, ?_⟩
  · have h := select_top_market_two m
      { market := "A", acc_trade_price_24h := 1000000 }
      { market := "B", acc_trade_price_24h := 500000 } sA sB [("A", sA), ("B", sB)] hf.1 hf.2
    unfold tickers_AB
    rw [h, realized_vol_1m_eq m _ hA, realized_vol_1m_eq m _ hB, hrA, if_pos]
    simp only [exceeds_best, e1, mul_zero, decide_eq_true_eq, gt_iff_lt]
    exact hsB
  · have h := select_top_market_two m
      { market := "B", acc_trade_price_24h := 500000 }
      { market := "A", acc_trade_price_24h := 1000000 } sB sA [("A", sA), ("B", sB)] hf.2 hf.1
    have hrev : tickers_AB.reverse =
        [{ market := "B", acc_trade_price_24h := 500000 },
         { market := "A", acc_trade_price_24h := 1000000 }] := rfl
    rw [hrev, h, realized_vol_1m_eq m _ hA, realized_vol_1m_eq m _ hB, hrA, if_neg]
    simp only [exceeds_best, e1, mul_zero, decide_eq_true_eq, gt_iff_lt, not_lt]
    exact le_of_lt hsB
  · rw [score_candidate_unscored m _ "A" sA (by rw [hrA]; exact lt_irrefl 0)]
    have hv2 := scan_start_AB_volume { scan_start_AB with pendingMarket := "A" } rfl
    rw [score_candidate_eq, hv2.2, if_pos]
    exact ⟨hlen, hrB, by norm_num, rfl⟩
  · have hB1 : score_candidate m scan_start_AB "B" sB =
        { scan_start_AB with
          pendingMarket := "B"
          bestScore := some (m.log 500000 * root_mean_square m (spec_log_returns m sB))
          bestMarket := "B" } := by
      rw [score_candidate_eq, hv.2, if_pos]
      exact ⟨hlen, hrB, by norm_num, rfl⟩
    rw [hB1, score_candidate_unscored m _ "A" sA (by rw [hrA]; exact lt_irrefl 0)]

/-- The amended C12 at the series 5, 5, 5 for `A` and 1, 2, 2 for `B`, with the stand-in
math library. -/
theorem flat_market_not_selected_witness :
    (∀ x ∈ flat_series, 0 < x.close) ∧ (∀ x ∈ moving_series, 0 < x.close) ∧
    spec_log_returns sample_math flat_series = [0, 0] ∧
    spec_log_returns sample_math moving_series = [1, 0] ∧
    MarketSelector.select_top_market sample_math tickers_AB
      [("A", flat_series), ("B", moving_series)] = "B" ∧
    (score_candidate sample_math (score_candidate sample_math scan_start_AB "A" flat_series)
      "B" moving_series).bestMarket = "B" := by
  have hlA : spec_log_returns sample_math flat_series = [0, 0] := by
    rw [flat_series_log_returns]
    norm_num [sample_math]
  have hlB : spec_log_returns sample_math moving_series = [1, 0] := by
    rw [moving_series_log_returns]
    norm_num [sample_math]
  have h := flat_market_not_selected sample_math sample_math_wellBehaved flat_series
    moving_series flat_series_positive moving_series_positive
    (by rw [hlA]; intro r hr; simpa using hr)
    ⟨1, by rw [hlB]; simp, one_ne_zero⟩
  exact ⟨flat_series_positive, moving_series_positive, hlA, hlB, h.1, h.2.2.1⟩

/-! ## C15: the selector and the empty market id -/

theorem select_top_market_foldl (m : MathLib) (tickers : List Ticker24h)
    (candles_1m : List (String × List Candle)) :
    MarketSelector.select_top_market m tickers candles_1m =
      (tickers.foldl (select_step m candles_1m) (none, "")).2 := rfl

theorem select_step_none (m : MathLib) (candles_1m : List (String × List Candle))
    (st : Option ℚ × String) (t : Ticker24h)
    (h : candles_1m.find? (fun p => p.1 == t.market) = none) :
    select_step m candles_1m st t = st := by
  unfold select_step
  rw [h]

theorem select_step_cases (m : MathLib) (candles_1m : List (String × List Candle))
    (st : Option ℚ × String) (t : Ticker24h) :
    select_step m candles_1m st t = st ∨
      ((select_step m candles_1m st t).1 ≠ none ∧ (select_step m candles_1m st t).2 = t.market)
    := by
  unfold select_step
  cases candles_1m.find? (fun p => p.1 == t.market) with
  | none => exact Or.inl rfl
  | some it =>
    simp only []
    by_cases h : exceeds_best
        (m.log (max (1 / 1000000000) t.acc_trade_price_24h) * realized_vol_1m m it.2) st.1 = true
    · rw [if_pos h]
      exact Or.inr ⟨by simp, rfl⟩
    · rw [if_neg h]
      exact Or.inl rfl

theorem select_step_some (m : MathLib) (candles_1m : List (String × List Candle))
    (st : Option ℚ × String) (t : Ticker24h)
    (h : (candles_1m.find? (fun p => p.1 == t.market)).isSome = true) (hst : st.1 = none) :
    (select_step m candles_1m st t).1 ≠ none := by
  unfold select_step
  obtain ⟨it, hit⟩ := Option.isSome_iff_exists.mp h
  rw [hit]
  simp only [hst, exceeds_best, if_true]
  simp

/-- The loop of `select_top_market`: the best market is set together with the best score,
to the market of one of the tickers, and a ticker that has a series sets it. -/
theorem foldl_select_step (m : MathLib) (candles_1m : List (String × List Candle))
    (names : List String) (tickers : List Ticker24h) (st : Option ℚ × String)
    (hsub : ∀ t ∈ tickers, t.market ∈ names)
    (hst : (st.1 = none ∧ st.2 = "") ∨ (st.1 ≠ none ∧ st.2 ∈ names)) :
    (((tickers.foldl (select_step m candles_1m) st).1 = none ∧
        (tickers.foldl (select_step m candles_1m) st).2 = "") ∨
      ((tickers.foldl (select_step m candles_1m) st).1 ≠ none ∧
        (tickers.foldl (select_step m candles_1m) st).2 ∈ names)) ∧
    (st.1 ≠ none → (tickers.foldl (select_step m candles_1m) st).1 ≠ none) ∧
    ((∃ t ∈ tickers, (candles_1m.find? (fun p => p.1 == t.market)).isSome = true) →
      (tickers.foldl (select_step m candles_1m) st).1 ≠ none) ∧
    ((∀ t ∈ tickers, candles_1m.find? (fun p => p.1 == t.market) = none) →
      tickers.foldl (select_step m candles_1m) st = st) := by
  induction tickers generalizing st with
  | nil =>
    refine ⟨hst, fun h => h, ?_, fun _ => rfl⟩
    rintro ⟨t, ht, _⟩
    simp at ht
  | cons t ts ih =>
    rw [List.foldl_cons]
    have hsub2 : ∀ t ∈ ts, t.market ∈ names := fun x hx => hsub x (List.mem_cons_of_mem _ hx)
    have hst2 : ((select_step m candles_1m st t).1 = none ∧
        (select_step m candles_1m st t).2 = "") ∨
        ((select_step m candles_1m st t).1 ≠ none ∧
          (select_step m candles_1m st t).2 ∈ names) := by
      rcases select_step_cases m candles_1m st t with h | h
      · rw [h]
        exact hst
      · right
        refine ⟨h.1, ?_⟩
        rw [h.2]
        exact hsub t (List.mem_cons_self _ _)
    have hkeep : st.1 ≠ none → (select_step m candles_1m st t).1 ≠ none := by
      intro h
      rcases select_step_cases m candles_1m st t with h1 | h1
      · rw [h1]
        exact h
      · exact h1.1
    obtain ⟨i1, i2, i3, i4⟩ := ih (select_step m candles_1m st t) hsub2 hst2
    refine ⟨i1, fun h => i2 (hkeep h), ?_, ?_⟩
    · rintro ⟨x, hx, hsome⟩
      rcases List.mem_cons.mp hx with h | h
      · apply i2
        by_cases h0 : st.1 = none
        · rw [← h]
          exact select_step_some m candles_1m st x hsome h0
        · exact hkeep h0
      · exact i3 ⟨x, h, hsome⟩
    · intro hall
      rw [i4 (fun x hx => hall x (List.mem_cons_of_mem _ hx))]
      exact select_step_none m candles_1m st t (hall t (List.mem_cons_self _ _))

/-- When some ticker has a series, `select_top_market` returns the market of a ticker. -/
theorem select_top_market_mem (m : MathLib) (tickers : List Ticker24h)
    (candles_1m : List (String × List Candle))
    (hser : ∃ t ∈ tickers, (candles_1m.find? (fun p => p.1 == t.market)).isSome = true) :
    ∃ t ∈ tickers, MarketSelector.select_top_market m tickers candles_1m = t.market := by
  rw [select_top_market_foldl]
  obtain ⟨i1, _, i3, _⟩ := foldl_select_step m candles_1m (tickers.map (fun t => t.market))
    tickers (none, "") (fun t ht => List.mem_map.mpr ⟨t, ht, rfl⟩) (Or.inl ⟨rfl, rfl⟩)
  rcases i1 with h | h
  · exact absurd h.1 (i3 hser)
  · obtain ⟨t, ht, he⟩ := List.mem_map.mp h.2
    exact ⟨t, ht, he.symm⟩

/-- When no ticker has a series, `select_top_market` returns the empty string. -/
theorem select_top_market_none (m : MathLib) (tickers : List Ticker24h)
    (candles_1m : List (String × List Candle))
    (hall : ∀ t ∈ tickers, candles_1m.find? (fun p => p.1 == t.market) = none) :
    MarketSelector.select_top_market m tickers candles_1m = "" := by
  rw [select_top_market_foldl]
  obtain ⟨_, _, _, i4⟩ := foldl_select_step m candles_1m (tickers.map (fun t => t.market))
    tickers (none, "") (fun t ht => List.mem_map.mpr ⟨t, ht, rfl⟩) (Or.inl ⟨rfl, rfl⟩)
  rw [i4 hall]

theorem get_candles_minutes_positive (market : String) (u count : ℕ) :
    ∀ x ∈ UpbitRestClient.get_candles_minutes market u count, 0 < x.close := by
  intro x hx
  unfold UpbitRestClient.get_candles_minutes at hx
  obtain ⟨i, _, rfl⟩ := List.mem_map.mp hx
  simp only []
  have hi : (0 : ℚ) ≤ ((i : ℕ) : ℚ) := Nat.cast_nonneg _
  by_cases h : market = "KRW-BTC"
  · rw [if_pos h]
    nlinarith
  · rw [if_neg h]
    nlinarith

theorem stub_tickers :
    UpbitRestClient.get_tickers UpbitRestClient.get_markets_krw =
      [{ market := "KRW-BTC", acc_trade_price_24h := 1 },
       { market := "KRW-ETH", acc_trade_price_24h := 8 / 10 }] := by
  unfold UpbitRestClient.get_tickers UpbitRestClient.get_markets_krw
  simp

/-- The market that `run_once` selects from the placeholder data is not empty. -/
theorem run_once_market (m : MathLib) :
    MarketSelector.select_top_market m
      (UpbitRestClient.get_tickers UpbitRestClient.get_markets_krw)
      (UpbitRestClient.get_markets_krw.map
        (fun mk => (mk, UpbitRestClient.get_candles_minutes mk 1 60))) ≠ "" := by
  obtain ⟨t, ht, he⟩ := select_top_market_mem m
    (UpbitRestClient.get_tickers UpbitRestClient.get_markets_krw)
    (UpbitRestClient.get_markets_krw.map
      (fun mk => (mk, UpbitRestClient.get_candles_minutes mk 1 60)))
    ⟨{ market := "KRW-BTC", acc_trade_price_24h := 1 }, by rw [stub_tickers]; simp, rfl⟩
  rw [he]
  rw [stub_tickers] at ht
  simp only [List.mem_cons, List.mem_singleton, List.not_mem_nil, or_false] at ht
  rcases ht with h | h <;> rw [h] <;> decide

theorem run_once_ne_one (lib : Lib) (net : Net) (m : MathLib) (self : Engine) :
    Engine.run_once lib net m self ≠ 1 := by
  unfold Engine.run_once
  simp only []
  rw [if_neg (run_once_market m)]
  by_cases h1 : (Strategy5mScalper.evaluate (UpbitRestClient.get_candles_minutes
      (MarketSelector.select_top_market m
        (UpbitRestClient.get_tickers UpbitRestClient.get_markets_krw)
        (UpbitRestClient.get_markets_krw.map
          (fun mk => (mk, UpbitRestClient.get_candles_minutes mk 1 60)))) 5 50)).enter_long = true
  · rw [if_pos h1]
    split
    · decide
    · decide
  · rw [if_neg h1]
    decide

/-- Claim C15, counterexample: for the one ticker `KRW-BTC` and an empty list of candle
series, and also when the only series in the list belongs to another market,
`select_top_market` returns the empty string although the ticker list is not empty and its
market id is not empty. -/
theorem select_top_market_empty_result :
    (∀ m : MathLib,
      MarketSelector.select_top_market m
        [{ market := "KRW-BTC", acc_trade_price_24h := 1 }] [] = "") ∧
    (∀ m : MathLib,
      MarketSelector.select_top_market m
        [{ market := "KRW-BTC", acc_trade_price_24h := 1 }]
        [("KRW-ETH", moving_series)] = "") ∧
    MarketSelector.select_top_market sample_math
      [{ market := "KRW-BTC", acc_trade_price_24h := 1 }] [] = "" := by
  refine ⟨fun m => ?_, fun m => ?_, ?_⟩
  · exact select_top_market_none m _ _ (fun t _ => rfl)
  · apply select_top_market_none
    intro t ht
    rw [List.mem_singleton.mp ht]
    rfl
  · exact select_top_market_none _ _ _ (fun t _ => rfl)

/-- Claim C15, amended: for every ticker list whose market ids are non-empty and every list
of 1-minute candle series in which at least one ticker finds a series (with positive closes,
so that its score is a number), `select_top_market` returns the market id of one of the
tickers, which is not empty; when no ticker finds a series it returns the empty string.
`Engine::run_once`, whose placeholder data give every market a series, never returns 1, the
value of its `market.empty()` exit. -/
theorem select_top_market_nonempty (m : MathLib) (tickers : List Ticker24h)
    (candles_1m : List (String × List Candle))
    (hne : ∀ t ∈ tickers, t.market ≠ "")
    (hser : ∃ t ∈ tickers, ∃ it, candles_1m.find? (fun p => p.1 == t.market) = some it ∧
      ∀ x ∈ it.2, 0 < x.close) :
    MarketSelector.select_top_market m tickers candles_1m ≠ "" ∧
    (∃ t ∈ tickers, MarketSelector.select_top_market m tickers candles_1m = t.market) ∧
    (∀ others : List Ticker24h,
      (∀ t ∈ others, candles_1m.find? (fun p => p.1 == t.market) = none) →
      MarketSelector.select_top_market m others candles_1m = "") ∧
    (∀ (lib : Lib) (net : Net) (self : Engine), Engine.run_once lib net m self ≠ 1) := by
  have hmem := select_top_market_mem m tickers candles_1m (by
    obtain ⟨t, ht, it, hit, _⟩ := hser
    exact ⟨t, ht, by rw [hit]; rfl⟩)
  refine ⟨?_, hmem, fun others h => select_top_market_none m others candles_1m h,
    fun lib net self => run_once_ne_one lib net m self⟩
  obtain ⟨t, ht, he⟩ := hmem
  rw [he]
  exact hne t ht

/-- The amended C15 at the tickers `A` and `B` of which only `B` has a series. -/
theorem select_top_market_nonempty_witness :
    (∀ t ∈ tickers_AB, t.market ≠ "") ∧
    MarketSelector.select_top_market sample_math tickers_AB [("B", moving_series)] = "B" ∧
    Engine.run_once sample_lib sample_net_created sample_math sample_engine ≠ 1 := by
  have hne : ∀ t ∈ tickers_AB, t.market ≠ "" := by decide
  have h := select_top_market_nonempty sample_math tickers_AB [("B", moving_series)] hne
    ⟨{ market := "B", acc_trade_price_24h := 500000 }, by simp [tickers_AB],
      ("B", moving_series), rfl, moving_series_positive⟩
  refine ⟨hne, ?_, h.2.2.2 sample_lib sample_net_created sample_engine⟩
  obtain ⟨t, ht, he⟩ := h.2.1
  have hA : MarketSelector.select_top_market sample_math tickers_AB [("B", moving_series)]
      ≠ "A" := by
    rw [select_top_market_foldl]
    unfold tickers_AB
    rw [List.foldl_cons, select_step_none sample_math [("B", moving_series)] (none, "")
      { market := "A", acc_trade_price_24h := 1000000 } rfl]
    intro hc
    rcases select_step_cases sample_math [("B", moving_series)] (none, "")
      { market := "B", acc_trade_price_24h := 500000 } with h1 | h1
    · rw [List.foldl_cons, List.foldl_nil, h1] at hc
      exact absurd hc (by decide)
    · rw [List.foldl_cons, List.foldl_nil, h1.2] at hc
      exact absurd hc (by decide)
  simp only [tickers_AB, List.mem_cons, List.mem_singleton, List.not_mem_nil, or_false] at ht
  rcases ht with h1 | h1
  · rw [h1] at he
    exact absurd he hA
  · rw [h1] at he
    exact he

/-! ## C14: the market published when the scan finishes -/

theorem fetchCandles_fields (unit count : ℕ) (kind : RequestKind) (market : String)
    (s : Bridge) :
    (EngineBridge.fetchCandles unit count kind market s).market = s.market ∧
    (EngineBridge.fetchCandles unit count kind market s).selectionReady = s.selectionReady ∧
    (EngineBridge.fetchCandles unit count kind market s).volume24h = s.volume24h := by
  unfold EngineBridge.fetchCandles
  by_cases h : s.pending.isSome = true
  · rw [if_pos h]
    exact ⟨rfl, rfl, rfl⟩
  · rw [if_neg h]
    exact ⟨rfl, rfl, rfl⟩

theorem fetchCandles5m_fields (s : Bridge) :
    (EngineBridge.fetchCandles5m s).market = s.market ∧
    (EngineBridge.fetchCandles5m s).selectionReady = s.selectionReady ∧
    (EngineBridge.fetchCandles5m s).volume24h = s.volume24h := by
  unfold EngineBridge.fetchCandles5m
  by_cases h : s.market = ""
  · rw [if_pos h]
    exact ⟨rfl, rfl, rfl⟩
  · rw [if_neg h]
    exact fetchCandles_fields _ _ _ _ s

theorem publish_market_fields (s : Bridge) :
    (EngineBridge.publish_market s).market = s.market ∧
    (EngineBridge.publish_market s).selectionReady = true := by
  unfold EngineBridge.publish_market
  simp only []
  by_cases h : s.subscribedMarket ≠ s.market
  · rw [if_pos h]
    exact ⟨(fetchCandles5m_fields _).1, (fetchCandles5m_fields _).2.1⟩
  · rw [if_neg h]
    exact ⟨(fetchCandles5m_fields _).1, (fetchCandles5m_fields _).2.1⟩

/-- The first branch of `evaluateNextCandidate`: the published market. -/
theorem evaluateNextCandidate_finished (s : Bridge) (hp : s.pending = none)
    (hend : s.candidateIndex ≥ s.candidateQueue.length ∨ s.candidateQueue = []) :
    (EngineBridge.evaluateNextCandidate s).market = finished_market s ∧
    (EngineBridge.evaluateNextCandidate s).selectionReady = true := by
  unfold EngineBridge.evaluateNextCandidate
  rw [if_neg (by rw [hp]; decide)]
  rw [if_pos (by
    rcases hend with h | h
    · exact Or.inl h
    · exact Or.inr (by rw [h]; rfl))]
  simp only []
  refine ⟨?_, (publish_market_fields _).2⟩
  rw [(publish_market_fields _).1]
  unfold finished_market
  by_cases hb : s.bestMarket = ""
  · rw [if_pos hb, if_neg (not_not.mpr hb)]
    by_cases hq : s.candidateQueue = []
    · rw [if_neg (by rw [hq]; decide), if_neg (not_not.mpr hq)]
      by_cases hk : s.marketsKRW = []
      · rw [if_neg (by rw [hk]; decide), if_neg (not_not.mpr hk)]
      · rw [if_pos (by simpa using hk), if_pos hk]
    · rw [if_pos (by simpa using hq), if_pos hq]
  · rw [if_neg hb, if_pos hb]

theorem headD_ne_empty (l : List String) (hl : l ≠ []) (h : ∀ x ∈ l, x ≠ "") :
    l.headD "" ≠ "" := by
  cases l with
  | nil => exact absurd rfl hl
  | cons a t => exact h a (List.mem_cons_self _ _)

theorem finished_market_ne_empty (s : Bridge) (hq : ∀ x ∈ s.candidateQueue, x ≠ "")
    (hk : ∀ x ∈ s.marketsKRW, x ≠ "") : finished_market s ≠ "" := by
  unfold finished_market
  by_cases hb : s.bestMarket ≠ ""
  · rw [if_pos hb]
    exact hb
  · rw [if_neg hb]
    by_cases h1 : s.candidateQueue ≠ []
    · rw [if_pos h1]
      exact headD_ne_empty _ h1 hq
    · rw [if_neg h1]
      by_cases h2 : s.marketsKRW ≠ []
      · rw [if_pos h2]
        exact headD_ne_empty _ h2 hk
      · rw [if_neg h2]
        decide

theorem score_candidate_fields (m : MathLib) (s : Bridge) (mk : String)
    (series : List Candle) :
    (score_candidate m s mk series).pending = s.pending ∧
    (score_candidate m s mk series).candidateQueue = s.candidateQueue ∧
    (score_candidate m s mk series).candidateIndex = s.candidateIndex ∧
    (score_candidate m s mk series).marketsKRW = s.marketsKRW ∧
    (score_candidate m s mk series).volume24h = s.volume24h := by
  rw [score_candidate_eq]
  split
  · exact ⟨rfl, rfl, rfl, rfl, rfl⟩
  · exact ⟨rfl, rfl, rfl, rfl, rfl⟩

theorem scan_start_YX_volume (s : Bridge) (h : s.volume24h = scan_start_YX.volume24h) :
    EngineBridge.hash_value s.volume24h "Y" 0 = 2 ∧
    EngineBridge.hash_value s.volume24h "X" 0 = 1 := by
  rw [h]
  constructor
  · rfl
  · rfl

/-- The scan of `Y` (flat) and `X` (moving, 24h notional 1): `Y` is not scored, `X` is
scored 0 and becomes the best market, which is then published. -/
theorem scan_YX (m : MathLib) (hm : m.WellBehaved) :
    (score_candidate m scan_start_YX "Y" flat_series).bestScore = none ∧
    (score_candidate m (score_candidate m scan_start_YX "Y" flat_series) "X"
      moving_series).bestScore = some 0 ∧
    (EngineBridge.evaluateNextCandidate
      (score_candidate m (score_candidate m scan_start_YX "Y" flat_series) "X"
        moving_series)).market = "X" := by
  have hflat : root_mean_square m (spec_log_returns m flat_series) = 0 := by
    apply root_mean_square_zero m hm
    rw [flat_series_log_returns, hm.1]
    intro r hr
    simpa using hr
  have hY : score_candidate m scan_start_YX "Y" flat_series =
      { scan_start_YX with pendingMarket := "Y" } :=
    score_candidate_unscored m _ _ _ (by rw [hflat]; exact lt_irrefl 0)
  have hl := log_two_pos m hm
  have hrv : 0 < m.sqrt (m.log 2 * m.log 2 / 2) :=
    sqrt_pos_of_pos m hm _ (by have := mul_pos hl hl; linarith)
  have hv := scan_start_YX_volume { scan_start_YX with pendingMarket := "Y" } rfl
  have hX : score_candidate m { scan_start_YX with pendingMarket := "Y" } "X" moving_series =
      { scan_start_YX with
        pendingMarket := "X"
        bestScore := some 0
        bestMarket := "X" } := by
    rw [score_candidate_eq, moving_series_rms m hm, hv.2, hm.1, zero_mul, if_pos]
    exact ⟨by decide, hrv, by norm_num, rfl⟩
  rw [hY, hX]
  refine ⟨rfl, rfl, ?_⟩
  rw [(evaluateNextCandidate_finished _ rfl (Or.inl (by decide))).1]
  rfl

/-- Claim C14, counterexample: the queue holds `Y` (24h notional 2) and then `X` (24h
notional 1). `Y` does not move and is not scored; `X` moves and is scored
`log 1 * rv = 0`, which is not positive. No candidate produced a positive score, so the claim
has the first candidate `Y` selected; `evaluateNextCandidate` selects `X`. -/
theorem nonpositive_score_is_selected :
    scan_start_YX.candidateQueue.headD "" = "Y" ∧
    (∀ m : MathLib, m.WellBehaved →
      (score_candidate m scan_start_YX "Y" flat_series).bestScore = none ∧
      (score_candidate m (score_candidate m scan_start_YX "Y" flat_series) "X"
        moving_series).bestScore = some 0 ∧
      (EngineBridge.evaluateNextCandidate
        (score_candidate m (score_candidate m scan_start_YX "Y" flat_series) "X"
          moving_series)).market = "X") ∧
    (score_candidate sample_math (score_candidate sample_math scan_start_YX "Y" flat_series)
      "X" moving_series).bestScore = some 0 ∧
    (EngineBridge.evaluateNextCandidate
      (score_candidate sample_math
        (score_candidate sample_math scan_start_YX "Y" flat_series) "X"
        moving_series)).market = "X" :=
  ⟨rfl, scan_YX, (scan_YX sample_math sample_math_wellBehaved).2.1,
    (scan_YX sample_math sample_math_wellBehaved).2.2⟩

/-- Claim C14, amended: when no request is in flight and the candidate index has reached the
end of the queue, or the queue is empty, `evaluateNextCandidate` sets the selected market to
`bestMarket` if that is set, else to the first candidate of the queue, else to the first
market of the KRW universe, else to `KRW-BTC`, and sets `selectionReady`; the selected market
is not empty when no candidate and no universe entry is an empty string. The scoring of a
candidate's reply sets `bestMarket` to that candidate exactly when the series has more than
one candle, its realized volatility and its recorded 24h notional are positive and its score
`log(notional) * rv` exceeds the best score so far (any score exceeds the initial minus
infinity, also one that is not positive); a score is positive when the notional exceeds 1. -/
theorem evaluateNextCandidate_selects (s : Bridge) (hp : s.pending = none)
    (hend : s.candidateIndex ≥ s.candidateQueue.length ∨ s.candidateQueue = []) :
    (EngineBridge.evaluateNextCandidate s).market = finished_market s ∧
    (EngineBridge.evaluateNextCandidate s).selectionReady = true ∧
    ((∀ x ∈ s.candidateQueue, x ≠ "") → (∀ x ∈ s.marketsKRW, x ≠ "") →
      (EngineBridge.evaluateNextCandidate s).market ≠ "") ∧
    (∀ (m : MathLib) (mk : String) (series : List Candle),
      (score_candidate m s mk series).bestMarket =
        if series.length > 1 ∧ root_mean_square m (spec_log_returns m series) > 0 ∧
          EngineBridge.hash_value s.volume24h mk 0 > 0 ∧
          exceeds_best (m.log (EngineBridge.hash_value s.volume24h mk 0) *
            root_mean_square m (spec_log_returns m series)) s.bestScore = true
        then mk else s.bestMarket) ∧
    (∀ (m : MathLib) (mk : String) (series : List Candle), m.WellBehaved →
      root_mean_square m (spec_log_returns m series) > 0 →
      EngineBridge.hash_value s.volume24h mk 0 > 1 →
      m.log (EngineBridge.hash_value s.volume24h mk 0) *
        root_mean_square m (spec_log_returns m series) > 0) := by
  have h := evaluateNextCandidate_finished s hp hend
  refine ⟨h.1, h.2, ?_, ?_, ?_⟩
  · intro hq hk
    rw [h.1]
    exact finished_market_ne_empty s hq hk
  · intro m mk series
    rw [score_candidate_eq]
    split
    · rfl
    · rfl
  · intro m mk series hm hrv hvol
    exact mul_pos (log_pos_of_gt_one m hm _ hvol) hrv

/-- The amended C14 at the scan of `A` (flat) and `B` (moving): `B` is published; and at the
start of that scan, were it finished with nothing scored, the first candidate `A` is. -/
theorem evaluateNextCandidate_selects_witness :
    (EngineBridge.evaluateNextCandidate
      (score_candidate sample_math (score_candidate sample_math scan_start_AB "A" flat_series)
        "B" moving_series)).market = "B" ∧
    (EngineBridge.evaluateNextCandidate
      (score_candidate sample_math (score_candidate sample_math scan_start_AB "A" flat_series)
        "B" moving_series)).selectionReady = true ∧
    (EngineBridge.evaluateNextCandidate scan_start_AB).market = "A" ∧
    (EngineBridge.evaluateNextCandidate initial_bridge).market = "KRW-BTC" := by
  have hlA : ∀ r ∈ spec_log_returns sample_math flat_series, r = 0 := by
    rw [flat_series_log_returns]
    intro r hr
    have h1 : sample_math.log 1 = 0 := sample_math_wellBehaved.1
    rw [h1] at hr
    simpa using hr
  have hrA := root_mean_square_zero sample_math sample_math_wellBehaved _ hlA
  have hA : score_candidate sample_math scan_start_AB "A" flat_series =
      { scan_start_AB with pendingMarket := "A" } :=
    score_candidate_unscored _ _ _ _ (by rw [hrA]; exact lt_irrefl 0)
  have hf := score_candidate_fields sample_math
    (score_candidate sample_math scan_start_AB "A" flat_series) "B" moving_series
  have hbest : (score_candidate sample_math
      (score_candidate sample_math scan_start_AB "A" flat_series) "B"
      moving_series).bestMarket = "B" := by
    rw [hA, score_candidate_eq, if_pos]
    have hv := scan_start_AB_volume { scan_start_AB with pendingMarket := "A" } rfl
    rw [hv.2, moving_series_rms _ sample_math_wellBehaved]
    refine ⟨by decide, ?_, by norm_num, rfl⟩
    norm_num [sample_math]
  have h := evaluateNextCandidate_selects
    (score_candidate sample_math (score_candidate sample_math scan_start_AB "A" flat_series)
      "B" moving_series)
    (by rw [hf.1, hA]; rfl)
    (Or.inl (by rw [hf.2.1, hf.2.2.1, hA]; decide))
  refine ⟨?_, h.2.1, ?_, ?_⟩
  · rw [h.1, finished_market, hbest]
    rfl
  · rw [(evaluateNextCandidate_finished scan_start_AB rfl (Or.inl (by decide))).1]
    rfl
  · rw [(evaluateNextCandidate_finished initial_bridge rfl (Or.inr rfl)).1]
    rfl

/-! ## C16: the kind of the request in flight -/

theorem start_initial :
    EngineBridge.start initial_bridge =
      { initial_bridge with
        pendingKind := RequestKind.Markets
        pending := some
          { url := "https://api.upbit.com/v1/market/all", query := [("isDetails", "false")] } }
    := rfl

/-- With no request in flight `onNetworkReply` returns at once. -/
theorem onNetworkReply_idle (m : MathLib) (s : Bridge) (reply : NetworkReply)
    (h : s.pending = none) : EngineBridge.onNetworkReply m s reply = s := by
  unfold EngineBridge.onNetworkReply
  rw [if_pos (by rw [h]; rfl)]

/-- A successful reply that arrives while `pendingKind` is `None` is dropped: only the
request in flight is cleared. -/
theorem onNetworkReply_kind_none (m : MathLib) (s : Bridge) (doc : Option (List ReplyItem))
    (hp : s.pending ≠ none) (hk : s.pendingKind = RequestKind.None) :
    EngineBridge.onNetworkReply m s (NetworkReply.body doc) = { s with pending := none } := by
  unfold EngineBridge.onNetworkReply
  rw [if_neg (by
    cases hs : s.pending with
    | none => exact absurd hs hp
    | some r => simp)]
  simp only [hk]

/-- The first ticker request that `fetchNextTickerChunk` issues. -/
theorem fetchNextTickerChunk_first (s : Bridge) (hp : s.pending = none)
    (hk : s.marketsKRW ≠ []) (hi : s.nextTickerIndex = 0) :
    EngineBridge.fetchNextTickerChunk s =
      { s with
        nextTickerIndex := (s.marketsKRW.take EngineBridge.kTickerBatchSize).length
        pendingKind := RequestKind.Tickers
        pendingMarket := ""
        pendingUnit := 0
        pending := some (ticker_request (s.marketsKRW.take EngineBridge.kTickerBatchSize)) }
    := by
  unfold EngineBridge.fetchNextTickerChunk
  have hlen : 0 < s.marketsKRW.length := List.length_pos.mpr hk
  rw [if_neg (by rw [hp]; decide), if_neg (by simpa using hk), if_neg (by rw [hi]; omega)]
  simp only [hi, List.drop_zero, zero_add]
  rw [if_neg (by
    rw [List.isEmpty_iff]
    cases hs : s.marketsKRW with
    | nil => exact absurd hs hk
    | cons a t => simp [EngineBridge.kTickerBatchSize])]
  rfl

/-- A successful reply to the market-list request that lists a KRW market: the ticker
request is issued, and `pendingKind` is `None` when the handler returns. -/
theorem onNetworkReply_markets (m : MathLib) (s : Bridge) (arr : List ReplyItem)
    (hp : s.pending ≠ none) (hk : s.pendingKind = RequestKind.Markets)
    (harr : krw_markets arr ≠ []) :
    EngineBridge.onNetworkReply m s (NetworkReply.body (some arr)) =
      { s with
        marketsKRW := krw_markets arr
        volume24h := []
        nextTickerIndex := ((krw_markets arr).take EngineBridge.kTickerBatchSize).length
        pendingKind := RequestKind.None
        pendingMarket := ""
        pendingUnit := 0
        pending := some (ticker_request ((krw_markets arr).take EngineBridge.kTickerBatchSize)) }
    := by
  unfold EngineBridge.onNetworkReply
  rw [if_neg (by
    cases hs : s.pending with
    | none => exact absurd hs hp
    | some r => simp)]
  simp only [hk]
  rw [fetchNextTickerChunk_first _ rfl harr rfl]
  rfl

theorem sample_markets_krw :
    krw_markets
      [{ market := "KRW-BTC" }, { market := "BTC-ETH" }, { market := "KRW-ETH" }] =
      ["KRW-BTC", "KRW-ETH"] := by
  decide

theorem sample_ticker_request :
    ticker_request (["KRW-BTC", "KRW-ETH"].take EngineBridge.kTickerBatchSize) =
      { url := "https://api.upbit.com/v1/ticker", query := [("markets", "KRW-BTC,KRW-ETH")] }
    := by
  decide

/-- A state with no request in flight and no market selected does not change any more. -/
theorem on_event_stalled (m : MathLib) (s : Bridge) (hp : s.pending = none)
    (hr : s.selectionReady = false) (events : List BridgeEvent) :
    events.foldl (on_event m) s = s := by
  induction events with
  | nil => rfl
  | cons e es ih =>
    rw [List.foldl_cons]
    have h : on_event m s e = s := by
      cases e with
      | reply r => exact onNetworkReply_idle m s r hp
      | tick =>
        show EngineBridge.onFiveMinuteTick s = s
        unfold EngineBridge.onFiveMinuteTick
        rw [if_pos (Or.inl hr)]
    rw [h]
    exact ih

/-- After `start`, a successful market-list reply that lists a KRW market and a successful
reply to the ticker request that follows: the ticker reply is dropped and the state does not
change any more. -/
theorem pipeline_stalls (m : MathLib) (arr : List ReplyItem)
    (doc : Option (List ReplyItem)) (harr : krw_markets arr ≠ []) :
    (EngineBridge.onNetworkReply m (EngineBridge.start initial_bridge)
      (NetworkReply.body (some arr))).pending =
      some (ticker_request ((krw_markets arr).take EngineBridge.kTickerBatchSize)) ∧
    (EngineBridge.onNetworkReply m (EngineBridge.start initial_bridge)
      (NetworkReply.body (some arr))).pendingKind = RequestKind.None ∧
    EngineBridge.onNetworkReply m
      (EngineBridge.onNetworkReply m (EngineBridge.start initial_bridge)
        (NetworkReply.body (some arr))) (NetworkReply.body doc) =
      { initial_bridge with
        marketsKRW := krw_markets arr
        nextTickerIndex := ((krw_markets arr).take EngineBridge.kTickerBatchSize).length } ∧
    ∀ events : List BridgeEvent,
      events.foldl (on_event m)
        (EngineBridge.onNetworkReply m
          (EngineBridge.onNetworkReply m (EngineBridge.start initial_bridge)
            (NetworkReply.body (some arr))) (NetworkReply.body doc)) =
      { initial_bridge with
        marketsKRW := krw_markets arr
        nextTickerIndex := ((krw_markets arr).take EngineBridge.kTickerBatchSize).length } := by
  have h1 := onNetworkReply_markets m (EngineBridge.start initial_bridge) arr
    (by rw [start_initial]; simp) (by rw [start_initial]) harr
  have h2 : EngineBridge.onNetworkReply m
      (EngineBridge.onNetworkReply m (EngineBridge.start initial_bridge)
        (NetworkReply.body (some arr))) (NetworkReply.body doc) =
      { initial_bridge with
        marketsKRW := krw_markets arr
        nextTickerIndex := ((krw_markets arr).take EngineBridge.kTickerBatchSize).length } := by
    rw [h1, onNetworkReply_kind_none m _ doc (by simp) rfl]
    rfl
  refine ⟨by rw [h1], by rw [h1], h2, fun events => ?_⟩
  rw [h2]
  exact on_event_stalled m _ rfl rfl events

/-- Claim C16: after `start`, the successful market-list reply that lists `KRW-BTC`,
`BTC-ETH` and `KRW-ETH` makes the bridge issue the ticker request for `KRW-BTC,KRW-ETH`, but
`onNetworkReply` ends with `pendingKind = None` while that request is in flight. The
successful ticker reply is therefore not dispatched as a ticker reply: no 24h notional is
recorded, no candidate is queued, nothing is in flight afterwards, and `selectionReady` stays
false whatever replies and timer ticks follow. The same holds for every market list with at
least one KRW market and every document of the ticker reply. -/
theorem ticker_reply_is_dropped :
    (EngineBridge.start initial_bridge).pendingKind = RequestKind.Markets ∧
    (EngineBridge.onNetworkReply sample_math (EngineBridge.start initial_bridge)
      sample_markets_reply).marketsKRW = ["KRW-BTC", "KRW-ETH"] ∧
    (EngineBridge.onNetworkReply sample_math (EngineBridge.start initial_bridge)
      sample_markets_reply).pending =
      some { url := "https://api.upbit.com/v1/ticker",
             query := [("markets", "KRW-BTC,KRW-ETH")] } ∧
    (EngineBridge.onNetworkReply sample_math (EngineBridge.start initial_bridge)
      sample_markets_reply).pendingKind = RequestKind.None ∧
    (EngineBridge.onNetworkReply sample_math
      (EngineBridge.onNetworkReply sample_math (EngineBridge.start initial_bridge)
        sample_markets_reply) sample_tickers_reply).volume24h = [] ∧
    (EngineBridge.onNetworkReply sample_math
      (EngineBridge.onNetworkReply sample_math (EngineBridge.start initial_bridge)
        sample_markets_reply) sample_tickers_reply).candidateQueue = [] ∧
    (EngineBridge.onNetworkReply sample_math
      (EngineBridge.onNetworkReply sample_math (EngineBridge.start initial_bridge)
        sample_markets_reply) sample_tickers_reply).pending = none ∧
    (EngineBridge.onNetworkReply sample_math
      (EngineBridge.onNetworkReply sample_math (EngineBridge.start initial_bridge)
        sample_markets_reply) sample_tickers_reply).selectionReady = false ∧
    (∀ events : List BridgeEvent,
      (events.foldl (on_event sample_math)
        (EngineBridge.onNetworkReply sample_math
          (EngineBridge.onNetworkReply sample_math (EngineBridge.start initial_bridge)
            sample_markets_reply) sample_tickers_reply)).selectionReady = false) ∧
    (∀ (m : MathLib) (arr : List ReplyItem) (doc : Option (List ReplyItem))
      (events : List BridgeEvent), krw_markets arr ≠ [] →
      (EngineBridge.onNetworkReply m (EngineBridge.start initial_bridge)
        (NetworkReply.body (some arr))).pending ≠ none ∧
      (EngineBridge.onNetworkReply m (EngineBridge.start initial_bridge)
        (NetworkReply.body (some arr))).pendingKind = RequestKind.None ∧
      (events.foldl (on_event m)
        (EngineBridge.onNetworkReply m
          (EngineBridge.onNetworkReply m (EngineBridge.start initial_bridge)
            (NetworkReply.body (some arr))) (NetworkReply.body doc))).volume24h = [] ∧
      (events.foldl (on_event m)
        (EngineBridge.onNetworkReply m
          (EngineBridge.onNetworkReply m (EngineBridge.start initial_bridge)
            (NetworkReply.body (some arr))) (NetworkReply.body doc))).selectionReady = false)
    := by
  have hk : krw_markets
      [{ market := "KRW-BTC" }, { market := "BTC-ETH" }, { market := "KRW-ETH" }] ≠ [] := by
    rw [sample_markets_krw]
    decide
  have h := pipeline_stalls sample_math
    [{ market := "KRW-BTC" }, { market := "BTC-ETH" }, { market := "KRW-ETH" }]
    (some
      [{ market := "KRW-BTC", acc_trade_price_24h := 5000000000 },
       { market := "KRW-ETH", acc_trade_price_24h := 3000000000 }]) hk
  have h1 := onNetworkReply_markets sample_math (EngineBridge.start initial_bridge)
    [{ market := "KRW-BTC" }, { market := "BTC-ETH" }, { market := "KRW-ETH" }]
    (by rw [start_initial]; simp) (by rw [start_initial]) hk
  unfold sample_markets_reply sample_tickers_reply
  refine ⟨rfl, ?_, ?_, h.2.1, ?_, ?_, ?_, ?_, ?_, ?_⟩
  · rw [h1]
    exact sample_markets_krw
  · rw [h.1, sample_markets_krw, sample_ticker_request]
  · rw [h.2.2.1]
    rfl
  · rw [h.2.2.1]
    rfl
  · rw [h.2.2.1]
    rfl
  · rw [h.2.2.1]
    rfl
  · intro events
    rw [h.2.2.2 events]
    rfl
  · intro m arr doc events harr
    have g := pipeline_stalls m arr doc harr
    refine ⟨by rw [g.1]; simp, g.2.1, ?_, ?_⟩
    · rw [g.2.2.2 events]
      rfl
    · rw [g.2.2.2 events]
      rfl

/-! ## C21: the daily stop -/

namespace RiskManager

/-- C21: for all ratios, `daily_stop_triggered` is true exactly when
`daily_pnl_ratio ≤ -|daily_stop_ratio|`, it gives the same answer for a threshold and its
negation, and `daily_stop_triggered(-0.05, 0.03)` is true. -/
theorem daily_stop_triggered_spec (daily_pnl_ratio daily_stop_ratio : ℚ) :
    (daily_stop_triggered daily_pnl_ratio daily_stop_ratio = true ↔
      daily_pnl_ratio ≤ -|daily_stop_ratio|) ∧
    daily_stop_triggered daily_pnl_ratio daily_stop_ratio =
      daily_stop_triggered daily_pnl_ratio (-daily_stop_ratio) ∧
    daily_stop_triggered (-(5 / 100)) (3 / 100) = true := by
  unfold daily_stop_triggered
  refine ⟨by simp, by rw [abs_neg], ?_⟩
  rw [decide_eq_true_eq, abs_of_pos (by norm_num)]
  norm_num

end RiskManager

/-! ## C23, C24, C26, C27: when the strategy does not enter -/

namespace Strategy5mScalper

/-- The rolling high of `evaluate` is at least the high of the last candle, with which it is
seeded. -/
theorem rolling_high_ge_last_high (c : List Candle) :
    (c.getLastD default).high ≤ rolling_high c := by
  by_contra h
  have h1 := (foldl_max_lt (List.range' (c.length - 6) 5) (fun i => (candle_at c i).high)
    (c.getLastD default).high (c.getLastD default).high).mp (lt_of_not_le h)
  exact lt_irrefl _ h1.1

/-- The decision of `evaluate` is the default one unless it enters. -/
theorem evaluate_default_of_no_entry (c : List Candle) (h : (evaluate c).enter_long = false) :
    evaluate c = { enter_long := false, exit_position := false, limit_price := 0 } := by
  unfold evaluate at h ⊢
  by_cases h8 : c.length < 8
  · rw [if_pos h8]
  · rw [if_neg h8] at h ⊢
    simp only [] at h ⊢
    by_cases hb : (decide ((c.getLastD default).close > rolling_high c) &&
        decide (atr5 c 14 > 0)) = true
    · rw [if_pos hb] at h
      simp at h
    · rw [if_neg hb]

/-- No entry when the last close does not exceed the last high. -/
theorem no_entry_of_close_le_high (c : List Candle)
    (h : (c.getLastD default).close ≤ (c.getLastD default).high) :
    (evaluate c).enter_long = false := by
  cases hb : (evaluate c).enter_long with
  | false => rfl
  | true =>
    have h1 := ((evaluate_enter_long_iff c).mp hb).2.1
    have h2 := rolling_high_ge_last_high c
    linarith

theorem getLastD_of_getLast? (c : List Candle) (last : Candle) (h : c.getLast? = some last) :
    c.getLastD default = last := by
  cases c with
  | nil => simp at h
  | cons a l =>
    rw [List.getLast?_eq_getLast _ (List.cons_ne_nil a l)] at h
    rw [List.getLastD_eq_getLast?, List.getLast?_eq_getLast _ (List.cons_ne_nil a l)]
    simpa using h

theorem getLastD_mem (c : List Candle) (hne : c ≠ []) : c.getLastD default ∈ c := by
  rw [List.getLastD_eq_getLast?, List.getLast?_eq_getLast _ hne]
  exact List.getLast_mem hne

theorem gapped_flat16_flat :
    ∀ x ∈ gapped_flat16, x.high = x.low ∧ x.open_ = x.high ∧ x.close = x.high := by
  intro x hx
  unfold gapped_flat16 at hx
  obtain ⟨i, _, rfl⟩ := List.mem_map.mp hx
  exact ⟨rfl, rfl, rfl⟩

/-- C23: for every series, of any length, in which each candle has high = low and open and
close equal to that value, `evaluate` returns the default decision, so `enter_long` is
false. -/
theorem evaluate_flat_no_entry (c : List Candle)
    (hflat : ∀ x ∈ c, x.high = x.low ∧ x.open_ = x.high ∧ x.close = x.high) :
    (evaluate c).enter_long = false ∧
    evaluate c = { enter_long := false, exit_position := false, limit_price := 0 } := by
  have h : (evaluate c).enter_long = false := by
    by_cases hne : c = []
    · rw [hne]
      rfl
    · apply no_entry_of_close_le_high
      rw [(hflat _ (getLastD_mem c hne)).2.2]
  exact ⟨h, evaluate_default_of_no_entry c h⟩

/-- Witness of C23: three candles at the price 5, and sixteen candles without range that
alternate between 5 and 6. -/
theorem evaluate_flat_no_entry_witness :
    (evaluate flat_series).enter_long = false ∧ (evaluate gapped_flat16).enter_long = false :=
  ⟨(evaluate_flat_no_entry flat_series (by
      intro x hx
      simp only [flat_series, List.mem_cons, List.mem_singleton, List.not_mem_nil,
        or_false] at hx
      rcases hx with h | h | h <;> rw [h] <;> exact ⟨rfl, rfl, rfl⟩)).1,
    (evaluate_flat_no_entry gapped_flat16 gapped_flat16_flat).1⟩

/-- C24: for every series the decision of `evaluate` has `exit_position = false`. -/
theorem evaluate_never_exits (c : List Candle) : (evaluate c).exit_position = false := by
  unfold evaluate
  by_cases h8 : c.length < 8
  · rw [if_pos h8]
  · rw [if_neg h8]
    simp only []
    by_cases hb : (decide ((c.getLastD default).close > rolling_high c) &&
        decide (atr5 c 14 > 0)) = true
    · rw [if_pos hb]
    · rw [if_neg hb]

/-- C26: for every series whose last candle has close ≤ high, `evaluate` returns
`enter_long = false`: the rolling high that the last close is compared with is at least
the last candle's own high, with which it is seeded. -/
theorem evaluate_wellformed_no_entry (c : List Candle)
    (h : ∀ last : Candle, c.getLast? = some last → last.close ≤ last.high) :
    (evaluate c).enter_long = false ∧
    (∀ last : Candle, c.getLast? = some last → last.high ≤ rolling_high c) := by
  constructor
  · cases hl : c.getLast? with
    | none =>
      rw [List.getLast?_eq_none_iff] at hl
      rw [hl]
      rfl
    | some last =>
      apply no_entry_of_close_le_high
      rw [getLastD_of_getLast? c last hl]
      exact h last hl
  · intro last hl
    rw [← getLastD_of_getLast? c last hl]
    exact rolling_high_ge_last_high c

/-- Witness of C26: fifteen rising candles, the last of which closes at its high 115. -/
theorem evaluate_wellformed_no_entry_witness :
    rising15.getLast? = some (rising_candle 14) ∧
    (rising_candle 14).close ≤ (rising_candle 14).high ∧
    (evaluate rising15).enter_long = false :=
  ⟨rfl, le_refl _, (evaluate_wellformed_no_entry rising15 (by
    intro last hl
    have h : rising15.getLast? = some (rising_candle 14) := rfl
    rw [h] at hl
    rw [← Option.some.inj hl]
    exact le_refl _)).1⟩

/-- C27: for every series with fewer than 15 candles `atr5(c, 14)` returns 0 and `evaluate`
returns `enter_long = false`, whatever the prices are. -/
theorem evaluate_short_no_entry (c : List Candle) (h : c.length < 15) :
    atr5 c 14 = 0 ∧ (evaluate c).enter_long = false := by
  refine ⟨atr5_short c h, ?_⟩
  cases hb : (evaluate c).enter_long with
  | false => rfl
  | true =>
    have h1 := ((evaluate_enter_long_iff c).mp hb).2.2
    rw [atr5_short c h] at h1
    exact absurd h1 (lt_irrefl 0)

/-- Witness of C27: ten rising candles. -/
theorem evaluate_short_no_entry_witness :
    rising10.length < 15 ∧ atr5 rising10 14 = 0 ∧ (evaluate rising10).enter_long = false :=
  ⟨by decide, evaluate_short_no_entry rising10 (by decide)⟩

end Strategy5mScalper

/-! ## C25: the order of the series and its closed candles -/

namespace EngineBridge

theorem pairwise_dropLast_append (c5 : List Candle) (x : Candle) (hne : c5 ≠ [])
    (hs : c5.Pairwise (fun a b => a.ts_ms < b.ts_ms))
    (hx : x.ts_ms = (c5.getLastD default).ts_ms) :
    (c5.dropLast ++ [x]).Pairwise (fun a b => a.ts_ms < b.ts_ms) := by
  have hc : c5 = c5.dropLast ++ [c5.getLastD default] := by
    rw [List.getLastD_eq_getLast?, List.getLast?_eq_getLast _ hne]
    exact (List.dropLast_append_getLast hne).symm
  rw [hc, List.pairwise_append] at hs
  rw [List.pairwise_append]
  refine ⟨hs.1, List.pairwise_singleton _ _, ?_⟩
  intro a ha b hb
  rw [List.mem_singleton.mp hb, hx]
  exact hs.2.2 a ha _ (List.mem_singleton_self _)

theorem pairwise_append_next (c5 : List Candle) (x : Candle) (hne : c5 ≠ [])
    (hs : c5.Pairwise (fun a b => a.ts_ms < b.ts_ms))
    (hx : (c5.getLastD default).ts_ms < x.ts_ms) :
    (c5 ++ [x]).Pairwise (fun a b => a.ts_ms < b.ts_ms) := by
  have hc : c5 = c5.dropLast ++ [c5.getLastD default] := by
    rw [List.getLastD_eq_getLast?, List.getLast?_eq_getLast _ hne]
    exact (List.dropLast_append_getLast hne).symm
  rw [List.pairwise_append]
  refine ⟨hs, List.pairwise_singleton _ _, ?_⟩
  intro a ha b hb
  rw [List.mem_singleton.mp hb]
  rw [hc, List.pairwise_append] at hs
  rw [hc] at ha
  rcases List.mem_append.mp ha with h | h
  · exact lt_trans (hs.2.2 a h _ (List.mem_singleton_self _)) hx
  · rw [List.mem_singleton.mp h]
    exact hx

theorem tail_append_singleton (c5 : List Candle) (x : Candle) (hne : c5 ≠ []) :
    (c5 ++ [x]).tail = c5.tail ++ [x] := by
  cases c5 with
  | nil => exact absurd rfl hne
  | cons a l => rfl

/-- C25: a series that is strictly increasing in timestamp is strictly increasing in
timestamp after `processTradeMessage`; and the candles before the tail of the result are
the candles before the tail of the input (the series is left alone or its tail is
rewritten), or the whole input (a candle is appended), or the input without its first candle
(a candle is appended and the oldest one erased): every candle of the result other than its
tail is a candle of the input, with all six fields. -/
theorem processTradeMessage_keeps_order (market : String) (c5 : List Candle)
    (obj : TradeMessage) (hs : c5.Pairwise (fun a b => a.ts_ms < b.ts_ms)) :
    (processTradeMessage market c5 obj).Pairwise (fun a b => a.ts_ms < b.ts_ms) ∧
    ((processTradeMessage market c5 obj).dropLast = c5.dropLast ∨
      (processTradeMessage market c5 obj).dropLast = c5 ∨
      (processTradeMessage market c5 obj).dropLast = c5.tail) ∧
    (∀ x ∈ (processTradeMessage market c5 obj).dropLast, x ∈ c5) := by
  have hcases : (processTradeMessage market c5 obj).Pairwise (fun a b => a.ts_ms < b.ts_ms) ∧
      ((processTradeMessage market c5 obj).dropLast = c5.dropLast ∨
        (processTradeMessage market c5 obj).dropLast = c5 ∨
        (processTradeMessage market c5 obj).dropLast = c5.tail) := by
    rcases processTradeMessage_cases market c5 obj with h | ⟨hne, -, -, h⟩ | ⟨hne, hw, h⟩
    · rw [h]
      exact ⟨hs, Or.inl rfl⟩
    · rw [h]
      exact ⟨pairwise_dropLast_append c5 _ hne hs rfl,
        Or.inl (List.dropLast_concat)⟩
    · have hnext : (c5.getLastD default).ts_ms <
          (next_candle (c5.getLastD default) obj).ts_ms := by
        show _ < obj.trade_timestamp
        omega
      have hp := pairwise_append_next c5 _ hne hs hnext
      rw [h]
      by_cases hc : (c5 ++ [next_candle (c5.getLastD default) obj]).length > kCandlesLookback5m
      · rw [if_pos hc]
        refine ⟨List.Pairwise.tail hp, Or.inr (Or.inr ?_)⟩
        rw [tail_append_singleton c5 _ hne]
        exact List.dropLast_concat
      · rw [if_neg hc]
        exact ⟨hp, Or.inr (Or.inl (List.dropLast_concat))⟩
  refine ⟨hcases.1, hcases.2, ?_⟩
  intro x hx
  rcases hcases.2 with h | h | h
  · rw [h] at hx
    exact List.mem_of_mem_dropLast hx
  · rw [h] at hx
    exact hx
  · rw [h] at hx
    exact List.mem_of_mem_tail hx

/-- Witness of C25: on the one-candle series a trade five minutes later appends a candle, and
the baseline candle stays as it is. -/
theorem processTradeMessage_keeps_order_witness :
    [sample_baseline].Pairwise (fun a b => a.ts_ms < b.ts_ms) ∧
    (processTradeMessage "KRW-BTC" [sample_baseline] sample_trade_4).Pairwise
      (fun a b => a.ts_ms < b.ts_ms) ∧
    (∀ x ∈ (processTradeMessage "KRW-BTC" [sample_baseline] sample_trade_4).dropLast,
      x ∈ [sample_baseline]) :=
  ⟨List.pairwise_singleton _ _,
    (processTradeMessage_keeps_order "KRW-BTC" [sample_baseline] sample_trade_4
      (List.pairwise_singleton _ _)).1,
    (processTradeMessage_keeps_order "KRW-BTC" [sample_baseline] sample_trade_4
      (List.pairwise_singleton _ _)).2.2⟩

end EngineBridge

/-! ## C30: the side and the order type that are sent -/

namespace UpbitRestClient

theorem side_is_buy_iff (req : OrderRequest) :
    side_is_buy req = true ↔ req.side = "buy" ∨ req.side = "bid" := by
  unfold side_is_buy
  simp

end UpbitRestClient

namespace UpbitRestClient

end UpbitRestClient

/-! ## Normalising twice in exact arithmetic

With exact rationals in place of `double`, `normalize_price` and `normalize_volume` return
their own results unchanged. For the price this is what the binary64 computation does as
well; for the volume the roundings of binary64 arithmetic matter, and they are treated in
the next section. -/

namespace UpbitRestClient

theorem normalize_volume_steps (price volume : ℚ) (is_buy : Bool) (min_notional : ℚ) :
    normalize_volume price volume is_buy min_notional =
      if price ≤ 0 then 0
      else quantize_volume price min_notional (min_volume_of price is_buy min_notional) volume
    := rfl

theorem min_volume_of_ge (price : ℚ) (is_buy : Bool) (min_notional : ℚ) :
    min_notional / price ≤ min_volume_of price is_buy min_notional := by
  unfold min_volume_of
  split
  · exact le_max_left _ _
  · exact le_refl _

/-- The flooring step of `normalize_volume` does not decrease with its argument. -/
theorem floor_units_mono (s t : ℚ) (h : s ≤ t) :
    cfloor (s * 100000000 + epsilon) / 100000000 ≤
      cfloor (t * 100000000 + epsilon) / 100000000 := by
  have h1 : cfloor (s * 100000000 + epsilon) ≤ cfloor (t * 100000000 + epsilon) := by
    unfold cfloor
    exact_mod_cast Int.floor_mono (by linarith)
  linarith

/-- The flooring step of `normalize_volume` leaves a multiple of `1e-8` as it is. -/
theorem floor_units_fixed (K : ℤ) :
    cfloor ((K : ℚ) / 100000000 * 100000000 + epsilon) / 100000000 = (K : ℚ) / 100000000 := by
  rw [div_mul_cancel₀ _ (by norm_num : (100000000 : ℚ) ≠ 0), cfloor_int_add_eps]

/-- After the ceiling step for `min_volume`, the flooring step of `min_volume` gives the same
value when that value is below `min_volume`. -/
theorem floor_of_ceil_units (mv : ℚ)
    (h : cceil (mv * 100000000 - epsilon) / 100000000 < mv) :
    cfloor (mv * 100000000 + epsilon) / 100000000 =
      cceil (mv * 100000000 - epsilon) / 100000000 := by
  have h1 : mv * 100000000 - epsilon ≤ cceil (mv * 100000000 - epsilon) := cceil_ge _
  have h2 : cceil (mv * 100000000 - epsilon) < mv * 100000000 := by
    rw [div_lt_iff₀ (by norm_num : (0 : ℚ) < 100000000)] at h
    exact h
  have he : epsilon = 1 / 1000000000 := rfl
  have h3 : cfloor (mv * 100000000 + epsilon) = cceil (mv * 100000000 - epsilon) := by
    unfold cceil at h1 h2 ⊢
    apply cfloor_eq_of
    · linarith [epsilon_pos]
    · rw [he] at h1 ⊢
      linarith
  rw [h3]

/-- The statements of `normalize_volume` after the flooring step, applied to a multiple `x`
of `1e-8` that is not more than `1e-9` below `min_volume` and is reproduced by the flooring
step: the first correction does not fire. -/
theorem quantize_volume_of_fixed (price min_notional mv x : ℚ) (K : ℤ)
    (hx : x = (K : ℚ) / 100000000) (hge : ¬ x < mv - epsilon)
    (hfix : mv ≤ x ∨ cfloor (mv * 100000000 + epsilon) / 100000000 = x) :
    quantize_volume price min_notional mv x =
      if price * x < min_notional - epsilon then
        cceil ((min_notional / price) * 100000000 - epsilon) / 100000000
      else x := by
  unfold quantize_volume
  have hq : cfloor (max x mv * 100000000 + epsilon) / 100000000 = x := by
    by_cases h : mv ≤ x
    · rw [max_eq_left h, hx]
      exact floor_units_fixed K
    · rw [max_eq_right (le_of_lt (not_le.mp h))]
      rcases hfix with h1 | h1
      · exact absurd h1 h
      · exact h1
  simp only [hq]
  rw [if_neg hge]

/-- The steps of `normalize_volume` give the same volume when they are applied to their own
result. -/
theorem quantize_volume_idempotent (price min_notional mv volume : ℚ) (hp : 0 < price)
    (hmv : min_notional / price ≤ mv) :
    quantize_volume price min_notional mv (quantize_volume price min_notional mv volume) =
      quantize_volume price min_notional mv volume := by
  have heps := epsilon_pos
  have he : epsilon = 1 / 1000000000 := rfl
  -- the three candidate values
  obtain ⟨K1, hK1⟩ : ∃ K : ℤ, cfloor (max volume mv * 100000000 + epsilon) / 100000000 =
      (K : ℚ) / 100000000 := ⟨⌊max volume mv * 100000000 + epsilon⌋, rfl⟩
  obtain ⟨K2, hK2⟩ : ∃ K : ℤ, cceil (mv * 100000000 - epsilon) / 100000000 =
      (K : ℚ) / 100000000 := ⟨⌈mv * 100000000 - epsilon⌉, rfl⟩
  obtain ⟨K3, hK3⟩ : ∃ K : ℤ,
      cceil (min_notional / price * 100000000 - epsilon) / 100000000 =
      (K : ℚ) / 100000000 := ⟨⌈min_notional / price * 100000000 - epsilon⌉, rfl⟩
  have hmono : cfloor (mv * 100000000 + epsilon) / 100000000 ≤
      cfloor (max volume mv * 100000000 + epsilon) / 100000000 :=
    floor_units_mono _ _ (le_max_right _ _)
  -- the flooring step of `min_volume` reproduces the first value when that is below it
  have hq1fix : mv ≤ cfloor (max volume mv * 100000000 + epsilon) / 100000000 ∨
      cfloor (mv * 100000000 + epsilon) / 100000000 =
        cfloor (max volume mv * 100000000 + epsilon) / 100000000 := by
    by_cases h : mv ≤ cfloor (max volume mv * 100000000 + epsilon) / 100000000
    · exact Or.inl h
    · right
      apply le_antisymm hmono
      have h1 := floor_units_mono _ _ (le_of_lt (not_le.mp h))
      rw [hK1] at h1 ⊢
      rw [floor_units_fixed K1] at h1
      exact h1
  have hceil_ge : ¬ cceil (mv * 100000000 - epsilon) / 100000000 < mv - epsilon := by
    have h1 : mv * 100000000 - epsilon ≤ cceil (mv * 100000000 - epsilon) := cceil_ge _
    rw [not_lt, le_div_iff₀ (by norm_num : (0 : ℚ) < 100000000)]
    rw [he] at h1 ⊢
    linarith
  have hq2fix : mv ≤ cceil (mv * 100000000 - epsilon) / 100000000 ∨
      cfloor (mv * 100000000 + epsilon) / 100000000 =
        cceil (mv * 100000000 - epsilon) / 100000000 := by
    by_cases h : mv ≤ cceil (mv * 100000000 - epsilon) / 100000000
    · exact Or.inl h
    · exact Or.inr (floor_of_ceil_units mv (not_le.mp h))
  -- the value after the first correction
  have hfirst : quantize_volume price min_notional mv volume =
      if price * (if cfloor (max volume mv * 100000000 + epsilon) / 100000000 < mv - epsilon
          then cceil (mv * 100000000 - epsilon) / 100000000
          else cfloor (max volume mv * 100000000 + epsilon) / 100000000)
          < min_notional - epsilon then
        cceil (min_notional / price * 100000000 - epsilon) / 100000000
      else
        (if cfloor (max volume mv * 100000000 + epsilon) / 100000000 < mv - epsilon
          then cceil (mv * 100000000 - epsilon) / 100000000
          else cfloor (max volume mv * 100000000 + epsilon) / 100000000) := rfl
  by_cases hs2 : cfloor (max volume mv * 100000000 + epsilon) / 100000000 < mv - epsilon
  · -- the first correction fires
    rw [if_pos hs2] at hfirst
    by_cases hs3 : price * (cceil (mv * 100000000 - epsilon) / 100000000)
        < min_notional - epsilon
    · rw [if_pos hs3] at hfirst
      rw [hfirst]
      -- the result is the third value
      by_cases hc : mv ≤ cceil (min_notional / price * 100000000 - epsilon) / 100000000
      · rw [quantize_volume_of_fixed price min_notional mv _ K3 hK3
          (by rw [not_lt]; linarith) (Or.inl hc)]
        split
        · rfl
        · rfl
      · have hmax : max (cceil (min_notional / price * 100000000 - epsilon) / 100000000) mv
            = mv := max_eq_right (le_of_lt (not_le.mp hc))
        have hlow : cfloor (mv * 100000000 + epsilon) / 100000000 < mv - epsilon :=
          lt_of_le_of_lt hmono hs2
        unfold quantize_volume
        simp only [hmax]
        rw [if_pos hlow, if_pos hs3]
    · rw [if_neg hs3] at hfirst
      rw [hfirst, quantize_volume_of_fixed price min_notional mv _ K2 hK2 hceil_ge hq2fix,
        if_neg hs3]
  · -- the first correction does not fire
    rw [if_neg hs2] at hfirst
    by_cases hs3 : price * (cfloor (max volume mv * 100000000 + epsilon) / 100000000)
        < min_notional - epsilon
    · rw [if_pos hs3] at hfirst
      rw [hfirst]
      by_cases hc : mv ≤ cceil (min_notional / price * 100000000 - epsilon) / 100000000
      · rw [quantize_volume_of_fixed price min_notional mv _ K3 hK3
          (by rw [not_lt]; linarith) (Or.inl hc)]
        split
        · rfl
        · rfl
      · have hmax : max (cceil (min_notional / price * 100000000 - epsilon) / 100000000) mv
            = mv := max_eq_right (le_of_lt (not_le.mp hc))
        -- the first value is below `min_volume`, so the flooring step reproduces it
        have hbelow : cfloor (max volume mv * 100000000 + epsilon) / 100000000 < mv := by
          have h1 : cfloor (max volume mv * 100000000 + epsilon) / 100000000
              < (min_notional - epsilon) / price := by
            rw [lt_div_iff₀ hp, mul_comm]
            exact hs3
          have h2 : (min_notional - epsilon) / price < min_notional / price :=
            div_lt_div_of_pos_right (by linarith) hp
          linarith
        have hsame : cfloor (mv * 100000000 + epsilon) / 100000000 =
            cfloor (max volume mv * 100000000 + epsilon) / 100000000 := by
          rcases hq1fix with h | h
          · exact absurd h (not_le.mpr hbelow)
          · exact h
        unfold quantize_volume
        simp only [hmax, hsame]
        rw [if_neg hs2, if_pos hs3]
    · rw [if_neg hs3] at hfirst
      rw [hfirst, quantize_volume_of_fixed price min_notional mv _ K1 hK1 hs2 hq1fix,
        if_neg hs3]

/-- The volume that `normalize_volume` returns is returned again when it is normalised
again. -/
theorem normalize_volume_twice (price volume : ℚ) (is_buy : Bool) (min_notional : ℚ) :
    normalize_volume price (normalize_volume price volume is_buy min_notional) is_buy
      min_notional = normalize_volume price volume is_buy min_notional := by
  by_cases hp : price ≤ 0
  · have h0 : normalize_volume price volume is_buy min_notional = 0 := by
      rw [normalize_volume_steps, if_pos hp]
    rw [h0, normalize_volume_steps, if_pos hp]
  · have h1 : normalize_volume price volume is_buy min_notional =
        quantize_volume price min_notional (min_volume_of price is_buy min_notional) volume := by
      rw [normalize_volume_steps, if_neg hp]
    rw [h1, normalize_volume_steps, if_neg hp]
    exact quantize_volume_idempotent price min_notional _ volume (not_le.mp hp)
      (min_volume_of_ge price is_buy min_notional)

end UpbitRestClient

namespace OrderManager

end OrderManager

/-! ## C29: what `extract_uuid` returns -/

theorem drop_of_append (b l r : List Char) (h : b = l ++ r) : b.drop l.length = r := by
  rw [h, List.drop_left]

/-- The scan `find_from` returns the first offset at which the pattern starts. -/
theorem find_from_some (pat l : List Char) (i d : ℕ) (hd : d ≤ l.length)
    (hocc : pat.isPrefixOf (l.drop d) = true)
    (hfirst : ∀ j < d, pat.isPrefixOf (l.drop j) = false) :
    find_from pat l i = some (i + d) := by
  induction l generalizing i d with
  | nil =>
    have hd0 : d = 0 := by simpa using hd
    subst hd0
    unfold find_from
    cases pat with
    | nil => rfl
    | cons a t => simp [List.isPrefixOf] at hocc
  | cons c cs ih =>
    unfold find_from
    cases d with
    | zero =>
      rw [List.drop_zero] at hocc
      rw [if_pos hocc]
      rfl
    | succ d =>
      have h0 := hfirst 0 (Nat.succ_pos d)
      rw [List.drop_zero] at h0
      rw [if_neg (by rw [h0]; decide)]
      rw [ih (i + 1) d (by simpa using hd) (by simpa using hocc)
        (fun j hj => by simpa using hfirst (j + 1) (by omega))]
      congr 1
      omega

/-- The scan `find_from` returns nothing when the pattern starts nowhere. -/
theorem find_from_none (pat l : List Char) (i : ℕ)
    (h : ∀ j ≤ l.length, pat.isPrefixOf (l.drop j) = false) :
    find_from pat l i = none := by
  induction l generalizing i with
  | nil =>
    have h0 := h 0 (le_refl _)
    unfold find_from
    cases pat with
    | nil => simp [List.isPrefixOf] at h0
    | cons a t => rfl
  | cons c cs ih =>
    unfold find_from
    have h0 := h 0 (Nat.zero_le _)
    rw [List.drop_zero] at h0
    rw [if_neg (by rw [h0]; decide)]
    exact ih (i + 1) (fun j hj => by simpa using h (j + 1) (by simpa using hj))

theorem find_sub_some (s pat : List Char) (k : ℕ) (hk : k ≤ s.length)
    (hocc : pat <+: s.drop k) (hfirst : ∀ j < k, ¬ pat <+: s.drop j) :
    find_sub s pat 0 = some k := by
  unfold find_sub
  rw [if_neg (by omega), List.drop_zero,
    find_from_some pat s 0 k hk (List.isPrefixOf_iff_prefix.mpr hocc)
      (fun j hj => by
        cases h : pat.isPrefixOf (s.drop j) with
        | false => rfl
        | true => exact absurd (List.isPrefixOf_iff_prefix.mp h) (hfirst j hj))]
  congr 1
  omega

theorem find_sub_none (s pat : List Char) (h : ∀ j, ¬ pat <+: s.drop j) :
    find_sub s pat 0 = none := by
  unfold find_sub
  rw [if_neg (by omega), List.drop_zero]
  apply find_from_none
  intro j _
  cases hp : pat.isPrefixOf (s.drop j) with
  | false => rfl
  | true => exact absurd (List.isPrefixOf_iff_prefix.mp hp) (h j)

/-- `find_char` returns the position of the first occurrence of the character from `pos`
on. -/
theorem find_char_some (s u v : List Char) (c : Char) (pos : ℕ)
    (h : s.drop pos = u ++ c :: v) (hu : c ∉ u) :
    find_char s c pos = some (pos + u.length) := by
  unfold find_char
  simp only [h]
  have hi : (u ++ c :: v).indexOf c = u.length := by
    rw [List.indexOf_append_of_not_mem hu, List.indexOf_cons_self, add_zero]
  rw [hi, if_pos (by rw [List.length_append, List.length_cons]; omega)]

theorem find_char_none (s : List Char) (c : Char) (pos : ℕ) (h : c ∉ s.drop pos) :
    find_char s c pos = none := by
  unfold find_char
  simp only []
  rw [if_neg (by
    rw [not_lt]
    exact le_of_eq (List.indexOf_eq_length.mpr h).symm)]

theorem drop_of_append_at (b l r : List Char) (n : ℕ) (h : b = l ++ r) (hn : n = l.length) :
    b.drop n = r := by
  rw [hn]
  exact drop_of_append b l r h

theorem colon_not_mem_uuid_key : ':' ∉ uuid_key := by decide

/-- The key, the colon and both quotes are found. -/
theorem extract_uuid_found (body : String) (a b1 b2 X post : List Char)
    (h : body.toList =
      a ++ uuid_key ++ b1 ++ [':'] ++ b2 ++ [dquote] ++ X ++ [dquote] ++ post)
    (hfirst : ∀ j < a.length, ¬ uuid_key <+: body.toList.drop j)
    (h1 : ':' ∉ b1) (h2 : dquote ∉ b2) (h3 : dquote ∉ X) :
    extract_uuid body = String.mk X := by
  have hkey : find_sub body.toList [dquote, 'u', 'u', 'i', 'd', dquote] 0 = some a.length := by
    apply find_sub_some body.toList uuid_key a.length
    · rw [h]
      simp only [List.length_append]
      omega
    · rw [drop_of_append_at body.toList a
        (uuid_key ++ (b1 ++ [':'] ++ b2 ++ [dquote] ++ X ++ [dquote] ++ post)) a.length
        (by rw [h]; simp only [List.append_assoc]) rfl]
      exact List.prefix_append _ _
    · exact hfirst
  have hcolon : find_char body.toList ':' a.length =
      some (a.length + (uuid_key ++ b1).length) := by
    apply find_char_some body.toList (uuid_key ++ b1)
      (b2 ++ [dquote] ++ X ++ [dquote] ++ post)
    · apply drop_of_append_at body.toList a _ a.length _ rfl
      rw [h]
      simp only [List.append_assoc, List.singleton_append, List.cons_append, List.nil_append]
    · intro hc
      rcases List.mem_append.mp hc with hc | hc
      · exact colon_not_mem_uuid_key hc
      · exact h1 hc
  have hq : find_char body.toList dquote (a.length + (uuid_key ++ b1).length + 1) =
      some (a.length + (uuid_key ++ b1).length + 1 + b2.length) := by
    apply find_char_some body.toList b2 (X ++ [dquote] ++ post)
    · apply drop_of_append_at body.toList (a ++ uuid_key ++ b1 ++ [':']) _ _ _
        (by simp only [List.length_append, List.length_singleton]; omega)
      rw [h]
      simp only [List.append_assoc, List.singleton_append, List.cons_append, List.nil_append]
    · exact h2
  have he : find_char body.toList dquote
      (a.length + (uuid_key ++ b1).length + 1 + b2.length + 1) =
      some (a.length + (uuid_key ++ b1).length + 1 + b2.length + 1 + X.length) := by
    apply find_char_some body.toList X post
    · apply drop_of_append_at body.toList (a ++ uuid_key ++ b1 ++ [':'] ++ b2 ++ [dquote]) _ _ _
        (by simp only [List.length_append, List.length_singleton]; omega)
      rw [h]
      simp only [List.append_assoc, List.singleton_append, List.cons_append, List.nil_append]
    · exact h3
  have hdrop : body.toList.drop (a.length + (uuid_key ++ b1).length + 1 + b2.length + 1) =
      X ++ dquote :: post := by
    apply drop_of_append_at body.toList (a ++ uuid_key ++ b1 ++ [':'] ++ b2 ++ [dquote]) _ _ _
      (by simp only [List.length_append, List.length_singleton]; omega)
    rw [h]
    simp only [List.append_assoc, List.singleton_append, List.cons_append, List.nil_append]
  unfold extract_uuid
  simp only [hkey, hcolon, hq, he, hdrop]
  congr 1
  rw [show a.length + (uuid_key ++ b1).length + 1 + b2.length + 1 + X.length -
      (a.length + (uuid_key ++ b1).length + 1 + b2.length) - 1 = X.length by omega]
  exact List.take_left _ _

/-- The key is missing. -/
theorem extract_uuid_no_key (body : String)
    (h : ∀ j, ¬ uuid_key <+: body.toList.drop j) : extract_uuid body = "" := by
  have hkey : find_sub body.toList [dquote, 'u', 'u', 'i', 'd', dquote] 0 = none :=
    find_sub_none body.toList uuid_key h
  unfold extract_uuid
  simp only [hkey]

/-- The colon is missing. -/
theorem extract_uuid_no_colon (body : String) (a r : List Char)
    (h : body.toList = a ++ uuid_key ++ r)
    (hfirst : ∀ j < a.length, ¬ uuid_key <+: body.toList.drop j) (h1 : ':' ∉ r) :
    extract_uuid body = "" := by
  have hkey : find_sub body.toList [dquote, 'u', 'u', 'i', 'd', dquote] 0 = some a.length := by
    apply find_sub_some body.toList uuid_key a.length
    · rw [h]
      simp only [List.length_append]
      omega
    · rw [drop_of_append_at body.toList a (uuid_key ++ r) a.length
        (by rw [h]; simp only [List.append_assoc]) rfl]
      exact List.prefix_append _ _
    · exact hfirst
  have hcolon : find_char body.toList ':' a.length = none := by
    apply find_char_none
    rw [drop_of_append_at body.toList a (uuid_key ++ r) a.length
      (by rw [h]; simp only [List.append_assoc]) rfl]
    intro hc
    rcases List.mem_append.mp hc with hc | hc
    · exact colon_not_mem_uuid_key hc
    · exact h1 hc
  unfold extract_uuid
  simp only [hkey, hcolon]

/-- The opening quote is missing. -/
theorem extract_uuid_no_quote (body : String) (a b1 r : List Char)
    (h : body.toList = a ++ uuid_key ++ b1 ++ [':'] ++ r)
    (hfirst : ∀ j < a.length, ¬ uuid_key <+: body.toList.drop j)
    (h1 : ':' ∉ b1) (h2 : dquote ∉ r) : extract_uuid body = "" := by
  have hkey : find_sub body.toList [dquote, 'u', 'u', 'i', 'd', dquote] 0 = some a.length := by
    apply find_sub_some body.toList uuid_key a.length
    · rw [h]
      simp only [List.length_append]
      omega
    · rw [drop_of_append_at body.toList a (uuid_key ++ (b1 ++ [':'] ++ r)) a.length
        (by rw [h]; simp only [List.append_assoc]) rfl]
      exact List.prefix_append _ _
    · exact hfirst
  have hcolon : find_char body.toList ':' a.length =
      some (a.length + (uuid_key ++ b1).length) := by
    apply find_char_some body.toList (uuid_key ++ b1) r
    · apply drop_of_append_at body.toList a _ a.length _ rfl
      rw [h]
      simp only [List.append_assoc, List.singleton_append, List.cons_append, List.nil_append]
    · intro hc
      rcases List.mem_append.mp hc with hc | hc
      · exact colon_not_mem_uuid_key hc
      · exact h1 hc
  have hq : find_char body.toList dquote (a.length + (uuid_key ++ b1).length + 1) = none := by
    apply find_char_none
    rw [drop_of_append_at body.toList (a ++ uuid_key ++ b1 ++ [':']) r _
      (by rw [h]) (by simp only [List.length_append, List.length_singleton]; omega)]
    exact h2
  unfold extract_uuid
  simp only [hkey, hcolon, hq]

/-- The closing quote is missing. -/
theorem extract_uuid_no_end (body : String) (a b1 b2 r : List Char)
    (h : body.toList = a ++ uuid_key ++ b1 ++ [':'] ++ b2 ++ [dquote] ++ r)
    (hfirst : ∀ j < a.length, ¬ uuid_key <+: body.toList.drop j)
    (h1 : ':' ∉ b1) (h2 : dquote ∉ b2) (h3 : dquote ∉ r) : extract_uuid body = "" := by
  have hkey : find_sub body.toList [dquote, 'u', 'u', 'i', 'd', dquote] 0 = some a.length := by
    apply find_sub_some body.toList uuid_key a.length
    · rw [h]
      simp only [List.length_append]
      omega
    · rw [drop_of_append_at body.toList a
        (uuid_key ++ (b1 ++ [':'] ++ b2 ++ [dquote] ++ r)) a.length
        (by rw [h]; simp only [List.append_assoc]) rfl]
      exact List.prefix_append _ _
    · exact hfirst
  have hcolon : find_char body.toList ':' a.length =
      some (a.length + (uuid_key ++ b1).length) := by
    apply find_char_some body.toList (uuid_key ++ b1) (b2 ++ [dquote] ++ r)
    · apply drop_of_append_at body.toList a _ a.length _ rfl
      rw [h]
      simp only [List.append_assoc, List.singleton_append, List.cons_append, List.nil_append]
    · intro hc
      rcases List.mem_append.mp hc with hc | hc
      · exact colon_not_mem_uuid_key hc
      · exact h1 hc
  have hq : find_char body.toList dquote (a.length + (uuid_key ++ b1).length + 1) =
      some (a.length + (uuid_key ++ b1).length + 1 + b2.length) := by
    apply find_char_some body.toList b2 r
    · apply drop_of_append_at body.toList (a ++ uuid_key ++ b1 ++ [':']) _ _ _
        (by simp only [List.length_append, List.length_singleton]; omega)
      rw [h]
      simp only [List.append_assoc, List.singleton_append, List.cons_append, List.nil_append]
    · exact h2
  have he : find_char body.toList dquote
      (a.length + (uuid_key ++ b1).length + 1 + b2.length + 1) = none := by
    apply find_char_none
    rw [drop_of_append_at body.toList (a ++ uuid_key ++ b1 ++ [':'] ++ b2 ++ [dquote]) r _
      (by rw [h]) (by simp only [List.length_append, List.length_singleton]; omega)]
    exact h3
  unfold extract_uuid
  simp only [hkey, hcolon, hq, he]

theorem uuid_key_length : uuid_key.length = 6 := rfl

/-- The consequence for a body `pre ++ "uuid":"X" ++ post`. -/
theorem extract_uuid_field (pre X post : List Char)
    (hpre : ∀ j, ¬ uuid_key <+: pre.drop j) (hX : dquote ∉ X) :
    extract_uuid (String.mk (pre ++ uuid_key ++ [':', dquote] ++ X ++ [dquote] ++ post)) =
      String.mk X := by
  have hb : (String.mk (pre ++ uuid_key ++ [':', dquote] ++ X ++ [dquote] ++ post)).toList =
      pre ++ (uuid_key ++ (':' :: dquote :: (X ++ dquote :: post))) := by
    show pre ++ uuid_key ++ [':', dquote] ++ X ++ [dquote] ++ post = _
    simp only [List.append_assoc, List.singleton_append, List.cons_append, List.nil_append]
  have hex : ∃ j, uuid_key <+:
      (pre ++ (uuid_key ++ (':' :: dquote :: (X ++ dquote :: post)))).drop j :=
    ⟨pre.length, by rw [List.drop_left]; exact List.prefix_append _ _⟩
  have hk := Nat.find_spec hex
  have hmin : ∀ j < Nat.find hex, ¬ uuid_key <+:
      (pre ++ (uuid_key ++ (':' :: dquote :: (X ++ dquote :: post)))).drop j :=
    fun j hj => Nat.find_min hex hj
  have hle : Nat.find hex ≤ pre.length :=
    Nat.find_min' hex (by rw [List.drop_left]; exact List.prefix_append _ _)
  generalize Nat.find hex = k at hk hmin hle
  rw [List.drop_append_of_le_length hle] at hk
  -- the part of `pre` from `k` on is shorter than the key, so it is a prefix of the key
  have hshort : (pre.drop k).length < uuid_key.length := by
    by_contra hc
    exact hpre k (List.prefix_of_prefix_length_le hk (List.prefix_append _ _) (not_lt.mp hc))
  have hw : pre.drop k <+: uuid_key :=
    List.prefix_of_prefix_length_le (List.prefix_append _ _) hk (le_of_lt hshort)
  have hkey2 : uuid_key <+: pre.drop k ++ uuid_key := by
    have h1 : pre.drop k ++ uuid_key <+:
        pre.drop k ++ (uuid_key ++ (':' :: dquote :: (X ++ dquote :: post))) := by
      rw [← List.append_assoc]
      exact List.prefix_append _ _
    exact List.prefix_of_prefix_length_le hk h1 (by rw [List.length_append]; omega)
  obtain ⟨b1, hb1⟩ := hkey2
  have hcolon : ':' ∉ b1 := by
    intro hc
    have h1 : ':' ∈ pre.drop k ++ uuid_key := by
      rw [← hb1]
      exact List.mem_append_right _ hc
    rcases List.mem_append.mp h1 with h2 | h2
    · exact colon_not_mem_uuid_key (hw.subset h2)
    · exact colon_not_mem_uuid_key h2
  apply extract_uuid_found _ (pre.take k) b1 [] X post
  · rw [hb]
    have h1 : pre = pre.take k ++ pre.drop k := (List.take_append_drop k pre).symm
    calc pre ++ (uuid_key ++ (':' :: dquote :: (X ++ dquote :: post)))
        = pre.take k ++ (pre.drop k ++ uuid_key) ++ (':' :: dquote :: (X ++ dquote :: post)) := by
          nth_rewrite 1 [h1]
          simp only [List.append_assoc]
      _ = pre.take k ++ uuid_key ++ b1 ++ [':'] ++ [] ++ [dquote] ++ X ++ [dquote] ++ post := by
          rw [← hb1]
          simp only [List.append_assoc, List.singleton_append, List.cons_append, List.nil_append]
  · intro j hj
    rw [hb]
    apply hmin
    rw [List.length_take] at hj
    omega
  · exact hcolon
  · simp
  · exact hX

theorem extract_uuid_null_body : extract_uuid null_uuid_body = "market" := by
  decide

/-- C29: `extract_uuid` returns the characters between the first and the second double quote
after the first `:` that follows the first occurrence of the text `"uuid"` (quotes
included), and the empty string when that key, the colon or either quote is missing. So for
a body `pre ++ "uuid":"X" ++ post` in which `pre` does not contain the key and `X` contains
no double quote it returns `X`; and for the body `{"uuid":null,"market":"KRW-BTC"}` it
returns `market`, so that a reply with status 200 and this body is reported as accepted with
the order id `market`. -/
theorem extract_uuid_spec (body : String) :
    (∀ a b1 b2 X post : List Char,
      body.toList = a ++ uuid_key ++ b1 ++ [':'] ++ b2 ++ [dquote] ++ X ++ [dquote] ++ post →
      (∀ j < a.length, ¬ uuid_key <+: body.toList.drop j) →
      ':' ∉ b1 → dquote ∉ b2 → dquote ∉ X → extract_uuid body = String.mk X) ∧
    ((∀ j, ¬ uuid_key <+: body.toList.drop j) → extract_uuid body = "") ∧
    (∀ a r : List Char, body.toList = a ++ uuid_key ++ r →
      (∀ j < a.length, ¬ uuid_key <+: body.toList.drop j) →
      ':' ∉ r → extract_uuid body = "") ∧
    (∀ a b1 r : List Char, body.toList = a ++ uuid_key ++ b1 ++ [':'] ++ r →
      (∀ j < a.length, ¬ uuid_key <+: body.toList.drop j) →
      ':' ∉ b1 → dquote ∉ r → extract_uuid body = "") ∧
    (∀ a b1 b2 r : List Char,
      body.toList = a ++ uuid_key ++ b1 ++ [':'] ++ b2 ++ [dquote] ++ r →
      (∀ j < a.length, ¬ uuid_key <+: body.toList.drop j) →
      ':' ∉ b1 → dquote ∉ b2 → dquote ∉ r → extract_uuid body = "") ∧
    (∀ pre X post : List Char, (∀ j, ¬ uuid_key <+: pre.drop j) → dquote ∉ X →
      extract_uuid (String.mk (pre ++ uuid_key ++ [':', dquote] ++ X ++ [dquote] ++ post)) =
        String.mk X) ∧
    extract_uuid null_uuid_body = "market" ∧
    (UpbitRestClient.post_order sample_lib sample_net_null_uuid sample_client
      sample_request).1.accepted = true ∧
    (UpbitRestClient.post_order sample_lib sample_net_null_uuid sample_client
      sample_request).1.uuid = "market" := by
  have hres : (UpbitRestClient.post_order sample_lib sample_net_null_uuid sample_client
      sample_request).1 =
      { accepted := true, uuid := "market", http_status := 200, error_message := "",
        raw_response := null_uuid_body } := by
    rw [(UpbitRestClient.post_order_performed sample_lib sample_lib_wellBehaved
      sample_net_null_uuid sample_client sample_request (by decide) (by decide) (by decide)
      rfl).1]
    unfold reply_result
    rw [if_neg (by decide), if_neg (by decide)]
    rw [show sample_net_null_uuid.reply.response = null_uuid_body from rfl,
      extract_uuid_null_body]
    rfl
  refine ⟨fun a b1 b2 X post h hf h1 h2 h3 => extract_uuid_found body a b1 b2 X post h hf h1 h2 h3,
    extract_uuid_no_key body,
    fun a r h hf h1 => extract_uuid_no_colon body a r h hf h1,
    fun a b1 r h hf h1 h2 => extract_uuid_no_quote body a b1 r h hf h1 h2,
    fun a b1 b2 r h hf h1 h2 h3 => extract_uuid_no_end body a b1 b2 r h hf h1 h2 h3,
    extract_uuid_field, extract_uuid_null_body, ?_, ?_⟩
  · rw [hres]
  · rw [hres]

/-- Instance of C29: the body `xx"uuid":"abc"yy`, with `pre = xx` and `X = abc`. -/
theorem extract_uuid_spec_witness :
    extract_uuid (String.mk (['x', 'x'] ++ uuid_key ++ [':', dquote] ++ ['a', 'b', 'c'] ++
      [dquote] ++ ['y', 'y'])) = "abc" :=
  (extract_uuid_spec "").2.2.2.2.2.1 ['x', 'x'] ['a', 'b', 'c'] ['y', 'y']
    (by
      intro j
      by_cases hj : j < 3
      · interval_cases j <;> decide
      · rw [List.drop_eq_nil_of_le (by simp; omega)]
        decide)
    (by decide)

/-! ## C22: the text of a price or volume -/

theorem digitChar_digit :
    ∀ k < 10, (Nat.digitChar k).toNat - 48 = k ∧ (Nat.digitChar k).isDigit = true := by
  decide

theorem foldl_digits_append (l1 l2 : List Char) (acc : ℕ) :
    (l1 ++ l2).foldl (fun acc c => 10 * acc + (c.toNat - 48)) acc =
      l2.foldl (fun acc c => 10 * acc + (c.toNat - 48))
        (l1.foldl (fun acc c => 10 * acc + (c.toNat - 48)) acc) :=
  List.foldl_append _ _ _ _

/-- The digits that the library writes for a number: they are decimal digits and denote
it. -/
theorem toDigitsCore_spec (fuel n : ℕ) (ds : List Char) (h : n < fuel) :
    ∃ l : List Char, Nat.toDigitsCore 10 fuel n ds = l ++ ds ∧ l ≠ [] ∧
      (∀ c ∈ l, c.isDigit = true) ∧
      ∀ acc : ℕ, l.foldl (fun acc c => 10 * acc + (c.toNat - 48)) acc =
        acc * 10 ^ l.length + n := by
  induction fuel generalizing n ds with
  | zero => omega
  | succ fuel ih =>
    have hd := digitChar_digit (n % 10) (Nat.mod_lt _ (by norm_num))
    unfold Nat.toDigitsCore
    simp only []
    by_cases h0 : n / 10 = 0
    · rw [if_pos h0]
      refine ⟨[Nat.digitChar (n % 10)], rfl, by simp, ?_, ?_⟩
      · intro c hc
        rw [List.mem_singleton.mp hc]
        exact hd.2
      · intro acc
        simp only [List.foldl_cons, List.foldl_nil, List.length_singleton, pow_one, hd.1]
        have : n % 10 = n := Nat.mod_eq_of_lt (by omega)
        omega
    · rw [if_neg h0]
      obtain ⟨l, hl, _, hdig, hval⟩ := ih (n / 10) (Nat.digitChar (n % 10) :: ds) (by omega)
      refine ⟨l ++ [Nat.digitChar (n % 10)], ?_, by simp, ?_, ?_⟩
      · rw [hl]
        simp
      · intro c hc
        rcases List.mem_append.mp hc with h1 | h1
        · exact hdig c h1
        · rw [List.mem_singleton.mp h1]
          exact hd.2
      · intro acc
        rw [foldl_digits_append, hval]
        simp only [List.foldl_cons, List.foldl_nil, List.length_append, List.length_singleton,
          hd.1]
        have h2 := Nat.div_add_mod n 10
        rw [pow_succ]
        nlinarith [h2]

theorem repr_spec (n : ℕ) :
    (Nat.repr n).toList ≠ [] ∧ (∀ c ∈ (Nat.repr n).toList, c.isDigit = true) ∧
      ∀ acc : ℕ, (Nat.repr n).toList.foldl (fun acc c => 10 * acc + (c.toNat - 48)) acc =
        acc * 10 ^ (Nat.repr n).toList.length + n := by
  obtain ⟨l, hl, hne, hdig, hval⟩ := toDigitsCore_spec (n + 1) n [] (by omega)
  have h : (Nat.repr n).toList = l := by
    show Nat.toDigitsCore 10 (n + 1) n [] = l
    rw [hl, List.append_nil]
  rw [h]
  exact ⟨hne, hdig, hval⟩

theorem digits_value_repr (n : ℕ) : digits_value (Nat.repr n).toList = n := by
  unfold digits_value
  rw [(repr_spec n).2.2 0]
  omega

theorem foldl_digits_zeros (k : ℕ) (acc : ℕ) :
    (List.replicate k '0').foldl (fun acc c => 10 * acc + (c.toNat - 48)) acc =
      acc * 10 ^ k := by
  induction k generalizing acc with
  | zero => simp
  | succ k ih =>
    rw [List.replicate_succ, List.foldl_cons, ih]
    have h : ('0' : Char).toNat - 48 = 0 := by decide
    rw [h, pow_succ]
    ring

/-- What `strip_trailing` removes is a run of the character, and what it leaves does not end
in the character. -/
theorem strip_trailing_spec (c : Char) (s : List Char) :
    (∃ k : ℕ, s = strip_trailing c s ++ List.replicate k c) ∧
      ∀ x : Char, (strip_trailing c s).getLast? = some x → x ≠ c := by
  unfold strip_trailing
  constructor
  · refine ⟨(s.reverse.takeWhile (fun x => x == c)).length, ?_⟩
    have h1 : s.reverse = s.reverse.takeWhile (fun x => x == c) ++
        s.reverse.dropWhile (fun x => x == c) := (List.takeWhile_append_dropWhile _ _).symm
    have h2 : s.reverse.takeWhile (fun x => x == c) =
        List.replicate (s.reverse.takeWhile (fun x => x == c)).length c := by
      rw [List.eq_replicate_iff]
      refine ⟨rfl, ?_⟩
      intro b hb
      have := List.mem_takeWhile_imp hb
      simpa using this
    have h3 : s = (s.reverse.dropWhile (fun x => x == c)).reverse ++
        (s.reverse.takeWhile (fun x => x == c)).reverse := by
      rw [← List.reverse_append, ← h1, List.reverse_reverse]
    rw [h2, List.reverse_replicate] at h3
    exact h3
  · intro x hx
    rw [List.getLast?_reverse] at hx
    intro hxc
    have h := List.head?_dropWhile_not (fun x => x == c) s.reverse
    rw [hx] at h
    simp [hxc] at h

/-- Stripping stops at a character that is not the stripped one. -/
theorem strip_trailing_append_cons (c x : Char) (a t : List Char) (hx : x ≠ c) :
    strip_trailing c (a ++ x :: t) = a ++ x :: strip_trailing c t := by
  unfold strip_trailing
  rw [List.reverse_append, List.reverse_cons, List.append_assoc, List.dropWhile_append]
  by_cases h : (List.dropWhile (fun x => x == c) t.reverse).isEmpty = true
  · rw [if_pos h]
    rw [List.isEmpty_iff] at h
    rw [h]
    have hd : List.dropWhile (fun y => y == c) ([x] ++ a.reverse) = [x] ++ a.reverse := by
      rw [List.singleton_append, List.dropWhile_cons_of_neg (by simpa using hx)]
    rw [hd]
    simp
  · rw [if_neg h]
    simp

theorem round_half_even_units (n : ℕ) :
    round_half_even (|(n : ℚ) / 100000000| * (10 : ℚ) ^ 8) = (n : ℤ) := by
  have h1 : |(n : ℚ) / 100000000| * (10 : ℚ) ^ 8 = ((n : ℤ) : ℚ) := by
    rw [abs_of_nonneg (by positivity)]
    push_cast
    norm_num
  rw [h1]
  unfold round_half_even
  simp only [Int.floor_intCast, sub_self]
  rw [if_pos (by norm_num)]

/-- The fraction digits that the library writes for `n / 1e8`. -/
theorem fraction_digits (n : ℕ) :
    (List.replicate (8 - (Nat.repr (n % 10 ^ 8)).toList.length) '0' ++
      (Nat.repr (n % 10 ^ 8)).toList).length = 8 ∧
    (∀ c ∈ List.replicate (8 - (Nat.repr (n % 10 ^ 8)).toList.length) '0' ++
      (Nat.repr (n % 10 ^ 8)).toList, c.isDigit = true) ∧
    digits_value (List.replicate (8 - (Nat.repr (n % 10 ^ 8)).toList.length) '0' ++
      (Nat.repr (n % 10 ^ 8)).toList) = n % 10 ^ 8 := by
  have hlen : (Nat.repr (n % 10 ^ 8)).toList.length ≤ 8 :=
    Nat.repr_length (n % 10 ^ 8) 8 (by norm_num) (Nat.mod_lt _ (by norm_num))
  refine ⟨?_, ?_, ?_⟩
  · rw [List.length_append, List.length_replicate]
    omega
  · intro c hc
    rcases List.mem_append.mp hc with h | h
    · rw [List.eq_of_mem_replicate h]
      decide
    · exact (repr_spec _).2.1 c h
  · unfold digits_value
    rw [foldl_digits_append, foldl_digits_zeros, (repr_spec _).2.2]
    ring

theorem fixed_repr_units (n : ℕ) :
    fixed_repr ((n : ℚ) / 100000000) 8 =
      (Nat.repr (n / 10 ^ 8)).toList ++ '.' ::
        (List.replicate (8 - (Nat.repr (n % 10 ^ 8)).toList.length) '0' ++
          (Nat.repr (n % 10 ^ 8)).toList) := by
  unfold fixed_repr
  simp only [round_half_even_units, Int.toNat_ofNat]
  rw [if_neg (not_lt.mpr (by positivity)), if_neg (by decide)]
  simp only [List.nil_append, List.append_assoc, List.singleton_append, List.cons_append]

theorem dot_not_digit : ('.' : Char).isDigit = false := by decide

/-- The statements of `format_decimal` after the library has written integer digits, a
point and fraction digits. -/
theorem format_decimal_of_repr (value : ℚ) (ip frac : List Char) (hip : ip ≠ [])
    (hfrac : ∀ c ∈ frac, c.isDigit = true) (h : fixed_repr value 8 = ip ++ '.' :: frac) :
    format_decimal value 8 =
      String.mk
        (if strip_trailing '0' frac = [] then ip
          else ip ++ '.' :: strip_trailing '0' frac) := by
  unfold format_decimal
  rw [h]
  simp only []
  have hc : (ip ++ '.' :: frac).contains '.' = true := by simp
  rw [if_pos hc, strip_trailing_append_cons '0' '.' ip frac (by decide)]
  obtain ⟨⟨k, hk⟩, hlast⟩ := strip_trailing_spec '0' frac
  by_cases hfs : strip_trailing '0' frac = []
  · rw [hfs, if_pos rfl]
    have hl : (ip ++ ['.']).getLast? = some '.' := by simp
    have hd : (ip ++ ['.']).dropLast = ip := List.dropLast_concat
    have he : ¬ ip.isEmpty = true := by simpa using hip
    rw [if_pos hl, hd, if_neg he]
  · rw [if_neg hfs]
    have hl : ¬ (ip ++ '.' :: strip_trailing '0' frac).getLast? = some '.' := by
      intro hc
      rw [show ip ++ '.' :: strip_trailing '0' frac =
        (ip ++ ['.']) ++ strip_trailing '0' frac by simp,
        List.getLast?_append_of_ne_nil _ hfs] at hc
      have hmem : '.' ∈ strip_trailing '0' frac := List.mem_of_getLast?_eq_some hc
      have hmem2 : '.' ∈ frac := by
        rw [hk]
        exact List.mem_append_left _ hmem
      have := hfrac '.' hmem2
      rw [dot_not_digit] at this
      exact absurd this (by decide)
    have he : ¬ (ip ++ '.' :: strip_trailing '0' frac).isEmpty = true := by simp
    rw [if_neg hl, if_neg he]

/-- The text of `n / 1e8`: the integer digits, and the fraction digits without their
trailing zeros when some remain. -/
theorem format_decimal_units (n : ℕ) :
    format_decimal ((n : ℚ) / 100000000) 8 =
      String.mk
        (if strip_trailing '0'
            (List.replicate (8 - (Nat.repr (n % 10 ^ 8)).toList.length) '0' ++
              (Nat.repr (n % 10 ^ 8)).toList) = [] then
          (Nat.repr (n / 10 ^ 8)).toList
        else
          (Nat.repr (n / 10 ^ 8)).toList ++ '.' ::
            strip_trailing '0'
              (List.replicate (8 - (Nat.repr (n % 10 ^ 8)).toList.length) '0' ++
                (Nat.repr (n % 10 ^ 8)).toList)) :=
  format_decimal_of_repr _ _ _ (repr_spec _).1 (fraction_digits n).2.1 (fixed_repr_units n)

theorem digit_ne_dot (c : Char) (h : c.isDigit = true) : c ≠ '.' := by
  intro hc
  rw [hc, dot_not_digit] at h
  exact absurd h (by decide)

theorem takeWhile_digits (l r : List Char) (h : ∀ c ∈ l, c.isDigit = true) :
    (l ++ '.' :: r).takeWhile (fun c => c != '.') = l ∧
    (l ++ '.' :: r).dropWhile (fun c => c != '.') = '.' :: r := by
  have hp : ∀ a ∈ l, (fun c => c != '.') a = true := by
    intro a ha
    simpa using digit_ne_dot a (h a ha)
  constructor
  · rw [List.takeWhile_append_of_pos hp, List.takeWhile_cons_of_neg (by simp),
      List.append_nil]
  · rw [List.dropWhile_append_of_pos hp, List.dropWhile_cons_of_neg (by simp)]

theorem takeWhile_digits_only (l : List Char) (h : ∀ c ∈ l, c.isDigit = true) :
    l.takeWhile (fun c => c != '.') = l ∧ l.dropWhile (fun c => c != '.') = [] := by
  have hp : ∀ a ∈ l, (fun c => c != '.') a = true := by
    intro a ha
    simpa using digit_ne_dot a (h a ha)
  exact ⟨List.takeWhile_eq_self_iff.mpr hp, List.dropWhile_eq_nil_iff.mpr hp⟩

/-- The properties of the text made of integer digits `ip` and of the fraction digits `frac`
without their trailing zeros. -/
theorem plain_decimal_props (ip frac : List Char) (N M : ℕ) (hne : ip ≠ [])
    (hipd : ∀ c ∈ ip, c.isDigit = true) (hipv : digits_value ip = N)
    (hlen : frac.length = 8) (hfd : ∀ c ∈ frac, c.isDigit = true)
    (hfv : digits_value frac = M) (s : String)
    (hs : s = String.mk (if strip_trailing '0' frac = [] then ip
      else ip ++ '.' :: strip_trailing '0' frac)) :
    (∀ c ∈ s.toList, c.isDigit = true ∨ c = '.') ∧
    s.toList.count '.' ≤ 1 ∧
    s ≠ "" ∧
    ('.' ∈ s.toList → s.toList.getLast? ≠ some '0') ∧
    s.toList.getLast? ≠ some '.' ∧
    decimal_value s = (N : ℚ) + (M : ℚ) / 100000000 := by
  obtain ⟨⟨k, hk⟩, hlast⟩ := strip_trailing_spec '0' frac
  have hfsd : ∀ c ∈ strip_trailing '0' frac, c.isDigit = true := by
    intro c hc
    apply hfd
    rw [hk]
    exact List.mem_append_left _ hc
  have hdot_ip : '.' ∉ ip := fun h => digit_ne_dot _ (hipd _ h) rfl
  have hdot_fs : '.' ∉ strip_trailing '0' frac := fun h => digit_ne_dot _ (hfsd _ h) rfl
  have hM : M = digits_value (strip_trailing '0' frac) * 10 ^ k := by
    rw [← hfv]
    nth_rewrite 1 [hk]
    unfold digits_value
    rw [foldl_digits_append, foldl_digits_zeros]
  have hlen2 : (strip_trailing '0' frac).length + k = 8 := by
    rw [← hlen]
    nth_rewrite 2 [hk]
    rw [List.length_append, List.length_replicate]
  by_cases hfs : strip_trailing '0' frac = []
  · rw [if_pos hfs] at hs
    have hl : s.toList = ip := by
      rw [hs]
      rfl
    have hM0 : M = 0 := by
      rw [hM, hfs]
      simp [digits_value]
    refine ⟨?_, ?_, ?_, ?_, ?_, ?_⟩
    · intro c hc
      rw [hl] at hc
      exact Or.inl (hipd c hc)
    · rw [hl, List.count_eq_zero_of_not_mem hdot_ip]
      omega
    · intro h
      rw [h] at hl
      exact hne hl.symm
    · intro h
      rw [hl] at h
      exact absurd h hdot_ip
    · rw [hl]
      intro h
      exact hdot_ip (List.mem_of_getLast?_eq_some h)
    · unfold decimal_value
      simp only [hl, (takeWhile_digits_only ip hipd).1, (takeWhile_digits_only ip hipd).2,
        hipv, hM0]
      simp [digits_value]
  · rw [if_neg hfs] at hs
    have hl : s.toList = ip ++ '.' :: strip_trailing '0' frac := by
      rw [hs]
      rfl
    have hlast2 : s.toList.getLast? = (strip_trailing '0' frac).getLast? := by
      rw [hl, show ip ++ '.' :: strip_trailing '0' frac =
        (ip ++ ['.']) ++ strip_trailing '0' frac by simp,
        List.getLast?_append_of_ne_nil _ hfs]
    refine ⟨?_, ?_, ?_, ?_, ?_, ?_⟩
    · intro c hc
      rw [hl] at hc
      rcases List.mem_append.mp hc with h | h
      · exact Or.inl (hipd c h)
      · rcases List.mem_cons.mp h with h | h
        · exact Or.inr h
        · exact Or.inl (hfsd c h)
    · rw [hl, List.count_append, List.count_cons_self,
        List.count_eq_zero_of_not_mem hdot_ip, List.count_eq_zero_of_not_mem hdot_fs]
    · intro h
      rw [h] at hl
      have : ([] : List Char) = ip ++ '.' :: strip_trailing '0' frac := hl
      simp at this
    · intro _
      rw [hlast2]
      intro h
      exact hlast '0' h rfl
    · rw [hlast2]
      intro h
      exact hdot_fs (List.mem_of_getLast?_eq_some h)
    · unfold decimal_value
      simp only [hl, (takeWhile_digits ip _ hipd).1, (takeWhile_digits ip _ hipd).2,
        List.drop_succ_cons, List.drop_zero, hipv]
      congr 1
      rw [hM]
      have h8 : (100000000 : ℚ) = 10 ^ ((strip_trailing '0' frac).length + k) := by
        rw [hlen2]
        norm_num
      rw [h8, pow_add]
      push_cast
      field_simp
      ring

/-- C22: for every non-negative value that is an exact multiple of `1e-8`,
`format_decimal(v, 8)` consists of digits and at most one point (so it has no exponent), is
not empty, does not end in `0` when it has a point, does not end in a point, and denotes
exactly `v`; the whole number 100 is written `100` and 0 is written `0`. -/
theorem format_decimal_plain (v : ℚ) (hv : 0 ≤ v) (hm : ∃ n : ℤ, v = (n : ℚ) / 100000000) :
    (∀ c ∈ (format_decimal v 8).toList, c.isDigit = true ∨ c = '.') ∧
    (format_decimal v 8).toList.count '.' ≤ 1 ∧
    format_decimal v 8 ≠ "" ∧
    ('.' ∈ (format_decimal v 8).toList → (format_decimal v 8).toList.getLast? ≠ some '0') ∧
    (format_decimal v 8).toList.getLast? ≠ some '.' ∧
    decimal_value (format_decimal v 8) = v ∧
    format_decimal 100 8 = "100" ∧
    format_decimal 0 8 = "0" := by
  have hgen : ∀ n : ℕ,
      (∀ c ∈ (format_decimal ((n : ℚ) / 100000000) 8).toList, c.isDigit = true ∨ c = '.') ∧
      (format_decimal ((n : ℚ) / 100000000) 8).toList.count '.' ≤ 1 ∧
      format_decimal ((n : ℚ) / 100000000) 8 ≠ "" ∧
      ('.' ∈ (format_decimal ((n : ℚ) / 100000000) 8).toList →
        (format_decimal ((n : ℚ) / 100000000) 8).toList.getLast? ≠ some '0') ∧
      (format_decimal ((n : ℚ) / 100000000) 8).toList.getLast? ≠ some '.' ∧
      decimal_value (format_decimal ((n : ℚ) / 100000000) 8) = (n : ℚ) / 100000000 := by
    intro n
    have hp := plain_decimal_props (Nat.repr (n / 10 ^ 8)).toList _ (n / 10 ^ 8) (n % 10 ^ 8)
      (repr_spec _).1 (repr_spec _).2.1 (digits_value_repr _) (fraction_digits n).1
      (fraction_digits n).2.1 (fraction_digits n).2.2 _ (format_decimal_units n)
    refine ⟨hp.1, hp.2.1, hp.2.2.1, hp.2.2.2.1, hp.2.2.2.2.1, ?_⟩
    rw [hp.2.2.2.2.2]
    have h := Nat.div_add_mod n (10 ^ 8)
    have hq : ((10 ^ 8 * (n / 10 ^ 8) + n % 10 ^ 8 : ℕ) : ℚ) = (n : ℚ) := by rw [h]
    push_cast at hq
    rw [← hq]
    norm_num
    ring
  obtain ⟨z, hz⟩ := hm
  have hz0 : 0 ≤ z := by
    have h1 : (0 : ℚ) ≤ (z : ℚ) / 100000000 := by rw [← hz]; exact hv
    have h2 : (0 : ℚ) ≤ (z : ℚ) := by
      rw [le_div_iff₀ (by norm_num : (0 : ℚ) < 100000000)] at h1
      simpa using h1
    exact_mod_cast h2
  obtain ⟨n, hn⟩ := Int.eq_ofNat_of_zero_le hz0
  have hvn : v = (n : ℚ) / 100000000 := by
    rw [hz, hn, Int.cast_natCast]
  have h100 : format_decimal 100 8 = "100" := by
    have h := format_decimal_units 10000000000
    rw [show ((10000000000 : ℕ) : ℚ) / 100000000 = 100 by norm_num] at h
    rw [h]
    decide
  have h0 : format_decimal 0 8 = "0" := by
    have h := format_decimal_units 0
    rw [show ((0 : ℕ) : ℚ) / 100000000 = 0 by norm_num] at h
    rw [h]
    decide
  rw [hvn]
  exact ⟨(hgen n).1, (hgen n).2.1, (hgen n).2.2.1, (hgen n).2.2.2.1, (hgen n).2.2.2.2.1,
    (hgen n).2.2.2.2.2, h100, h0⟩

theorem format_decimal_half : format_decimal (1 / 2) 8 = "0.5" := by
  have h := format_decimal_units 50000000
  rw [show ((50000000 : ℕ) : ℚ) / 100000000 = 1 / 2 by norm_num] at h
  rw [h]
  decide

/-- Witness of C22: the value 0.5 is written `0.5`, which denotes it. -/
theorem format_decimal_plain_witness :
    (0 : ℚ) ≤ 1 / 2 ∧ (∃ n : ℤ, (1 / 2 : ℚ) = (n : ℚ) / 100000000) ∧
    format_decimal (1 / 2) 8 = "0.5" ∧ decimal_value (format_decimal (1 / 2) 8) = 1 / 2 :=
  ⟨by norm_num, ⟨50000000, by norm_num⟩, format_decimal_half,
    (format_decimal_plain (1 / 2) (by norm_num) ⟨50000000, by norm_num⟩).2.2.2.2.2.1⟩

/-! ## C28: normalising a volume twice in binary64 arithmetic

Rounding lemmas for `Ieee.round_double`, one pass of `Ieee.normalize_volume` on a volume
above the minimum volume, and the second pass on the result of the first. The compiler is
taken to round the product `target * 1e8` before it adds `epsilon` (no fused
multiply-add). -/

namespace Ieee

/-- Rounding to the nearest integer moves a number by at most one half. -/
theorem round_half_even_error (y : ℚ) : |(round_half_even y : ℚ) - y| ≤ 1 / 2 := by
  unfold round_half_even
  have h1 : (⌊y⌋ : ℚ) ≤ y := Int.floor_le y
  have h2 : y < (⌊y⌋ : ℚ) + 1 := Int.lt_floor_add_one y
  simp only []
  rw [abs_le]
  by_cases ha : y - (⌊y⌋ : ℚ) < 1 / 2
  · rw [if_pos ha]
    constructor <;> linarith
  · rw [if_neg ha]
    by_cases hb : 1 / 2 < y - (⌊y⌋ : ℚ)
    · rw [if_pos hb]
      push_cast
      constructor <;> linarith
    · rw [if_neg hb]
      have hc : y - (⌊y⌋ : ℚ) = 1 / 2 := le_antisymm (not_lt.mp hb) (not_lt.mp ha)
      by_cases hd : ⌊y⌋ % 2 = 0
      · rw [if_pos hd]
        constructor <;> linarith
      · rw [if_neg hd]
        push_cast
        constructor <;> linarith

theorem log_bounds (x : ℚ) (hx : 0 < x) :
    (2 : ℚ) ^ Int.log 2 x ≤ x ∧ x < (2 : ℚ) ^ (Int.log 2 x + 1) := by
  have h1 := Int.zpow_log_le_self (by norm_num : 1 < 2) hx
  have h2 := Int.lt_zpow_succ_log_self (by norm_num : 1 < 2) x
  exact ⟨by exact_mod_cast h1, by exact_mod_cast h2⟩

theorem two_zpow_pos (e : ℤ) : (0 : ℚ) < (2 : ℚ) ^ e := zpow_pos (by norm_num) e

/-- The relative error of a rounding is at most `2 ^ -53`. -/
theorem round_double_error (x : ℚ) : |round_double x - x| ≤ |x| * (2 : ℚ) ^ (-53 : ℤ) := by
  by_cases h0 : x = 0
  · rw [h0]
    simp [round_double]
  have hpos : 0 < |x| := abs_pos.mpr h0
  have hu := two_zpow_pos (Int.log 2 |x| - 52)
  have hr : round_double x =
      (round_half_even (x / (2 : ℚ) ^ (Int.log 2 |x| - 52)) : ℚ) *
        (2 : ℚ) ^ (Int.log 2 |x| - 52) := by
    unfold round_double
    rw [if_neg h0]
  have he := round_half_even_error (x / (2 : ℚ) ^ (Int.log 2 |x| - 52))
  have h1 : round_double x - x =
      ((round_half_even (x / (2 : ℚ) ^ (Int.log 2 |x| - 52)) : ℚ) -
        x / (2 : ℚ) ^ (Int.log 2 |x| - 52)) * (2 : ℚ) ^ (Int.log 2 |x| - 52) := by
    rw [hr, sub_mul, div_mul_cancel₀ _ (ne_of_gt hu)]
  rw [h1, abs_mul, abs_of_pos hu]
  have h2 : (2 : ℚ) ^ (Int.log 2 |x| - 52) * (1 / 2) ≤ |x| * (2 : ℚ) ^ (-53 : ℤ) := by
    have h3 := (log_bounds |x| hpos).1
    have h4 : (2 : ℚ) ^ (Int.log 2 |x| - 52) * (1 / 2) =
        (2 : ℚ) ^ Int.log 2 |x| * (2 : ℚ) ^ (-53 : ℤ) := by
      rw [show Int.log 2 |x| - 52 = Int.log 2 |x| + (-52) by ring,
        zpow_add₀ (by norm_num : (2 : ℚ) ≠ 0)]
      norm_num
      ring
    rw [h4]
    exact mul_le_mul_of_nonneg_right h3 (le_of_lt (two_zpow_pos _))
  calc |(round_half_even (x / (2 : ℚ) ^ (Int.log 2 |x| - 52)) : ℚ) -
        x / (2 : ℚ) ^ (Int.log 2 |x| - 52)| * (2 : ℚ) ^ (Int.log 2 |x| - 52)
      ≤ (1 / 2) * (2 : ℚ) ^ (Int.log 2 |x| - 52) :=
        mul_le_mul_of_nonneg_right he (le_of_lt hu)
    _ = (2 : ℚ) ^ (Int.log 2 |x| - 52) * (1 / 2) := by ring
    _ ≤ |x| * (2 : ℚ) ^ (-53 : ℤ) := h2


/-- The bounds that the relative error of a rounding gives for a positive number. -/
theorem round_double_bounds (x : ℚ) (hx : 0 < x) :
    x * (1 - 1 / 9007199254740992) ≤ round_double x ∧
      round_double x ≤ x * (1 + 1 / 9007199254740992) := by
  have h := abs_le.mp (round_double_error x)
  rw [abs_of_pos hx, show (2 : ℚ) ^ (-53 : ℤ) = 1 / 9007199254740992 by norm_num] at h
  constructor <;> linarith [h.1, h.2]

theorem fee_rate_bounds :
    (5 / 10000 : ℚ) * (1 - 1 / 9007199254740992) ≤ taker_fee_rate ∧
      taker_fee_rate ≤ (5 / 10000 : ℚ) * (1 + 1 / 9007199254740992) :=
  round_double_bounds _ (by norm_num)

theorem fee_rate_pos : taker_fee_rate > 0 := by
  have h := fee_rate_bounds.1
  have : (0 : ℚ) < (5 / 10000 : ℚ) * (1 - 1 / 9007199254740992) := by norm_num
  exact lt_of_lt_of_le this h

end Ieee

namespace OrderManager

end OrderManager
